import Mathlib

/-!
# Synopsys DesignWare eMMC host driver (`drivers/synopsys/emmc/dw_mmc.c`)

A shallow embedding of the driver's command dispatcher, clock controller and
DMA descriptor builder, followed by theorems about them.

Conventions of the embedding

* C `unsigned int` and `uint32_t` values are naturals below `2^32`; `size_t`
  and `uintptr_t` are naturals below `2^64` (the platform is AArch64); `int`
  values are integers, wrapped to 32 bits where a conversion or a product can
  leave the range.
* Every `mmio_read_32` takes its value from a read stream `hw`: the `k`-th read
  performed (counted over the whole run) returns `hw k`, truncated to 32 bits.
  The hardware is therefore arbitrary.
* Every externally visible action is appended to a trace of `Event`s.
* `assert` is taken as compiled in (a failed assertion stops the run), and
  `panic()` stops the run.  Loops the source leaves unbounded take a `fuel`
  argument bounding the number of iterations; running out of it is reported as
  its own outcome, distinct from every outcome of the C code.
-/

namespace DwMmc

/-! ## Register map and bit definitions (lines 26-121 of `dw_mmc.c`) -/

def DWMMC_CTRL : Nat := 0x00
def CTRL_IDMAC_EN : Nat := 1 <<< 25
def CTRL_DMA_EN : Nat := 1 <<< 5
def CTRL_INT_EN : Nat := 1 <<< 4
def CTRL_DMA_RESET : Nat := 1 <<< 2
def CTRL_FIFO_RESET : Nat := 1 <<< 1
def CTRL_RESET : Nat := 1 <<< 0
def CTRL_RESET_ALL : Nat := CTRL_DMA_RESET ||| CTRL_FIFO_RESET ||| CTRL_RESET
def DWMMC_PWREN : Nat := 0x04
def DWMMC_CLKDIV : Nat := 0x08
def DWMMC_CLKSRC : Nat := 0x0c
def DWMMC_CLKENA : Nat := 0x10
def DWMMC_TMOUT : Nat := 0x14
def DWMMC_CTYPE : Nat := 0x18
def CTYPE_8BIT : Nat := 1 <<< 16
def CTYPE_4BIT : Nat := 1
def CTYPE_1BIT : Nat := 0

def DWMMC_BLKSIZ : Nat := 0x1c
def DWMMC_BYTCNT : Nat := 0x20
def DWMMC_INTMASK : Nat := 0x24
def INT_EBE : Nat := 1 <<< 15
def INT_SBE : Nat := 1 <<< 13
def INT_HLE : Nat := 1 <<< 12
def INT_FRUN : Nat := 1 <<< 11
def INT_DRT : Nat := 1 <<< 9
def INT_RTO : Nat := 1 <<< 8
def INT_DCRC : Nat := 1 <<< 7
def INT_RCRC : Nat := 1 <<< 6
def INT_RXDR : Nat := 1 <<< 5
def INT_TXDR : Nat := 1 <<< 4
def INT_DTO : Nat := 1 <<< 3
def INT_CMD_DONE : Nat := 1 <<< 2
def INT_RE : Nat := 1 <<< 1

def DWMMC_CMDARG : Nat := 0x28
def DWMMC_CMD : Nat := 0x2c
def CMD_START : Nat := 1 <<< 31
def CMD_USE_HOLD_REG : Nat := 1 <<< 29
def CMD_UPDATE_CLK_ONLY : Nat := 1 <<< 21
def CMD_SEND_INIT : Nat := 1 <<< 15
def CMD_STOP_ABORT_CMD : Nat := 1 <<< 14
def CMD_WAIT_PRVDATA_COMPLETE : Nat := 1 <<< 13
def CMD_WRITE : Nat := 1 <<< 10
def CMD_DATA_TRANS_EXPECT : Nat := 1 <<< 9
def CMD_CHECK_RESP_CRC : Nat := 1 <<< 8
def CMD_RESP_LEN : Nat := 1 <<< 7
def CMD_RESP_EXPECT : Nat := 1 <<< 6

def DWMMC_RESP0 : Nat := 0x30
def DWMMC_RESP1 : Nat := 0x34
def DWMMC_RESP2 : Nat := 0x38
def DWMMC_RESP3 : Nat := 0x3c
def DWMMC_RINTSTS : Nat := 0x44
def DWMMC_STATUS : Nat := 0x48
def STATUS_DATA_BUSY : Nat := 1 <<< 9

def DWMMC_FIFOTH : Nat := 0x4c

/-- The macro `FIFOTH_GET_RWMARK(data)`, `((data) >> 16) & 0xfff`. -/
def FIFOTH_GET_RWMARK (data : Nat) : Nat := (data >>> 16) &&& 0xfff

def DWMMC_DEBNCE : Nat := 0x64
def DWMMC_BMOD : Nat := 0x80
def BMOD_ENABLE : Nat := 1 <<< 7
def BMOD_FB : Nat := 1 <<< 1
def BMOD_SWRESET : Nat := 1 <<< 0
def DWMMC_IDINTEN : Nat := 0x90
def DWMMC_DBADDR : Nat := 0x88
def DWMMC_FIFO : Nat := 0x200

def IDMAC_DES0_DIC : Nat := 1 <<< 1
def IDMAC_DES0_LD : Nat := 1 <<< 2
def IDMAC_DES0_FS : Nat := 1 <<< 3
def IDMAC_DES0_CH : Nat := 1 <<< 4
def IDMAC_DES0_OWN : Nat := 1 <<< 31

/-- The macro `IDMAC_DES1_BS1(x)`, `(x) & 0x1fff`. -/
def IDMAC_DES1_BS1 (x : Nat) : Nat := x &&& 0x1fff

def DWMMC_DMA_MAX_BUFFER_SIZE : Nat := 512 * 8

def TIMEOUT : Nat := 100000

/-- The all-ones word `~0` as an `unsigned int`. -/
def ALL_ONES : Nat := 0xFFFFFFFF

/-- Bitwise complement `~x` of a 32-bit word. -/
def not32 (x : Nat) : Nat := ALL_ONES ^^^ (x % 2 ^ 32)

/-- Size in bytes of `struct dw_idmac_desc` (four `unsigned int` fields). -/
def SIZEOF_DESC : Nat := 16

/-! ## Definitions of headers that are not part of the sources -/

/-- Modelled from the spec: `errno.h` is not among the sources; `EIO` is the
hardware error of the spec, with its usual value. -/
def EIO : Int := 5

/-- Modelled from the spec: `errno.h` is not among the sources; `EINVAL` is the
invalid-argument error of the spec, with its usual value. -/
def EINVAL : Int := 22

/-- Modelled from the spec: `emmc.h` is not among the sources; `EMMC_CMDn` is
the command with index `n`. -/
def EMMC_CMD0 : Nat := 0
/-- Modelled from the spec: `emmc.h` is not among the sources (bus-test
command, index 8). -/
def EMMC_CMD8 : Nat := 8
/-- Modelled from the spec: `emmc.h` is not among the sources (stop/abort
command, index 12). -/
def EMMC_CMD12 : Nat := 12
/-- Modelled from the spec: `emmc.h` is not among the sources (status query,
index 13). -/
def EMMC_CMD13 : Nat := 13
/-- Modelled from the spec: `emmc.h` is not among the sources (single-block
read, index 17). -/
def EMMC_CMD17 : Nat := 17
/-- Modelled from the spec: `emmc.h` is not among the sources (multi-block
read, index 18). -/
def EMMC_CMD18 : Nat := 18
/-- Modelled from the spec: `emmc.h` is not among the sources (single-block
write, index 24). -/
def EMMC_CMD24 : Nat := 24
/-- Modelled from the spec: `emmc.h` is not among the sources (multi-block
write, index 25). -/
def EMMC_CMD25 : Nat := 25

/-- Modelled from the spec: `emmc.h` is not among the sources; the block size
is 512 bytes. -/
def EMMC_BLOCK_SIZE : Nat := 512

/-- Modelled from the spec: `emmc.h` is not among the sources; the mask of the
block size, `EMMC_BLOCK_SIZE - 1`. -/
def EMMC_BLOCK_MASK : Nat := EMMC_BLOCK_SIZE - 1

/-- The values `emmc.h` gives to the response types and bus widths that the
driver switches on.  The header is not among the sources, so the values are
parameters of the embedding. -/
structure EmmcDefs where
  EMMC_RESPONSE_R2 : Nat
  EMMC_RESPONSE_R3 : Nat
  EMMC_BUS_WIDTH_1 : Int
  EMMC_BUS_WIDTH_4 : Int
  EMMC_BUS_WIDTH_8 : Int

/-- The case labels of a C `switch` are pairwise different; `case 0` is a label
of the switch on the response type. -/
def EmmcDefs.RespLabelsDistinct (h : EmmcDefs) : Prop :=
  h.EMMC_RESPONSE_R2 ≠ 0 ∧ h.EMMC_RESPONSE_R3 ≠ 0 ∧
    h.EMMC_RESPONSE_R2 ≠ h.EMMC_RESPONSE_R3

/-- The case labels of the `switch` on the bus width are pairwise different. -/
def EmmcDefs.WidthLabelsDistinct (h : EmmcDefs) : Prop :=
  h.EMMC_BUS_WIDTH_1 ≠ h.EMMC_BUS_WIDTH_4 ∧ h.EMMC_BUS_WIDTH_1 ≠ h.EMMC_BUS_WIDTH_8 ∧
    h.EMMC_BUS_WIDTH_4 ≠ h.EMMC_BUS_WIDTH_8

/-- One possible header: long response 4, no-CRC response 3, widths 0, 1, 2. -/
def sampleDefs : EmmcDefs :=
  { EMMC_RESPONSE_R2 := 4, EMMC_RESPONSE_R3 := 3,
    EMMC_BUS_WIDTH_1 := 0, EMMC_BUS_WIDTH_4 := 1, EMMC_BUS_WIDTH_8 := 2 }

/-! ## Data -/

/-- The type `struct dw_idmac_desc`. -/
structure dw_idmac_desc where
  des0 : Nat
  des1 : Nat
  des2 : Nat
  des3 : Nat
  deriving DecidableEq, Repr

/-- The type `dw_mmc_params_t` (its declaration is in `dw_mmc.h`; the fields are
the ones the driver uses). -/
structure dw_mmc_params_t where
  reg_base : Nat
  desc_base : Nat
  desc_size : Nat
  clk_rate : Int
  bus_width : Int
  flags : Nat

/-- The type `emmc_cmd_t` (its declaration is in `emmc.h`; the fields are the
ones the driver uses). -/
structure emmc_cmd_t where
  cmd_idx : Nat
  cmd_arg : Nat
  resp_type : Nat
  resp_data : Fin 4 → Nat

/-- Field of a descriptor. -/
inductive Field
  | des0 | des1 | des2 | des3
  deriving DecidableEq, Repr

/-- Externally visible actions of the driver, in program order. -/
inductive Event
  /-- The call `mmio_read_32(addr)` returned `val`. -/
  | rd (addr val : Nat)
  /-- The call `mmio_write_32(addr, val)`. -/
  | wr (addr val : Nat)
  /-- A store to a field of `desc[idx]`. -/
  | st (idx : Int) (f : Field) (val : Nat)
  /-- The call `udelay(us)`. -/
  | udelay (us : Nat)
  /-- The barrier `dsbsy()`. -/
  | dsbsy
  /-- The `ERROR` log line printing the raw status word. -/
  | error (data : Nat)
  /-- The call `clean_dcache_range(addr, len)`. -/
  | clean (addr len : Nat)
  deriving DecidableEq, Repr

/-- State threaded through a run: the number of MMIO reads made so far, the
trace, and the descriptor memory `desc[i]` addressed relative to
`dw_params.desc_base` (an index may be negative). -/
structure State where
  nread : Nat
  trace : List Event
  desc : Int → dw_idmac_desc

/-- Ways a run stops without returning. -/
inductive Fatal
  /-- The call `panic()`. -/
  | panic
  /-- A failed `assert`. -/
  | assertion
  /-- An unbounded loop of the source used up the iteration budget of the run. -/
  | fuel
  deriving DecidableEq, Repr

/-- Result of running a piece of the driver. -/
inductive Result (α : Type)
  | ok (a : α) (s : State)
  | fatal (f : Fatal) (s : State)

/-- Final state of a run. -/
def Result.state {α : Type} : Result α → State
  | .ok _ s => s
  | .fatal _ s => s

/-- Returned value of a run, when it returns. -/
def Result.value {α : Type} : Result α → Option α
  | .ok a _ => some a
  | .fatal _ _ => none

/-- How a run stopped, when it did not return. -/
def Result.stopped {α : Type} : Result α → Option Fatal
  | .ok _ _ => none
  | .fatal f _ => some f

/-- State-and-failure passing. -/
def M (α : Type) : Type := State → Result α

/-- Sequencing: a fatal stop ends the run. -/
def M.bind {α β : Type} (m : M α) (f : α → M β) : M β := fun s =>
  match m s with
  | .ok a s1 => f a s1
  | .fatal e s1 => .fatal e s1

instance : Monad M where
  pure a := fun s => .ok a s
  bind := M.bind

/-- Append an event to the trace. -/
def emit (e : Event) : M Unit := fun s =>
  .ok () { s with trace := s.trace ++ [e] }

/-- Stop the run. -/
def stop {α : Type} (f : Fatal) : M α := fun s => .fatal f s

/-- The call `mmio_read_32(addr)`: the next value of the read stream. -/
def mmio_read_32 (hw : Nat → Nat) (addr : Nat) : M Nat := fun s =>
  .ok (hw s.nread % 2 ^ 32)
    { s with nread := s.nread + 1, trace := s.trace ++ [.rd addr (hw s.nread % 2 ^ 32)] }

/-- The call `mmio_write_32(addr, val)`. -/
def mmio_write_32 (addr val : Nat) : M Unit := emit (.wr addr val)

/-- The macro `assert(c)`. -/
def c_assert (c : Bool) : M Unit := if c then pure () else stop .assertion

/-- Starting state of a run: nothing read, empty trace, given descriptor memory. -/
def State.start (desc : Int → dw_idmac_desc) : State :=
  { nread := 0, trace := [], desc := desc }

/-- State after one `mmio_read_32` of `addr`. -/
def State.afterRead (hw : Nat → Nat) (addr : Nat) (s : State) : State :=
  { s with nread := s.nread + 1, trace := s.trace ++ [.rd addr (hw s.nread % 2 ^ 32)] }

/-- State after appending events. -/
def State.log (s : State) (es : List Event) : State :=
  { s with trace := s.trace ++ es }

/-- The register writes of a trace, in order. -/
def writes : List Event → List (Nat × Nat)
  | [] => []
  | .wr a v :: t => (a, v) :: writes t
  | _ :: t => writes t

/-- The register reads of a trace, in order. -/
def reads : List Event → List (Nat × Nat)
  | [] => []
  | .rd a v :: t => (a, v) :: reads t
  | _ :: t => reads t

/-- Every register read among the events `es` is at an address satisfying `Q`. -/
def ReadsOnly (Q : Nat → Prop) (es : List Event) : Prop :=
  ∀ a v, Event.rd a v ∈ es → Q a

/-- Every register write of the trace satisfies `Q address value`. -/
def TraceInv (Q : Nat → Nat → Prop) (s : State) : Prop :=
  ∀ a v, Event.wr a v ∈ s.trace → Q a v

/-! ## `dw_send_cmd` (lines 259-363) -/

/-- The first `switch` of `dw_send_cmd` (lines 269-304): class flags for the
command index.  `none` is the early `return -EINVAL` of the build with
`DWMMC_NO_DMA` defined. -/
def dw_send_cmd_class (no_dma : Bool) (cmd_idx : Nat) : Option Nat :=
  if cmd_idx = EMMC_CMD0 then some CMD_SEND_INIT
  else if cmd_idx = EMMC_CMD12 then some CMD_STOP_ABORT_CMD
  else if cmd_idx = EMMC_CMD13 then some CMD_WAIT_PRVDATA_COMPLETE
  else if cmd_idx = EMMC_CMD8 ∨ cmd_idx = EMMC_CMD17 ∨ cmd_idx = EMMC_CMD18 then
    some (CMD_DATA_TRANS_EXPECT ||| CMD_WAIT_PRVDATA_COMPLETE)
  else if cmd_idx = EMMC_CMD24 ∨ cmd_idx = EMMC_CMD25 then
    if no_dma then none
    else some (CMD_WRITE ||| CMD_DATA_TRANS_EXPECT ||| CMD_WAIT_PRVDATA_COMPLETE)
  else some 0

/-- The second `switch` of `dw_send_cmd` (lines 306-319): `op` with the
response-shape flags for the response type or'ed in. -/
def dw_send_cmd_resp (h : EmmcDefs) (resp_type op : Nat) : Nat :=
  if resp_type = 0 then op
  else if resp_type = h.EMMC_RESPONSE_R2 then
    op ||| (CMD_RESP_EXPECT ||| CMD_CHECK_RESP_CRC ||| CMD_RESP_LEN)
  else if resp_type = h.EMMC_RESPONSE_R3 then op ||| CMD_RESP_EXPECT
  else op ||| (CMD_RESP_EXPECT ||| CMD_CHECK_RESP_CRC)

/-- The busy wait of `dw_send_cmd` (lines 320-325), entered with the given value
of `timeout`: read STATUS, panic when the decremented `timeout` is `<= 0`,
repeat while the data-busy bit is set. -/
def dw_send_cmd_busy (hw : Nat → Nat) (base : Nat) : (timeout : Nat) → M Unit
  | 0 => do
    let _ ← mmio_read_32 hw (base + DWMMC_STATUS)
    stop .panic
  | t + 1 => do
    let data ← mmio_read_32 hw (base + DWMMC_STATUS)
    if t = 0 then stop .panic
    else if data &&& STATUS_DATA_BUSY ≠ 0 then dw_send_cmd_busy hw base t
    else pure ()

/-- The error mask of `dw_send_cmd` (lines 332-333). -/
def err_mask : Nat :=
  INT_EBE ||| INT_HLE ||| INT_RTO ||| INT_RCRC ||| INT_RE |||
    INT_DCRC ||| INT_DRT ||| INT_SBE

/-- One pass through the body of the completion loop of `dw_send_cmd` on the
status word `data` (lines 340-347): `none` when the pass takes the
`return -EIO`, else the new value of `pending`. -/
def dw_send_cmd_poll_step (data pending : Nat) : Option Nat :=
  if data &&& err_mask ≠ 0 then none
  else
    let pending1 := if data &&& INT_DTO ≠ 0 then pending &&& not32 INT_DTO else pending
    let pending2 :=
      if data &&& INT_CMD_DONE ≠ 0 then pending1 &&& not32 INT_CMD_DONE else pending1
    some pending2

/-- The completion loop of `dw_send_cmd` (lines 336-352), entered with the given
values of `timeout` and `pending`.  The value is `some (-EIO)` for the early
return and `none` when the loop ends with nothing pending.  The source never
enters the loop body with `timeout = 0` (it starts from `TIMEOUT` and panics on
reaching 0); that case is given to `Fatal.fuel`. -/
def dw_send_cmd_poll (hw : Nat → Nat) (base : Nat) : (timeout : Nat) → (pending : Nat) →
    M (Option Int)
  | 0, _ => stop .fuel
  | t + 1, pending => do
    emit (.udelay 500)
    let data ← mmio_read_32 hw (base + DWMMC_RINTSTS)
    match dw_send_cmd_poll_step data pending with
    | none => do
      emit (.error data)
      pure (some (- EIO))
    | some pending2 =>
      if t = 0 then do
        emit (.error data)
        stop .panic
      else if pending2 ≠ 0 then dw_send_cmd_poll hw base t pending2
      else pure none

/-- Update of one word of `resp_data`. -/
def set_resp (cmd : emmc_cmd_t) (i : Fin 4) (v : Nat) : emmc_cmd_t :=
  { cmd with resp_data := fun j => if j = i then v else cmd.resp_data j }

/-- The response read-out of `dw_send_cmd` (lines 354-361). -/
def dw_send_cmd_read_resp (hw : Nat → Nat) (base op : Nat) (cmd : emmc_cmd_t) :
    M emmc_cmd_t :=
  if op &&& CMD_RESP_EXPECT ≠ 0 then do
    let r0 ← mmio_read_32 hw (base + DWMMC_RESP0)
    let cmd0 := set_resp cmd 0 r0
    if op &&& CMD_RESP_LEN ≠ 0 then do
      let r1 ← mmio_read_32 hw (base + DWMMC_RESP1)
      let r2 ← mmio_read_32 hw (base + DWMMC_RESP2)
      let r3 ← mmio_read_32 hw (base + DWMMC_RESP3)
      pure (set_resp (set_resp (set_resp cmd0 1 r1) 2 r2) 3 r3)
    else pure cmd0
  else pure cmd

/-- The function `dw_send_cmd`.  `no_dma` says whether `DWMMC_NO_DMA` is
defined.  The value is the returned `int` together with the command as the
function leaves it. -/
def dw_send_cmd (h : EmmcDefs) (no_dma : Bool) (p : dw_mmc_params_t) (hw : Nat → Nat)
    (cmd : emmc_cmd_t) : M (Int × emmc_cmd_t) :=
  let base := p.reg_base
  match dw_send_cmd_class no_dma cmd.cmd_idx with
  | none => pure (-EINVAL, cmd)
  | some op0 =>
    let op := dw_send_cmd_resp h cmd.resp_type (op0 ||| (CMD_USE_HOLD_REG ||| CMD_START))
    do
      dw_send_cmd_busy hw base TIMEOUT
      mmio_write_32 (base + DWMMC_RINTSTS) ALL_ONES
      mmio_write_32 (base + DWMMC_CMDARG) cmd.cmd_arg
      emit .dsbsy
      mmio_write_32 (base + DWMMC_CMD) (op ||| cmd.cmd_idx)
      let pending :=
        INT_CMD_DONE ||| (if op &&& CMD_DATA_TRANS_EXPECT ≠ 0 then INT_DTO else 0)
      match ← dw_send_cmd_poll hw base TIMEOUT pending with
      | some code => pure (code, cmd)
      | none => do
        let cmd1 ← dw_send_cmd_read_resp hw base op cmd
        pure (0, cmd1)

/-! ## `dw_update_clk` (lines 151-173) -/

/-- The command word `dw_update_clk` writes (lines 157-158). -/
def UPDATE_CLK_CMD : Nat :=
  CMD_WAIT_PRVDATA_COMPLETE ||| CMD_UPDATE_CLK_ONLY ||| CMD_START

/-- The inner `do ... while` of `dw_update_clk` together with the tail of the
outer `while (1)`: read CMD and return when START is clear; else read RINTSTS;
when HLE is set, write HLE to RINTSTS, write the command again and go on
polling.  The source bounds neither loop; `fuel` bounds the number of reads of
CMD. -/
def dw_update_clk_poll (hw : Nat → Nat) (base : Nat) : (fuel : Nat) → M Unit
  | 0 => stop .fuel
  | n + 1 => do
    let data ← mmio_read_32 hw (base + DWMMC_CMD)
    if data &&& CMD_START = 0 then pure ()
    else do
      let data1 ← mmio_read_32 hw (base + DWMMC_RINTSTS)
      if data1 &&& INT_HLE ≠ 0 then do
        mmio_write_32 (base + DWMMC_RINTSTS) INT_HLE
        mmio_write_32 (base + DWMMC_CMD) UPDATE_CLK_CMD
        dw_update_clk_poll hw base n
      else dw_update_clk_poll hw base n

/-- The function `dw_update_clk`. -/
def dw_update_clk (p : dw_mmc_params_t) (hw : Nat → Nat) (fuel : Nat) : M Unit := do
  mmio_write_32 (p.reg_base + DWMMC_CMD) UPDATE_CLK_CMD
  dw_update_clk_poll hw p.reg_base fuel

/-! ## `dw_set_clk` (lines 175-205) -/

/-- The `for` loop of `dw_set_clk` (lines 182-186), entered with the given value
of `div` and `remaining = 256 - div` iterations left before `div < 256` fails.
The value is `div` at loop exit.  The division is C division of `int`s
(truncating). -/
def dw_set_clk_div (clk_rate clk : Int) : (remaining : Nat) → (div : Int) → Int
  | 0, div => div
  | k + 1, div =>
    if Int.tdiv clk_rate (2 * div) ≤ clk then div
    else dw_set_clk_div clk_rate clk k (div + 1)

/-- The idle wait of `dw_set_clk` (lines 190-192); the source does not bound it. -/
def dw_set_clk_idle (hw : Nat → Nat) (base : Nat) : (fuel : Nat) → M Unit
  | 0 => stop .fuel
  | n + 1 => do
    let data ← mmio_read_32 hw (base + DWMMC_STATUS)
    if data &&& STATUS_DATA_BUSY ≠ 0 then dw_set_clk_idle hw base n
    else pure ()

/-- The function `dw_set_clk`. -/
def dw_set_clk (p : dw_mmc_params_t) (hw : Nat → Nat) (fuel : Nat) (clk : Int) : M Unit := do
  c_assert (decide (clk > 0))
  let div := dw_set_clk_div p.clk_rate clk 255 1
  c_assert (decide (div < 256))
  dw_set_clk_idle hw p.reg_base fuel
  mmio_write_32 (p.reg_base + DWMMC_CLKENA) 0
  dw_update_clk p hw fuel
  mmio_write_32 (p.reg_base + DWMMC_CLKDIV) div.toNat
  dw_update_clk p hw fuel
  mmio_write_32 (p.reg_base + DWMMC_CLKENA) 1
  mmio_write_32 (p.reg_base + DWMMC_CLKSRC) 0
  dw_update_clk p hw fuel

/-! ## `dw_set_ios` (lines 365-383) -/

/-- The function `dw_set_ios`. -/
def dw_set_ios (h : EmmcDefs) (p : dw_mmc_params_t) (hw : Nat → Nat) (fuel : Nat)
    (clk width : Int) : M Int := do
  if width = h.EMMC_BUS_WIDTH_1 then
    mmio_write_32 (p.reg_base + DWMMC_CTYPE) CTYPE_1BIT
  else if width = h.EMMC_BUS_WIDTH_4 then
    mmio_write_32 (p.reg_base + DWMMC_CTYPE) CTYPE_4BIT
  else if width = h.EMMC_BUS_WIDTH_8 then
    mmio_write_32 (p.reg_base + DWMMC_CTYPE) CTYPE_8BIT
  else c_assert false
  dw_set_clk p hw fuel clk
  pure 0

/-! ## `init_dma` (lines 385-420) -/

/-- Conversion of an integer value to `int`: two's complement, 32 bits. -/
def toInt32 (x : Int) : Int :=
  (x + 2 ^ 31) % 2 ^ 32 - 2 ^ 31

/-- Conversion of an `int` to `size_t` or `uintptr_t`: modulo `2^64`. -/
def toU64 (x : Int) : Nat := (x % 2 ^ 64).toNat

/-- Update of a field of a descriptor. -/
def dw_idmac_desc.set (d : dw_idmac_desc) (f : Field) (v : Nat) : dw_idmac_desc :=
  match f with
  | .des0 => { d with des0 := v }
  | .des1 => { d with des1 := v }
  | .des2 => { d with des2 := v }
  | .des3 => { d with des3 := v }

/-- Value of a field of a descriptor. -/
def dw_idmac_desc.get (d : dw_idmac_desc) (f : Field) : Nat :=
  match f with
  | .des0 => d.des0
  | .des1 => d.des1
  | .des2 => d.des2
  | .des3 => d.des3

/-- State after a store of `v` to a field of `desc[idx]`. -/
def State.stored (s : State) (idx : Int) (f : Field) (v : Nat) : State :=
  { s with
    trace := s.trace ++ [.st idx f v],
    desc := fun j => if j = idx then (s.desc idx).set f v else s.desc j }

/-- Load of a field of `desc[idx]`. -/
def load (idx : Int) (f : Field) : M Nat := fun s => .ok ((s.desc idx).get f) s

/-- Store of the `unsigned int` value `v` to a field of `desc[idx]`. -/
def store (idx : Int) (f : Field) (v : Nat) : M Unit := fun s => .ok () (s.stored idx f v)

/-- The `for` loop of `init_dma` (lines 398-404), entered with the given value
of `i` and `remaining` iterations left before `i < desc_cnt` fails.  The signed
product of line 401, which the C standard leaves undefined on overflow, is
wrapped to 32 bits. -/
def init_dma_loop (p : dw_mmc_params_t) (buf : Nat) : (remaining : Nat) → (i : Int) → M Unit
  | 0, _ => pure ()
  | k + 1, i => do
    store i .des0 (IDMAC_DES0_OWN ||| IDMAC_DES0_CH ||| IDMAC_DES0_DIC)
    store i .des1 (IDMAC_DES1_BS1 DWMMC_DMA_MAX_BUFFER_SIZE)
    store i .des2
      ((buf + toU64 (toInt32 (DWMMC_DMA_MAX_BUFFER_SIZE * i))) % 2 ^ 64 % 2 ^ 32)
    store i .des3
      ((p.desc_base + SIZEOF_DESC * toU64 (toInt32 (i + 1)) % 2 ^ 64) % 2 ^ 64 % 2 ^ 32)
    init_dma_loop p buf k (toInt32 (i + 1))

/-- The value of `desc_cnt` in `init_dma` (lines 392-393): the quotient is
computed in `size_t` and converted to `int`. -/
def init_dma_desc_cnt (size : Nat) : Int :=
  toInt32 (((size + DWMMC_DMA_MAX_BUFFER_SIZE - 1) % 2 ^ 64 / DWMMC_DMA_MAX_BUFFER_SIZE : Nat) : Int)

/-- The part of `init_dma` after the `for` loop (lines 405-418): the first and
last descriptors are patched, DBADDR is written and the cache is cleaned.  A
signed product the C standard leaves undefined on overflow is wrapped to 32
bits. -/
def init_dma_finish (p : dw_mmc_params_t) (size : Nat) (desc_cnt : Int) : M Unit := do
  let d0 ← load 0 .des0
  store 0 .des0 (d0 ||| IDMAC_DES0_FS)
  let last := toInt32 (desc_cnt - 1)
  let d1 ← load last .des0
  store last .des0 (d1 ||| IDMAC_DES0_LD)
  let d2 ← load last .des0
  store last .des0 (d2 &&& not32 (IDMAC_DES0_DIC ||| IDMAC_DES0_CH))
  store last .des1
    (IDMAC_DES1_BS1
      ((size + 2 ^ 64 - toU64 (toInt32 (last * DWMMC_DMA_MAX_BUFFER_SIZE))) % 2 ^ 64))
  store last .des3 0
  mmio_write_32 (p.reg_base + DWMMC_DBADDR) (p.desc_base % 2 ^ 32)
  emit (.clean p.desc_base (toU64 (toInt32 (desc_cnt * DWMMC_DMA_MAX_BUFFER_SIZE))))

/-- The function `init_dma`; its body is empty when `DWMMC_NO_DMA` is defined. -/
def init_dma (no_dma : Bool) (p : dw_mmc_params_t) (buf size : Nat) : M Unit :=
  if no_dma then pure ()
  else do
    let desc_cnt := init_dma_desc_cnt size
    c_assert (decide (toU64 desc_cnt * SIZEOF_DESC % 2 ^ 64 < p.desc_size))
    init_dma_loop p buf desc_cnt.toNat 0
    init_dma_finish p size desc_cnt

/-! ## `dw_prepare` (lines 422-445) -/

/-- The function `dw_prepare`.  `dw_fifo_depth` is the value of the static
variable of that name (it exists in the build with `DWMMC_NO_DMA` only); the
comparison of line 440 is made in `size_t`. -/
def dw_prepare (no_dma : Bool) (p : dw_mmc_params_t) (dw_fifo_depth : Int) (lba : Int)
    (buf size : Nat) : M Int := do
  c_assert (decide (buf &&& EMMC_BLOCK_MASK = 0 ∧ size % EMMC_BLOCK_SIZE = 0))
  mmio_write_32 (p.reg_base + DWMMC_BYTCNT) (size % 2 ^ 32)
  mmio_write_32 (p.reg_base + DWMMC_RINTSTS) ALL_ONES
  init_dma no_dma p buf size
  if no_dma then
    if size > toU64 dw_fifo_depth then pure (-EINVAL) else pure 0
  else pure 0

/-! ## `dw_read` and `dw_write` (lines 447-465) -/

/-- The `for` loop of `dw_read` (lines 455-456), with `words` iterations left
(after the assertion `size` is a multiple of 4 and the loop, which takes 4 off
`size` until it is 0, runs `size / 4` times) and `p` pointing at word `k` of the
buffer.  The buffer is a map from word index to 32-bit word. -/
def dw_read_loop (hw : Nat → Nat) (base : Nat) : (words : Nat) → (k : Nat) → (Nat → Nat) →
    M (Nat → Nat)
  | 0, _, buffer => pure buffer
  | n + 1, k, buffer => do
    let v ← mmio_read_32 hw (base + DWMMC_FIFO)
    dw_read_loop hw base n (k + 1) (fun j => if j = k then v else buffer j)

/-- The function `dw_read`.  The value is the returned `int` together with the
buffer (the words at `buf`) as the function leaves it. -/
def dw_read (no_dma : Bool) (p : dw_mmc_params_t) (hw : Nat → Nat) (lba : Int)
    (buffer : Nat → Nat) (size : Nat) : M (Int × (Nat → Nat)) :=
  if no_dma then do
    c_assert (decide (size % 4 = 0))
    let buffer1 ← dw_read_loop hw p.reg_base (size / 4) 0 buffer
    pure (0, buffer1)
  else pure (0, buffer)

/-- The function `dw_write`: in both builds the body is `return 0`. -/
def dw_write (no_dma : Bool) (lba : Int) (buffer : Nat → Nat) (size : Nat) :
    M (Int × (Nat → Nat)) :=
  pure (0, buffer)

/-! ## `dw_init` (lines 207-257) -/

/-- The value line 247 gives to `dw_fifo_depth` when FIFOTH reads `data`:
`(FIFOTH_GET_RWMARK(data) + 1) * sizeof(int32_t)`, converted to `int`. -/
def dw_init_fifo_depth (data : Nat) : Int :=
  toInt32 ((((FIFOTH_GET_RWMARK data + 1) % 2 ^ 32 * 4) % 2 ^ 64 : Nat) : Int)

/-- The wait for the controller reset of `dw_init` (lines 217-219); the source
does not bound it. -/
def dw_init_wait_ctrl (hw : Nat → Nat) (base : Nat) : (fuel : Nat) → M Unit
  | 0 => stop .fuel
  | n + 1 => do
    let data ← mmio_read_32 hw (base + DWMMC_CTRL)
    if data ≠ 0 then dw_init_wait_ctrl hw base n else pure ()

/-- The wait for the DMA reset of `dw_init` (lines 240-242); the source does not
bound it.  The value is the last word read. -/
def dw_init_wait_bmod (hw : Nat → Nat) (base : Nat) : (fuel : Nat) → M Nat
  | 0 => stop .fuel
  | n + 1 => do
    let data ← mmio_read_32 hw (base + DWMMC_BMOD)
    if data &&& BMOD_SWRESET ≠ 0 then dw_init_wait_bmod hw base n else pure data

/-- The function `dw_init`.  `boot_clk_rate` is `EMMC_BOOT_CLK_RATE` of `emmc.h`.
The value is `dw_fifo_depth` as the function leaves it. -/
def dw_init (h : EmmcDefs) (no_dma : Bool) (p : dw_mmc_params_t) (hw : Nat → Nat)
    (fuel : Nat) (boot_clk_rate : Int) (dw_fifo_depth : Int) : M Int := do
  c_assert (decide (p.reg_base &&& EMMC_BLOCK_MASK = 0))
  let base := p.reg_base
  mmio_write_32 (base + DWMMC_PWREN) 1
  mmio_write_32 (base + DWMMC_CTRL) CTRL_RESET_ALL
  dw_init_wait_ctrl hw base fuel
  mmio_write_32 (base + DWMMC_RINTSTS) ALL_ONES
  mmio_write_32 (base + DWMMC_INTMASK) 0
  mmio_write_32 (base + DWMMC_TMOUT) ALL_ONES
  mmio_write_32 (base + DWMMC_BLKSIZ) EMMC_BLOCK_SIZE
  mmio_write_32 (base + DWMMC_BYTCNT) (256 * 1024)
  mmio_write_32 (base + DWMMC_DEBNCE) 0x00ffffff
  if no_dma then
    mmio_write_32 (base + DWMMC_CTRL) CTRL_INT_EN
  else do
    mmio_write_32 (base + DWMMC_CTRL) (CTRL_INT_EN ||| CTRL_DMA_EN ||| CTRL_IDMAC_EN)
    mmio_write_32 (base + DWMMC_IDINTEN) ALL_ONES
  emit .dsbsy
  mmio_write_32 (base + DWMMC_BMOD) BMOD_SWRESET
  let data ← dw_init_wait_bmod hw base fuel
  let depth ←
    if no_dma then do
      let data1 ← mmio_read_32 hw (base + DWMMC_FIFOTH)
      pure (dw_init_fifo_depth data1)
    else do
      mmio_write_32 (base + DWMMC_BMOD) (data ||| (BMOD_ENABLE ||| BMOD_FB))
      pure dw_fifo_depth
  emit (.udelay 100)
  let _ ← dw_set_ios h p hw fuel boot_clk_rate h.EMMC_BUS_WIDTH_1
  emit (.udelay 100)
  pure depth

/-! ## Sample inputs -/

/-- A controller configuration: 200 MHz source clock, a 512-byte descriptor
ring. -/
def sampleParams : dw_mmc_params_t :=
  { reg_base := 0x1000, desc_base := 0x2000, desc_size := 512, clk_rate := 200000000,
    bus_width := 0, flags := 0 }

/-- Hardware that is never busy and shows command-done on every status read:
every read returns 4. -/
def hwDone : Nat → Nat := fun _ => 4

/-- Descriptor memory holding zeros. -/
def zeroDesc : Int → dw_idmac_desc := fun _ => ⟨0, 0, 0, 0⟩

/-- The command with index 0, argument 0 and no response. -/
def cmdGoIdle : emmc_cmd_t :=
  { cmd_idx := 0, cmd_arg := 0, resp_type := 0, resp_data := fun _ => 0 }

/-- The command with index 2 and the long response of `sampleDefs`. -/
def cmdAllSendCid : emmc_cmd_t :=
  { cmd_idx := 2, cmd_arg := 0, resp_type := 4, resp_data := fun _ => 0 }

/-- Hardware that is never busy, shows only FIFO underrun/overrun (bit 11) on
the first completion poll and command-done afterwards. -/
def hwFrun : Nat → Nat := fun k => if k = 1 then 0x800 else 4

/-- Hardware that is never busy and shows only response-error (bit 1) on the
first completion poll. -/
def hwRe : Nat → Nat := fun k => if k = 1 then 2 else 4

/-- Hardware whose third read (FIFOTH, during `dw_init` without DMA) returns
0x00ff0000 and every other read 0. -/
def hwFifo : Nat → Nat := fun k => if k = 2 then 0x00ff0000 else 0

/-- The single-block write command, index 24, with the short response 1. -/
def cmdWriteBlock : emmc_cmd_t :=
  { cmd_idx := 24, cmd_arg := 0, resp_type := 1, resp_data := fun _ => 0 }

/-- Hardware for a command with a long response: STATUS and RINTSTS read 4 (not
busy, command done), the four response registers read 0x102 ... 0x105. -/
def hwResp : Nat → Nat := fun k => if k < 2 then 4 else 0x100 + k

/-- The command `cmdAllSendCid` after a run on `hwResp`. -/
def cmdCidDone : emmc_cmd_t :=
  set_resp (set_resp (set_resp (set_resp cmdAllSendCid 0 0x102) 1 0x103) 2 0x104) 3 0x105

/-- The state after the run of `cmdAllSendCid` on `hwResp` from the start
state. -/
def stCidDone : State :=
  { nread := 6,
    trace :=
      [.rd (sampleParams.reg_base + DWMMC_STATUS) 4,
       .wr (sampleParams.reg_base + DWMMC_RINTSTS) ALL_ONES,
       .wr (sampleParams.reg_base + DWMMC_CMDARG) 0,
       .dsbsy,
       .wr (sampleParams.reg_base + DWMMC_CMD) 0xA00001C2,
       .udelay 500,
       .rd (sampleParams.reg_base + DWMMC_RINTSTS) 4,
       .rd (sampleParams.reg_base + DWMMC_RESP0) 0x102,
       .rd (sampleParams.reg_base + DWMMC_RESP1) 0x103,
       .rd (sampleParams.reg_base + DWMMC_RESP2) 0x104,
       .rd (sampleParams.reg_base + DWMMC_RESP3) 0x105],
    desc := zeroDesc }

/-- The state after the run of `cmdGoIdle` on `hwRe` from the start state. -/
def stIdleError : State :=
  { nread := 2,
    trace :=
      [.rd (sampleParams.reg_base + DWMMC_STATUS) 4,
       .wr (sampleParams.reg_base + DWMMC_RINTSTS) ALL_ONES,
       .wr (sampleParams.reg_base + DWMMC_CMDARG) 0,
       .dsbsy,
       .wr (sampleParams.reg_base + DWMMC_CMD) 0xA0008000,
       .udelay 500,
       .rd (sampleParams.reg_base + DWMMC_RINTSTS) 2,
       .error 2],
    desc := zeroDesc }

/-! ## Completion polling, in the words of the specification -/

/-- The mask `bit` has been seen in one of the first `k` words of the read
stream from position `n` on. -/
def Seen (hw : Nat → Nat) (n bit k : Nat) : Prop :=
  ∃ j, j < k ∧ hw (n + j) % 2 ^ 32 &&& bit ≠ 0

/-- The completion condition of a command with index `idx` after `k` polls that
read the stream from position `n` on: command-done has been seen and, for a
data-carrying command (CMD8, 17, 18, 24, 25), data-transfer-done too. -/
def Completed (hw : Nat → Nat) (n idx k : Nat) : Prop :=
  Seen hw n INT_CMD_DONE k ∧ (idx ∈ [8, 17, 18, 24, 25] → Seen hw n INT_DTO k)

/-- The events of `k` completion polls that read the stream from position `n`
on: each poll is the delay of line 337 and one read of RINTSTS. -/
def poll_events (hw : Nat → Nat) (base n : Nat) : (k : Nat) → List Event
  | 0 => []
  | k + 1 =>
    [.udelay 500, .rd (base + DWMMC_RINTSTS) (hw n % 2 ^ 32)] ++ poll_events hw base (n + 1) k

/-- The value of `pending` after one poll that shows no error bit (lines
344-347). -/
def pending_clear (data pending : Nat) : Nat :=
  let pending1 := if data &&& INT_DTO ≠ 0 then pending &&& not32 INT_DTO else pending
  if data &&& INT_CMD_DONE ≠ 0 then pending1 &&& not32 INT_CMD_DONE else pending1

/-- The value of `pending` after `k` polls without error that read the stream
from position `n` on. -/
def pending_after (hw : Nat → Nat) : (n pending k : Nat) → Nat
  | _, pending, 0 => pending
  | n, pending, k + 1 => pending_after hw (n + 1) (pending_clear (hw n % 2 ^ 32) pending) k

/-- Hardware that is not busy and shows command-done on the poll number 100000
only (read 0 is the read of STATUS, read `j` the poll number `j`). -/
def hwLate : Nat → Nat := fun k => if k = 100000 then 4 else 0

/-- The events of lines 327-330 of `dw_send_cmd` for class flags `op0`: the
three register writes of a dispatch, with the barrier before the last. -/
def dispatch_events (h : EmmcDefs) (p : dw_mmc_params_t) (cmd : emmc_cmd_t) (op0 : Nat) :
    List Event :=
  [.wr (p.reg_base + DWMMC_RINTSTS) ALL_ONES,
   .wr (p.reg_base + DWMMC_CMDARG) cmd.cmd_arg,
   .dsbsy,
   .wr (p.reg_base + DWMMC_CMD)
     (dw_send_cmd_resp h cmd.resp_type (op0 ||| (CMD_USE_HOLD_REG ||| CMD_START)) |||
       cmd.cmd_idx)]

/-- The events of `k` reads of STATUS by the busy wait of `dw_send_cmd`, reading
the stream from position `n` on. -/
def status_events (hw : Nat → Nat) (base n : Nat) : (k : Nat) → List Event
  | 0 => []
  | k + 1 => .rd (base + DWMMC_STATUS) (hw n % 2 ^ 32) :: status_events hw base (n + 1) k

/-! ## The update-clock handshake, in the words of the specification -/

/-- One round of the handshake that does not end it, with the words `r.1` read
from CMD and `r.2` read from RINTSTS: the two reads and, when RINTSTS shows the
hardware-lock error (bit 12), the write of the bit-12 mask to RINTSTS and the
command issued again. -/
def handshake_round (base : Nat) (r : Nat × Nat) : List Event :=
  [.rd (base + DWMMC_CMD) r.1, .rd (base + DWMMC_RINTSTS) r.2] ++
    (if r.2 &&& INT_HLE ≠ 0 then
      [.wr (base + DWMMC_RINTSTS) (1 <<< 12), .wr (base + DWMMC_CMD) 0x80202000]
    else [])

/-- The rounds of a handshake, in order. -/
def handshake_rounds (base : Nat) : List (Nat × Nat) → List Event
  | [] => []
  | r :: rs => handshake_round base r ++ handshake_rounds base rs

/-- A whole handshake: the command issued, the rounds that do not end it, and
the read of CMD that ends it. -/
def handshake_events (base : Nat) (rounds : List (Nat × Nat)) (last : Nat) : List Event :=
  .wr (base + DWMMC_CMD) 0x80202000 ::
    (handshake_rounds base rounds ++ [.rd (base + DWMMC_CMD) last])

/-- The words the first `j` rounds of a handshake read from the stream, from
position `n` on: two words a round. -/
def stream_rounds (hw : Nat → Nat) : (n j : Nat) → List (Nat × Nat)
  | _, 0 => []
  | n, j + 1 => (hw n % 2 ^ 32, hw (n + 1) % 2 ^ 32) :: stream_rounds hw (n + 2) j

/-- The number of writes to CMD among the events. -/
def cmds_issued (base : Nat) (es : List Event) : Nat :=
  ((writes es).filter (fun w => w.1 = base + DWMMC_CMD)).length

/-- The number of rounds that show the hardware-lock error. -/
def hle_handled (rounds : List (Nat × Nat)) : Nat :=
  (rounds.filter (fun r => r.2 &&& INT_HLE ≠ 0)).length

/-- A handshake trace: rounds in which CMD shows START set, ended by a read of
CMD that shows START clear. -/
def IsHandshake (base : Nat) (es : List Event) : Prop :=
  ∃ rounds last, es = handshake_events base rounds last ∧
    (∀ r ∈ rounds, r.1 &&& CMD_START ≠ 0) ∧ last &&& CMD_START = 0

/-- Hardware for a handshake with one hardware-lock error: the first read of
CMD shows START set, the read of RINTSTS shows bit 12, the second read of CMD
shows START clear. -/
def hwHle : Nat → Nat := fun k => if k = 0 then 0x80000000 else if k = 1 then 0x1000 else 0
/-- The writes to the clock registers CLKENA, CLKDIV and CLKSRC among the
events, in order. -/
def clock_writes (base : Nat) (es : List Event) : List (Nat × Nat) :=
  (writes es).filter (fun w =>
    w.1 = base + DWMMC_CLKENA ∨ w.1 = base + DWMMC_CLKDIV ∨ w.1 = base + DWMMC_CLKSRC)

/-- The state after `dw_set_clk` with a 200 MHz source and a 400 kHz target on
hardware that answers 0 to every read, from the start state. -/
def stClkSet : State :=
  { nread := 4,
    trace :=
      [.rd (sampleParams.reg_base + DWMMC_STATUS) 0,
       .wr (sampleParams.reg_base + DWMMC_CLKENA) 0,
       .wr (sampleParams.reg_base + DWMMC_CMD) UPDATE_CLK_CMD,
       .rd (sampleParams.reg_base + DWMMC_CMD) 0,
       .wr (sampleParams.reg_base + DWMMC_CLKDIV) 250,
       .wr (sampleParams.reg_base + DWMMC_CMD) UPDATE_CLK_CMD,
       .rd (sampleParams.reg_base + DWMMC_CMD) 0,
       .wr (sampleParams.reg_base + DWMMC_CLKENA) 1,
       .wr (sampleParams.reg_base + DWMMC_CLKSRC) 0,
       .wr (sampleParams.reg_base + DWMMC_CMD) UPDATE_CLK_CMD,
       .rd (sampleParams.reg_base + DWMMC_CMD) 0],
    desc := zeroDesc }

/-- Whether an event is a store to a descriptor field. -/
def Event.isStore : Event → Bool
  | .st _ _ _ => true
  | _ => false

/-- The assertion of `dw_mmc_init` (lines 469-477) on a non-null `params`. -/
def dw_mmc_init_assert (h : EmmcDefs) (params : dw_mmc_params_t) : Bool :=
  decide (params.reg_base &&& EMMC_BLOCK_MASK = 0 ∧
    params.desc_base &&& EMMC_BLOCK_MASK = 0 ∧
    params.desc_size &&& EMMC_BLOCK_MASK = 0 ∧
    params.desc_size > 0 ∧
    params.clk_rate > 0 ∧
    (params.bus_width = h.EMMC_BUS_WIDTH_1 ∨ params.bus_width = h.EMMC_BUS_WIDTH_4 ∨
      params.bus_width = h.EMMC_BUS_WIDTH_8))

/-- The function `dw_mmc_init` up to the copy of `params` into `dw_params`
(lines 469-479); `none` is the null pointer.  The value is `dw_params`.  The
call of `emmc_init` that follows is in `emmc.c`, which is not among the
sources. -/
def dw_mmc_init (h : EmmcDefs) (params : Option dw_mmc_params_t) : M dw_mmc_params_t :=
  match params with
  | none => stop .assertion
  | some prm => do
    c_assert (dw_mmc_init_assert h prm)
    pure prm

/-- A controller configuration whose descriptor ring lies above 4 GiB. -/
def sampleParamsHigh : dw_mmc_params_t :=
  { reg_base := 0x1000, desc_base := 0x100000000, desc_size := 512, clk_rate := 200000000,
    bus_width := 0, flags := 0 }

/-- A command with index 64, one above the 6-bit range, and no response. -/
def cmdIdx64 : emmc_cmd_t :=
  { cmd_idx := 64, cmd_arg := 0, resp_type := 0, resp_data := fun _ => 0 }

/-- A command with index 0x8001, which is none of the indices the first
`switch` names, and no response. -/
def cmdIdxHigh : emmc_cmd_t :=
  { cmd_idx := 0x8001, cmd_arg := 0, resp_type := 0, resp_data := fun _ => 0 }

end DwMmc

namespace BluefieldSystem

/-! ## The table of known systems (lines 286-388 of `bluefield_system.c`) -/

/-- The memory configurations of lines 139-170, by name. -/
inductive ddr_config
  | mem_no | mem_spd | mem_8GU | mem_16GU

/-- The structure `sys_info`.  A C string is given by its characters before the
terminating NUL; `psid_vals` is the array as written, terminating 0 included. -/
structure sys_info where
  mss0_config : ddr_config
  mss1_config : ddr_config
  sys_name : List Char
  psid_vals : List Nat
  snic_model : Nat

/-- The table `known_systems`. -/
def known_systems : List sys_info :=
  [ ⟨.mem_spd, .mem_8GU, "bluetang".toList, [0], 0⟩,
    ⟨.mem_spd, .mem_spd, "MBE1x0x".toList, [118, 117, 121, 120, 122, 119, 0], 0⟩,
    ⟨.mem_no, .mem_16GU, "MBF1L332A-AF".toList, [169, 168, 0], 2⟩,
    ⟨.mem_no, .mem_16GU, "MBF1M332A-AE".toList, [131, 154, 0], 1⟩,
    ⟨.mem_no, .mem_16GU, "MBF1M332A-AS".toList, [229, 230, 0], 0⟩,
    ⟨.mem_no, .mem_16GU, "MBF1L332A-AT".toList, [176, 177, 0], 3⟩,
    ⟨.mem_no, .mem_8GU, "MBF1L516A-CSNAT_C11".toList, [5, 0], 0⟩,
    ⟨.mem_no, .mem_16GU, "MBF1L516A".toList, [244, 245, 246, 247, 0], 0⟩,
    ⟨.mem_spd, .mem_spd, "MBF1M6x6A-CE".toList, [163, 164, 173, 0], 1⟩,
    ⟨.mem_spd, .mem_spd, "MBF1M6x6A-CS".toList, [172, 175, 197, 0], 0⟩,
    ⟨.mem_spd, .mem_spd, "MBF1L666A-ES".toList, [211, 210, 0], 0⟩,
    ⟨.mem_spd, .mem_spd, "MBF1M216A-CS".toList, [0], 0⟩,
    ⟨.mem_spd, .mem_spd, "MBF1M7x6A-CS".toList, [132, 188, 0], 0⟩ ]

/-! ## `get_sys_idx_via_name` (lines 500-518) -/

/-- The inner loop of `get_sys_idx_via_name` (lines 509-513) together with the
test of line 514, on what is left of the two strings from index `j` on.  The
value is `match_name[j] == 0` at the end of the loop: true when `match_name` is
exhausted, false when `sys_name` ends first or the `break` is taken. -/
def get_sys_idx_via_name_scan : (match_name sys_name : List Char) → Bool
  | [], _ => true
  | _ :: _, [] => false
  | m :: ms, c :: cs =>
    if m ≠ 'x' ∧ m ≠ c then false
    else get_sys_idx_via_name_scan ms cs

/-- The outer loop of `get_sys_idx_via_name` (lines 505-516) over the entries
from index `i` on, and the final `return -1`. -/
def get_sys_idx_via_name_loop (sys_name : List Char) : (entries : List sys_info) → (i : Int) → Int
  | [], _ => -1
  | e :: rest, i =>
    if get_sys_idx_via_name_scan e.sys_name sys_name then i
    else get_sys_idx_via_name_loop sys_name rest (i + 1)

/-- The function `get_sys_idx_via_name`; `none` is the NULL pointer. -/
def get_sys_idx_via_name (sys_name : Option (List Char)) : Int :=
  match sys_name with
  | none => -1
  | some name => get_sys_idx_via_name_loop name known_systems 0

/-- The matching rule in the words of the specification: `pat` matches a prefix
of `name`, where a character `x` of `pat` matches any one character and every
other character must be equal. -/
def MatchesPrefix (pat name : List Char) : Prop :=
  ∃ pre rest, name = pre ++ rest ∧ List.Forall₂ (fun m c => m = 'x' ∨ m = c) pat pre

/-! ## `get_sys_idx_via_psid` (lines 525-549) -/

/-- The test of line 533: a decimal digit. -/
def is_digit (c : Char) : Bool := decide ('0' ≤ c ∧ c ≤ '9')

/-- The decimal value of a run of digits, most significant first. -/
def decimal_value (digits : List Char) : Nat :=
  digits.foldl (fun acc c => 10 * acc + (c.toNat - '0'.toNat)) 0

/-- Modelled from the spec: `strtol` of the C library is not among the sources.
In base 10, on a string that starts with a digit, its value is the decimal
number made of the longest run of digits, and `LONG_MAX` (a 64-bit `long`) when
that number is larger. -/
def strtol (s : List Char) : Int :=
  ((min (decimal_value (s.takeWhile is_digit)) (2 ^ 63 - 1) : Nat) : Int)

/-- The first loop of `get_sys_idx_via_psid` (lines 532-537) on what is left of
the string: the value of `psid` after it.  The conversion `(int)` keeps the low
32 bits. -/
def get_sys_idx_via_psid_parse : (psid_str : List Char) → Int
  | [] => -1
  | c :: cs =>
    if c ≥ '0' ∧ c ≤ '9' then DwMmc.toInt32 (strtol (c :: cs))
    else get_sys_idx_via_psid_parse cs

/-- The inner loop of `get_sys_idx_via_psid` (lines 542-545) on what is left of
`psid_vals`: whether the `return i` is taken before the terminating 0. -/
def get_sys_idx_via_psid_scan (psid : Int) : (psid_vals : List Nat) → Bool
  | [] => false
  | v :: vs =>
    if v = 0 then false
    else if psid = (v : Int) then true
    else get_sys_idx_via_psid_scan psid vs

/-- The outer loop of `get_sys_idx_via_psid` (lines 541-546) over the entries
from index `i` on, and the final `return -1`. -/
def get_sys_idx_via_psid_loop (psid : Int) : (entries : List sys_info) → (i : Int) → Int
  | [], _ => -1
  | e :: rest, i =>
    if get_sys_idx_via_psid_scan psid e.psid_vals then i
    else get_sys_idx_via_psid_loop psid rest (i + 1)

/-- The function `get_sys_idx_via_psid`; `none` is the NULL pointer. -/
def get_sys_idx_via_psid (psid_str : Option (List Char)) : Int :=
  match psid_str with
  | none => -1
  | some str =>
    let psid := get_sys_idx_via_psid_parse str
    if psid ≤ 0 then -1
    else get_sys_idx_via_psid_loop psid known_systems 0

/-- The PSID values an entry lists: `psid_vals` up to its terminating 0. -/
def listed_psids (e : sys_info) : List Nat := e.psid_vals.takeWhile (fun v => v ≠ 0)

/-- The decimal string of a number, as the characters of a C string. -/
def decimal_string (v : Nat) : List Char := (Nat.repr v).toList

/-- The check of one entry of the table: looked up by its own name and by the
decimal string of each PSID it lists, the entry at index `i` is found at index
`i`, and each decimal string reads back as the PSID. -/
def entry_unambiguous (i : Nat) (e : sys_info) : Bool :=
  decide (get_sys_idx_via_name (some e.sys_name) = (i : Int)) &&
    (listed_psids e).all (fun v =>
      decide (get_sys_idx_via_psid (some (decimal_string v)) = (i : Int)) &&
        decide (decimal_value (decimal_string v) = v))

end BluefieldSystem

namespace DwMmc

/-! ## Basic facts about runs and traces -/

theorem bind_run {α β : Type} (m : M α) (f : α → M β) (s : State) :
    (m >>= f) s = match m s with
      | .ok a s1 => f a s1
      | .fatal e s1 => .fatal e s1 := rfl

theorem pure_run {α : Type} (a : α) (s : State) : (pure a : M α) s = .ok a s := rfl

theorem writes_append (l1 l2 : List Event) : writes (l1 ++ l2) = writes l1 ++ writes l2 := by
  induction l1 with
  | nil => rfl
  | cons e t ih => cases e <;> simp [writes, ih]

theorem mem_writes_iff (l : List Event) (a v : Nat) : (a, v) ∈ writes l ↔ Event.wr a v ∈ l := by
  induction l with
  | nil => simp [writes]
  | cons e t ih => cases e <;> simp [writes, ih]

/-- One iteration of the busy wait, as a run. -/
theorem dw_send_cmd_busy_succ (hw : Nat → Nat) (base t : Nat) (s : State) :
    dw_send_cmd_busy hw base (t + 1) s =
      if t = 0 then .fatal .panic (s.afterRead hw (base + DWMMC_STATUS))
      else if hw s.nread % 2 ^ 32 &&& STATUS_DATA_BUSY ≠ 0 then
        dw_send_cmd_busy hw base t (s.afterRead hw (base + DWMMC_STATUS))
      else .ok () (s.afterRead hw (base + DWMMC_STATUS)) := by
  simp only [dw_send_cmd_busy, bind_run, mmio_read_32, State.afterRead]
  by_cases h0 : t = 0
  · simp [h0, stop]
  · by_cases hb : hw s.nread % 2 ^ 32 &&& STATUS_DATA_BUSY ≠ 0
    · simp only [if_neg h0, if_pos hb]
    · simp only [if_neg h0, if_neg hb, pure_run]

/-- One iteration of the completion loop, as a run. -/
theorem dw_send_cmd_poll_succ (hw : Nat → Nat) (base t pending : Nat) (s : State) :
    dw_send_cmd_poll hw base (t + 1) pending s =
      match dw_send_cmd_poll_step (hw (s.log [.udelay 500]).nread % 2 ^ 32) pending with
      | none =>
        .ok (some (- EIO))
          (((s.log [.udelay 500]).afterRead hw (base + DWMMC_RINTSTS)).log
            [.error (hw s.nread % 2 ^ 32)])
      | some pending2 =>
        if t = 0 then
          .fatal .panic
            (((s.log [.udelay 500]).afterRead hw (base + DWMMC_RINTSTS)).log
              [.error (hw s.nread % 2 ^ 32)])
        else if pending2 ≠ 0 then
          dw_send_cmd_poll hw base t pending2
            ((s.log [.udelay 500]).afterRead hw (base + DWMMC_RINTSTS))
        else .ok none ((s.log [.udelay 500]).afterRead hw (base + DWMMC_RINTSTS)) := by
  simp only [dw_send_cmd_poll, bind_run, mmio_read_32, emit, State.afterRead, State.log]
  cases dw_send_cmd_poll_step (hw s.nread % 2 ^ 32) pending with
  | none => simp [bind_run, emit, pure_run]
  | some pending2 =>
    by_cases h0 : t = 0
    · simp [h0, bind_run, emit, stop]
    · by_cases hp : pending2 ≠ 0
      · simp only [if_neg h0, if_pos hp]
      · simp only [if_neg h0, if_neg hp, pure_run]

/-- The busy wait writes no register. -/
theorem dw_send_cmd_busy_writes (hw : Nat → Nat) (base : Nat) (t : Nat) (s : State) :
    writes (dw_send_cmd_busy hw base t s).state.trace = writes s.trace := by
  induction t generalizing s with
  | zero =>
    simp [dw_send_cmd_busy, bind_run, mmio_read_32, stop, Result.state, writes_append, writes]
  | succ t ih =>
    rw [dw_send_cmd_busy_succ]
    split
    · simp [Result.state, State.afterRead, writes_append, writes]
    · split
      · rw [ih]; simp [State.afterRead, writes_append, writes]
      · simp [Result.state, State.afterRead, writes_append, writes]

/-- The completion loop writes no register. -/
theorem dw_send_cmd_poll_writes (hw : Nat → Nat) (base : Nat) (t pending : Nat) (s : State) :
    writes (dw_send_cmd_poll hw base t pending s).state.trace = writes s.trace := by
  induction t generalizing s pending with
  | zero => simp [dw_send_cmd_poll, stop, Result.state]
  | succ t ih =>
    rw [dw_send_cmd_poll_succ]
    split
    · simp [Result.state, State.afterRead, State.log, writes_append, writes]
    · split
      · simp [Result.state, State.afterRead, State.log, writes_append, writes]
      · split
        · rw [ih]; simp [State.afterRead, State.log, writes_append, writes]
        · simp [Result.state, State.afterRead, State.log, writes_append, writes]

/-- The response read-out writes no register. -/
theorem dw_send_cmd_read_resp_writes (hw : Nat → Nat) (base op : Nat) (cmd : emmc_cmd_t)
    (s : State) :
    writes (dw_send_cmd_read_resp hw base op cmd s).state.trace = writes s.trace := by
  unfold dw_send_cmd_read_resp
  split
  · simp only [bind_run, mmio_read_32]
    split
    · simp [bind_run, mmio_read_32, pure_run, Result.state, writes_append, writes]
    · simp [pure_run, Result.state, writes_append, writes]
  · simp [pure_run, Result.state]

/-- The register writes of a run of `dw_send_cmd`: none at all, or exactly the
writes of lines 327-330, the last being the command word. -/
theorem dw_send_cmd_writes (h : EmmcDefs) (no_dma : Bool) (p : dw_mmc_params_t)
    (hw : Nat → Nat) (cmd : emmc_cmd_t) (s : State) :
    writes (dw_send_cmd h no_dma p hw cmd s).state.trace = writes s.trace ∨
    ∃ op0, dw_send_cmd_class no_dma cmd.cmd_idx = some op0 ∧
      writes (dw_send_cmd h no_dma p hw cmd s).state.trace =
        writes s.trace ++
          [(p.reg_base + DWMMC_RINTSTS, ALL_ONES), (p.reg_base + DWMMC_CMDARG, cmd.cmd_arg),
           (p.reg_base + DWMMC_CMD,
            dw_send_cmd_resp h cmd.resp_type (op0 ||| (CMD_USE_HOLD_REG ||| CMD_START)) |||
              cmd.cmd_idx)] := by
  unfold dw_send_cmd
  cases hc : dw_send_cmd_class no_dma cmd.cmd_idx with
  | none => left; simp [pure_run, Result.state]
  | some op0 =>
    simp only [bind_run]
    have hb := dw_send_cmd_busy_writes hw p.reg_base TIMEOUT s
    cases hbr : dw_send_cmd_busy hw p.reg_base TIMEOUT s with
    | fatal f s1 =>
      left
      rw [hbr] at hb
      simpa [Result.state] using hb
    | ok u s1 =>
      right
      refine ⟨op0, rfl, ?_⟩
      rw [hbr] at hb
      simp only [Result.state] at hb
      simp only [mmio_write_32, emit]
      generalize hs2 : ({ s1 with trace := s1.trace ++
        [Event.wr (p.reg_base + DWMMC_RINTSTS) ALL_ONES] ++
        [Event.wr (p.reg_base + DWMMC_CMDARG) cmd.cmd_arg] ++ [Event.dsbsy] ++
        [Event.wr (p.reg_base + DWMMC_CMD)
          (dw_send_cmd_resp h cmd.resp_type (op0 ||| (CMD_USE_HOLD_REG ||| CMD_START)) |||
            cmd.cmd_idx)] } : State) = s2
      have hw2 : writes s2.trace = writes s.trace ++
          [(p.reg_base + DWMMC_RINTSTS, ALL_ONES), (p.reg_base + DWMMC_CMDARG, cmd.cmd_arg),
           (p.reg_base + DWMMC_CMD,
            dw_send_cmd_resp h cmd.resp_type (op0 ||| (CMD_USE_HOLD_REG ||| CMD_START)) |||
              cmd.cmd_idx)] := by
        rw [← hs2]; simp [writes_append, writes, hb]
      generalize hpend : (INT_CMD_DONE ||| if dw_send_cmd_resp h cmd.resp_type
        (op0 ||| (CMD_USE_HOLD_REG ||| CMD_START)) &&& CMD_DATA_TRANS_EXPECT ≠ 0
        then INT_DTO else 0) = pending
      have hp := dw_send_cmd_poll_writes hw p.reg_base TIMEOUT pending s2
      cases hpr : dw_send_cmd_poll hw p.reg_base TIMEOUT pending s2 with
      | fatal f s3 =>
        rw [hpr] at hp
        simp only [Result.state] at hp ⊢
        rw [hp, hw2]
      | ok code s3 =>
        rw [hpr] at hp
        simp only [Result.state] at hp
        cases code with
        | some c => simp only [pure_run, Result.state]; rw [hp, hw2]
        | none =>
          simp only [bind_run]
          have hr := dw_send_cmd_read_resp_writes hw p.reg_base
            (dw_send_cmd_resp h cmd.resp_type (op0 ||| (CMD_USE_HOLD_REG ||| CMD_START))) cmd s3
          cases hrr : dw_send_cmd_read_resp hw p.reg_base
            (dw_send_cmd_resp h cmd.resp_type (op0 ||| (CMD_USE_HOLD_REG ||| CMD_START))) cmd s3 with
          | fatal f s4 =>
            rw [hrr] at hr
            simp only [Result.state] at hr ⊢
            rw [hr, hp, hw2]
          | ok c4 s4 =>
            rw [hrr] at hr
            simp only [Result.state, pure_run] at hr ⊢
            rw [hr, hp, hw2]

/-- A write to CMD in the trace of a run of `dw_send_cmd` carries the word of
line 330. -/
theorem dw_send_cmd_cmd_word (h : EmmcDefs) (no_dma : Bool) (p : dw_mmc_params_t)
    (hw : Nat → Nat) (cmd : emmc_cmd_t) (desc : Int → dw_idmac_desc) (w : Nat)
    (hmem : Event.wr (p.reg_base + DWMMC_CMD) w ∈
      (dw_send_cmd h no_dma p hw cmd (State.start desc)).state.trace) :
    ∃ op0, dw_send_cmd_class no_dma cmd.cmd_idx = some op0 ∧
      w = dw_send_cmd_resp h cmd.resp_type (op0 ||| (CMD_USE_HOLD_REG ||| CMD_START)) |||
        cmd.cmd_idx := by
  rw [← mem_writes_iff] at hmem
  rcases dw_send_cmd_writes h no_dma p hw cmd (State.start desc) with h0 | ⟨op0, hc, h3⟩
  · rw [h0] at hmem; simp [State.start, writes] at hmem
  · refine ⟨op0, hc, ?_⟩
    rw [h3] at hmem
    simp only [State.start, writes, List.nil_append, List.mem_cons, Prod.mk.injEq,
      List.mem_singleton, DWMMC_CMD, DWMMC_RINTSTS, DWMMC_CMDARG] at hmem
    rcases hmem with ⟨ha, _⟩ | ⟨ha, _⟩ | ⟨_, hv⟩ | hn
    · omega
    · omega
    · exact hv
    · cases hn

theorem or_and_mask (a b m : Nat) : (a ||| b) &&& m = (a &&& m) ||| (b &&& m) := by
  rw [Nat.and_comm, Nat.and_or_distrib_left, Nat.and_comm m a, Nat.and_comm m b]

/-- A command index below 64 has no bit above bit 5. -/
theorem idx_and_mask (idx m : Nat) (hidx : idx < 64) (hm : m % 64 = 0) : idx &&& m = 0 := by
  apply Nat.eq_of_testBit_eq
  intro i
  rw [Nat.testBit_and, Nat.zero_testBit]
  by_cases hi : i < 6
  · have : m.testBit i = false := by
      have h1 : (m % 2 ^ 6).testBit i = false := by
        have : m % 2 ^ 6 = 0 := by simpa using hm
        rw [this, Nat.zero_testBit]
      rw [Nat.testBit_mod_two_pow] at h1
      simpa [hi] using h1
    simp [this]
  · have : idx.testBit i = false := by
      apply Nat.testBit_lt_two_pow
      calc idx < 2 ^ 6 := by simpa using hidx
        _ ≤ 2 ^ i := Nat.pow_le_pow_right (by decide) (by omega)
    simp [this]

/-- The class flags the first `switch` can give. -/
theorem dw_send_cmd_class_values (no_dma : Bool) (idx op0 : Nat)
    (hc : dw_send_cmd_class no_dma idx = some op0) :
    op0 = CMD_SEND_INIT ∨ op0 = CMD_STOP_ABORT_CMD ∨ op0 = CMD_WAIT_PRVDATA_COMPLETE ∨
      op0 = (CMD_DATA_TRANS_EXPECT ||| CMD_WAIT_PRVDATA_COMPLETE) ∨
      op0 = (CMD_WRITE ||| CMD_DATA_TRANS_EXPECT ||| CMD_WAIT_PRVDATA_COMPLETE) ∨ op0 = 0 := by
  unfold dw_send_cmd_class at hc
  split at hc
  · simp_all
  · split at hc
    · simp_all
    · split at hc
      · simp_all
      · split at hc
        · simp_all
        · split at hc
          · split at hc
            · simp at hc
            · simp_all
          · simp_all

/-! ## Command word: response-shape and class flags -/

set_option maxRecDepth 100000 in
/-- C1 as stated fails above index 63: the index is or'ed into the command word
unmasked (line 330), so index 64 with response type 0 is written as 0xA0000040,
with RESP_EXPECT (bit 6) set, while index 0 with the same response type is
written with none of the three response-shape bits. -/
theorem dw_send_cmd_resp_shape_counterexample :
    (cmdIdx64.resp_type = 0 ∧ cmdGoIdle.resp_type = 0) ∧
    writes (dw_send_cmd sampleDefs false sampleParams hwDone cmdIdx64
        (State.start zeroDesc)).state.trace =
      [(sampleParams.reg_base + DWMMC_RINTSTS, ALL_ONES),
       (sampleParams.reg_base + DWMMC_CMDARG, 0),
       (sampleParams.reg_base + DWMMC_CMD, 0xA0000040)] ∧
    0xA0000040 &&& (CMD_RESP_EXPECT ||| CMD_RESP_LEN ||| CMD_CHECK_RESP_CRC) =
      CMD_RESP_EXPECT ∧
    CMD_RESP_EXPECT ≠ 0 ∧
    writes (dw_send_cmd sampleDefs false sampleParams hwDone cmdGoIdle
        (State.start zeroDesc)).state.trace =
      [(sampleParams.reg_base + DWMMC_RINTSTS, ALL_ONES),
       (sampleParams.reg_base + DWMMC_CMDARG, 0),
       (sampleParams.reg_base + DWMMC_CMD, 0xA0008000)] ∧
    0xA0008000 &&& (CMD_RESP_EXPECT ||| CMD_RESP_LEN ||| CMD_CHECK_RESP_CRC) = 0 := by
  refine ⟨⟨rfl, rfl⟩, by decide, by decide, by decide, by decide, by decide⟩

/-- C1, amended: for every command index in 0..63 and every response type, a
command word written to CMD by `dw_send_cmd` has response-shape bits (RESP_EXPECT,
RESP_LEN, CHECK_RESP_CRC) fixed by the response type alone: none for response
type 0, all three for the long response R2, RESP_EXPECT only for the no-CRC
response R3, RESP_EXPECT and CHECK_RESP_CRC without RESP_LEN for every other
response type. -/
theorem dw_send_cmd_resp_shape (h : EmmcDefs) (hd : h.RespLabelsDistinct) (no_dma : Bool)
    (p : dw_mmc_params_t) (hw : Nat → Nat) (cmd : emmc_cmd_t) (desc : Int → dw_idmac_desc)
    (w : Nat) (hidx : cmd.cmd_idx < 64)
    (hmem : Event.wr (p.reg_base + DWMMC_CMD) w ∈
      (dw_send_cmd h no_dma p hw cmd (State.start desc)).state.trace) :
    (cmd.resp_type = 0 →
      w &&& (CMD_RESP_EXPECT ||| CMD_RESP_LEN ||| CMD_CHECK_RESP_CRC) = 0) ∧
    (cmd.resp_type = h.EMMC_RESPONSE_R2 →
      w &&& (CMD_RESP_EXPECT ||| CMD_RESP_LEN ||| CMD_CHECK_RESP_CRC) =
        (CMD_RESP_EXPECT ||| CMD_RESP_LEN ||| CMD_CHECK_RESP_CRC)) ∧
    (cmd.resp_type = h.EMMC_RESPONSE_R3 →
      w &&& (CMD_RESP_EXPECT ||| CMD_RESP_LEN ||| CMD_CHECK_RESP_CRC) = CMD_RESP_EXPECT) ∧
    (cmd.resp_type ≠ 0 → cmd.resp_type ≠ h.EMMC_RESPONSE_R2 →
      cmd.resp_type ≠ h.EMMC_RESPONSE_R3 →
      w &&& (CMD_RESP_EXPECT ||| CMD_RESP_LEN ||| CMD_CHECK_RESP_CRC) =
        (CMD_RESP_EXPECT ||| CMD_CHECK_RESP_CRC)) := by
  obtain ⟨op0, hc, rfl⟩ := dw_send_cmd_cmd_word h no_dma p hw cmd desc w hmem
  obtain ⟨h20, h30, h23⟩ := hd
  have hi : cmd.cmd_idx &&& (CMD_RESP_EXPECT ||| CMD_RESP_LEN ||| CMD_CHECK_RESP_CRC) = 0 :=
    idx_and_mask _ _ hidx (by decide)
  have hop : (op0 ||| (CMD_USE_HOLD_REG ||| CMD_START)) &&&
      (CMD_RESP_EXPECT ||| CMD_RESP_LEN ||| CMD_CHECK_RESP_CRC) = 0 := by
    rcases dw_send_cmd_class_values no_dma _ op0 hc with e | e | e | e | e | e <;>
      (rw [e]; decide)
  refine ⟨fun h0 => ?_, fun h2 => ?_, fun h3 => ?_, fun n0 n2 n3 => ?_⟩
  · rw [or_and_mask, hi, dw_send_cmd_resp, if_pos h0, hop]; rfl
  · rw [or_and_mask, hi, dw_send_cmd_resp, if_neg (fun e => h20 (h2.symm.trans e)), if_pos h2, or_and_mask, hop]
    decide
  · rw [or_and_mask, hi, dw_send_cmd_resp, if_neg (fun e => h30 (h3.symm.trans e)),
      if_neg (fun e => h23 (e.symm.trans h3)), if_pos h3, or_and_mask, hop]
    decide
  · rw [or_and_mask, hi, dw_send_cmd_resp, if_neg n0, if_neg n2, if_neg n3, or_and_mask, hop]
    decide

set_option maxRecDepth 100000 in
/-- C1, amended, at a concrete run: index 2 with the long response writes
0xA00001C2. -/
theorem dw_send_cmd_resp_shape_witness :
    Event.wr (sampleParams.reg_base + DWMMC_CMD) 0xA00001C2 ∈
      (dw_send_cmd sampleDefs false sampleParams hwDone cmdAllSendCid
        (State.start zeroDesc)).state.trace ∧
    0xA00001C2 &&& (CMD_RESP_EXPECT ||| CMD_RESP_LEN ||| CMD_CHECK_RESP_CRC) =
      (CMD_RESP_EXPECT ||| CMD_RESP_LEN ||| CMD_CHECK_RESP_CRC) :=
  ⟨by decide,
   (dw_send_cmd_resp_shape sampleDefs ⟨by decide, by decide, by decide⟩ false sampleParams
      hwDone cmdAllSendCid zeroDesc 0xA00001C2 (by decide) (by decide)).2.1 rfl⟩

set_option maxRecDepth 100000 in
/-- C2 as stated fails above index 63: the index is or'ed into the command word
unmasked (line 330), so in the DMA build index 0x8001, which is none of CMD0,
8, 12, 13, 17, 18, 24, 25, is written as 0xA0008001, with the class bit
SEND_INIT (bit 15) set. -/
theorem dw_send_cmd_class_bits_counterexample :
    cmdIdxHigh.cmd_idx ∉ [0, 12, 13, 8, 17, 18, 24, 25] ∧
    writes (dw_send_cmd sampleDefs false sampleParams hwDone cmdIdxHigh
        (State.start zeroDesc)).state.trace =
      [(sampleParams.reg_base + DWMMC_RINTSTS, ALL_ONES),
       (sampleParams.reg_base + DWMMC_CMDARG, 0),
       (sampleParams.reg_base + DWMMC_CMD, 0xA0008001)] ∧
    0xA0008001 &&& (CMD_SEND_INIT ||| CMD_STOP_ABORT_CMD ||| CMD_WAIT_PRVDATA_COMPLETE |||
        CMD_WRITE ||| CMD_DATA_TRANS_EXPECT) = CMD_SEND_INIT ∧
    CMD_SEND_INIT ≠ 0 := by
  refine ⟨by decide, by decide, by decide, by decide⟩

/-- C2, amended: in the DMA build, for every command index in 0..63 and every
response type, a command word written to CMD by `dw_send_cmd` has class bits (SEND_INIT,
STOP_ABORT_CMD, WAIT_PRVDATA_COMPLETE, WRITE, DATA_TRANS_EXPECT) fixed by the
index alone, as listed; USE_HOLD_REG and START are set and UPDATE_CLK_ONLY is
clear; and index 0 with no response is written as 0xA0008000. -/
theorem dw_send_cmd_class_bits (h : EmmcDefs) (p : dw_mmc_params_t) (hw : Nat → Nat)
    (cmd : emmc_cmd_t) (desc : Int → dw_idmac_desc) (w : Nat) (hidx : cmd.cmd_idx < 64)
    (hmem : Event.wr (p.reg_base + DWMMC_CMD) w ∈
      (dw_send_cmd h false p hw cmd (State.start desc)).state.trace) :
    (cmd.cmd_idx = 0 →
      w &&& (CMD_SEND_INIT ||| CMD_STOP_ABORT_CMD ||| CMD_WAIT_PRVDATA_COMPLETE |||
        CMD_WRITE ||| CMD_DATA_TRANS_EXPECT) = CMD_SEND_INIT) ∧
    (cmd.cmd_idx = 12 →
      w &&& (CMD_SEND_INIT ||| CMD_STOP_ABORT_CMD ||| CMD_WAIT_PRVDATA_COMPLETE |||
        CMD_WRITE ||| CMD_DATA_TRANS_EXPECT) = CMD_STOP_ABORT_CMD) ∧
    (cmd.cmd_idx = 13 →
      w &&& (CMD_SEND_INIT ||| CMD_STOP_ABORT_CMD ||| CMD_WAIT_PRVDATA_COMPLETE |||
        CMD_WRITE ||| CMD_DATA_TRANS_EXPECT) = CMD_WAIT_PRVDATA_COMPLETE) ∧
    (cmd.cmd_idx = 8 ∨ cmd.cmd_idx = 17 ∨ cmd.cmd_idx = 18 →
      w &&& (CMD_SEND_INIT ||| CMD_STOP_ABORT_CMD ||| CMD_WAIT_PRVDATA_COMPLETE |||
        CMD_WRITE ||| CMD_DATA_TRANS_EXPECT) =
        (CMD_DATA_TRANS_EXPECT ||| CMD_WAIT_PRVDATA_COMPLETE)) ∧
    (cmd.cmd_idx = 24 ∨ cmd.cmd_idx = 25 →
      w &&& (CMD_SEND_INIT ||| CMD_STOP_ABORT_CMD ||| CMD_WAIT_PRVDATA_COMPLETE |||
        CMD_WRITE ||| CMD_DATA_TRANS_EXPECT) =
        (CMD_WRITE ||| CMD_DATA_TRANS_EXPECT ||| CMD_WAIT_PRVDATA_COMPLETE)) ∧
    (cmd.cmd_idx ∉ [0, 12, 13, 8, 17, 18, 24, 25] →
      w &&& (CMD_SEND_INIT ||| CMD_STOP_ABORT_CMD ||| CMD_WAIT_PRVDATA_COMPLETE |||
        CMD_WRITE ||| CMD_DATA_TRANS_EXPECT) = 0) ∧
    w &&& CMD_USE_HOLD_REG = CMD_USE_HOLD_REG ∧ w &&& CMD_START = CMD_START ∧
    w &&& CMD_UPDATE_CLK_ONLY = 0 ∧
    (cmd.cmd_idx = 0 → cmd.resp_type = 0 → w = 0xA0008000) := by
  obtain ⟨op0, hc, rfl⟩ := dw_send_cmd_cmd_word h false p hw cmd desc w hmem
  have hi : ∀ m, m % 64 = 0 → cmd.cmd_idx &&& m = 0 := fun m hm => idx_and_mask _ m hidx hm
  -- the response switch adds bits 6..8 only
  have hr : ∀ x m, m &&& (CMD_RESP_EXPECT ||| CMD_RESP_LEN ||| CMD_CHECK_RESP_CRC) = 0 →
      dw_send_cmd_resp h cmd.resp_type x &&& m = x &&& m := by
    intro x m hm
    have e1 : CMD_RESP_EXPECT &&& m = 0 := by
      apply Nat.eq_of_testBit_eq; intro i
      have := congrArg (fun n => Nat.testBit n i) hm
      simp only [Nat.testBit_and, Nat.testBit_or, Nat.zero_testBit] at this ⊢
      cases hb : CMD_RESP_EXPECT.testBit i <;> simp_all
    have e2 : CMD_RESP_LEN &&& m = 0 := by
      apply Nat.eq_of_testBit_eq; intro i
      have := congrArg (fun n => Nat.testBit n i) hm
      simp only [Nat.testBit_and, Nat.testBit_or, Nat.zero_testBit] at this ⊢
      cases hb : CMD_RESP_LEN.testBit i <;> simp_all
    have e3 : CMD_CHECK_RESP_CRC &&& m = 0 := by
      apply Nat.eq_of_testBit_eq; intro i
      have := congrArg (fun n => Nat.testBit n i) hm
      simp only [Nat.testBit_and, Nat.testBit_or, Nat.zero_testBit] at this ⊢
      cases hb : CMD_CHECK_RESP_CRC.testBit i <;> simp_all
    unfold dw_send_cmd_resp
    split
    · rfl
    · split
      · rw [or_and_mask, or_and_mask, or_and_mask, e1, e2, e3]; simp
      · split
        · rw [or_and_mask, e1]; simp
        · rw [or_and_mask, or_and_mask, e1, e3]; simp
  have key : ∀ m, m % 64 = 0 →
      m &&& (CMD_RESP_EXPECT ||| CMD_RESP_LEN ||| CMD_CHECK_RESP_CRC) = 0 →
      (dw_send_cmd_resp h cmd.resp_type (op0 ||| (CMD_USE_HOLD_REG ||| CMD_START)) |||
        cmd.cmd_idx) &&& m = (op0 ||| (CMD_USE_HOLD_REG ||| CMD_START)) &&& m := by
    intro m hm hm2
    rw [or_and_mask, hi m hm, hr _ m hm2]; simp
  have kcls := key (CMD_SEND_INIT ||| CMD_STOP_ABORT_CMD ||| CMD_WAIT_PRVDATA_COMPLETE |||
        CMD_WRITE ||| CMD_DATA_TRANS_EXPECT) (by decide) (by decide)
  have khold := key CMD_USE_HOLD_REG (by decide) (by decide)
  have kstart := key CMD_START (by decide) (by decide)
  have kupd := key CMD_UPDATE_CLK_ONLY (by decide) (by decide)
  rw [kcls, khold, kstart, kupd]
  have hv := dw_send_cmd_class_values false _ op0 hc
  refine ⟨fun e => ?_, fun e => ?_, fun e => ?_, fun e => ?_, fun e => ?_, fun e => ?_,
    ?_, ?_, ?_, fun e1 e2 => ?_⟩
  · rw [e] at hc; simp [dw_send_cmd_class, EMMC_CMD0] at hc; subst hc; decide
  · rw [e] at hc
    simp [dw_send_cmd_class, EMMC_CMD0, EMMC_CMD12] at hc; subst hc; decide
  · rw [e] at hc
    simp [dw_send_cmd_class, EMMC_CMD0, EMMC_CMD12, EMMC_CMD13] at hc; subst hc; decide
  · rcases e with e | e | e <;>
      (rw [e] at hc
       simp [dw_send_cmd_class, EMMC_CMD0, EMMC_CMD12, EMMC_CMD13, EMMC_CMD8, EMMC_CMD17,
         EMMC_CMD18] at hc
       subst hc; decide)
  · rcases e with e | e <;>
      (rw [e] at hc
       simp [dw_send_cmd_class, EMMC_CMD0, EMMC_CMD12, EMMC_CMD13, EMMC_CMD8, EMMC_CMD17,
         EMMC_CMD18, EMMC_CMD24, EMMC_CMD25] at hc
       subst hc; decide)
  · simp only [List.mem_cons, List.mem_singleton, List.not_mem_nil, or_false, not_or] at e
    obtain ⟨n0, n12, n13, n8, n17, n18, n24, n25⟩ := e
    simp [dw_send_cmd_class, EMMC_CMD0, EMMC_CMD12, EMMC_CMD13, EMMC_CMD8, EMMC_CMD17,
         EMMC_CMD18, EMMC_CMD24, EMMC_CMD25, n0, n12, n13, n8, n17, n18, n24, n25] at hc
    subst hc; decide
  · rcases hv with e | e | e | e | e | e <;> (rw [e]; decide)
  · rcases hv with e | e | e | e | e | e <;> (rw [e]; decide)
  · rcases hv with e | e | e | e | e | e <;> (rw [e]; decide)
  · rw [e1] at hc; simp [dw_send_cmd_class, EMMC_CMD0] at hc; subst hc
    rw [e1, dw_send_cmd_resp, if_pos e2]; decide

set_option maxRecDepth 100000 in
/-- C2, amended, at a concrete run: index 0 with no response writes 0xA0008000. -/
theorem dw_send_cmd_class_bits_witness :
    Event.wr (sampleParams.reg_base + DWMMC_CMD) 0xA0008000 ∈
      (dw_send_cmd sampleDefs false sampleParams hwDone cmdGoIdle
        (State.start zeroDesc)).state.trace ∧
    0xA0008000 &&& (CMD_SEND_INIT ||| CMD_STOP_ABORT_CMD ||| CMD_WAIT_PRVDATA_COMPLETE |||
        CMD_WRITE ||| CMD_DATA_TRANS_EXPECT) = CMD_SEND_INIT :=
  ⟨by decide,
   (dw_send_cmd_class_bits sampleDefs sampleParams hwDone cmdGoIdle zeroDesc 0xA0008000
      (by decide) (by decide)).1 rfl⟩

/-! ## Completion polling: the hardware error -/

theorem and_ne_zero_iff (x m : Nat) :
    x &&& m ≠ 0 ↔ ∃ i, x.testBit i = true ∧ m.testBit i = true := by
  constructor
  · intro hne
    by_contra hcon
    apply hne
    apply Nat.eq_of_testBit_eq
    intro i
    rw [Nat.testBit_and, Nat.zero_testBit]
    cases hx : x.testBit i
    · rfl
    · cases hm : m.testBit i
      · rfl
      · exact absurd ⟨i, hx, hm⟩ hcon
  · rintro ⟨i, hx, hm⟩ h0
    have := Nat.testBit_and x m i
    rw [h0, Nat.zero_testBit, hx, hm] at this
    cases this

/-- The bits of the error mask of `dw_send_cmd`: 15, 13, 12, 9, 8, 7, 6 and 1. -/
theorem err_mask_testBit (i : Nat) :
    err_mask.testBit i = true ↔
      i = 15 ∨ i = 13 ∨ i = 12 ∨ i = 9 ∨ i = 8 ∨ i = 7 ∨ i = 6 ∨ i = 1 := by
  by_cases hi : i < 16
  · interval_cases i <;> decide
  · have h1 : err_mask.testBit i = false := by
      apply Nat.testBit_lt_two_pow
      calc err_mask < 2 ^ 16 := by decide
        _ ≤ 2 ^ i := Nat.pow_le_pow_right (by decide) (by omega)
    rw [h1]
    constructor
    · intro h; cases h
    · intro h; omega

/-- A status word meets the error mask exactly when one of the eight bits is set. -/
theorem and_err_mask_ne_zero (data : Nat) :
    data &&& err_mask ≠ 0 ↔
      (data.testBit 15 = true ∨ data.testBit 13 = true ∨ data.testBit 12 = true ∨
        data.testBit 9 = true ∨ data.testBit 8 = true ∨ data.testBit 7 = true ∨
        data.testBit 6 = true ∨ data.testBit 1 = true) := by
  rw [and_ne_zero_iff]
  constructor
  · rintro ⟨i, hx, hm⟩
    rw [err_mask_testBit] at hm
    rcases hm with e | e | e | e | e | e | e | e <;> subst e <;> simp [hx]
  · intro h
    rcases h with h | h | h | h | h | h | h | h
    · exact ⟨15, h, by decide⟩
    · exact ⟨13, h, by decide⟩
    · exact ⟨12, h, by decide⟩
    · exact ⟨9, h, by decide⟩
    · exact ⟨8, h, by decide⟩
    · exact ⟨7, h, by decide⟩
    · exact ⟨6, h, by decide⟩
    · exact ⟨1, h, by decide⟩

/-- The completion loop never un-reads: the read count does not go down. -/
theorem dw_send_cmd_poll_nread (hw : Nat → Nat) (base : Nat) (t pending : Nat) (s : State) :
    s.nread ≤ (dw_send_cmd_poll hw base t pending s).state.nread := by
  induction t generalizing s pending with
  | zero => simp [dw_send_cmd_poll, stop, Result.state]
  | succ t ih =>
    rw [dw_send_cmd_poll_succ]
    split
    · simp [Result.state, State.afterRead, State.log]
    · split
      · simp [Result.state, State.afterRead, State.log]
      · split
        · refine Nat.le_trans ?_ (ih _ _)
          simp [State.afterRead, State.log]
        · simp [Result.state, State.afterRead, State.log]

/-- A poll entered with a positive `timeout` makes at least one read. -/
theorem dw_send_cmd_poll_nread_succ (hw : Nat → Nat) (base : Nat) (t pending : Nat)
    (s : State) :
    s.nread + 1 ≤ (dw_send_cmd_poll hw base (t + 1) pending s).state.nread := by
  rw [dw_send_cmd_poll_succ]
  split
  · simp [Result.state, State.afterRead, State.log]
  · split
    · simp [Result.state, State.afterRead, State.log]
    · split
      · refine Nat.le_trans ?_ (dw_send_cmd_poll_nread _ _ _ _ _)
        simp [State.afterRead, State.log]
      · simp [Result.state, State.afterRead, State.log]

set_option maxRecDepth 100000 in
/-- C3 as stated fails in both directions.  A status word with only FIFO
underrun/overrun (bit 11) set is no hardware error: the run polls again and
returns 0.  A status word with only response-error (bit 1) set, none of the
eight bits the specification lists, is a hardware error: the run returns `-EIO` on that
poll. -/
theorem dw_send_cmd_hw_error_counterexample :
    (Nat.testBit 0x800 11 = true ∧
      reads (dw_send_cmd sampleDefs false sampleParams hwFrun cmdGoIdle
        (State.start zeroDesc)).state.trace =
        [(sampleParams.reg_base + DWMMC_STATUS, 4),
         (sampleParams.reg_base + DWMMC_RINTSTS, 0x800),
         (sampleParams.reg_base + DWMMC_RINTSTS, 4)] ∧
      (dw_send_cmd sampleDefs false sampleParams hwFrun cmdGoIdle
        (State.start zeroDesc)).value.map Prod.fst = some 0) ∧
    ((∀ i ∈ [15, 13, 12, 11, 9, 8, 7, 6], Nat.testBit 2 i = false) ∧
      reads (dw_send_cmd sampleDefs false sampleParams hwRe cmdGoIdle
        (State.start zeroDesc)).state.trace =
        [(sampleParams.reg_base + DWMMC_STATUS, 4),
         (sampleParams.reg_base + DWMMC_RINTSTS, 2)] ∧
      (dw_send_cmd sampleDefs false sampleParams hwRe cmdGoIdle
        (State.start zeroDesc)).value.map Prod.fst = some (- EIO)) := by
  refine ⟨⟨by decide, by decide, by decide⟩, ⟨by decide, by decide, by decide⟩⟩

/-- C3, amended: a completion poll of `dw_send_cmd` returns `-EIO` on that poll
(after exactly one more read of RINTSTS) exactly when the word read has at
least one of the bits 15 (end-bit error), 13 (start-bit error), 12
(hardware-lock error), 9 (data timeout), 8 (response timeout), 7 (data CRC), 6
(response CRC), 1 (response error) set. -/
theorem dw_send_cmd_hw_error (hw : Nat → Nat) (base t pending : Nat) (s : State) :
    (∃ s1, dw_send_cmd_poll hw base (t + 1) pending s = .ok (some (- EIO)) s1 ∧
        s1.nread = s.nread + 1) ↔
      (Nat.testBit (hw s.nread % 2 ^ 32) 15 = true ∨ Nat.testBit (hw s.nread % 2 ^ 32) 13 = true ∨
        Nat.testBit (hw s.nread % 2 ^ 32) 12 = true ∨ Nat.testBit (hw s.nread % 2 ^ 32) 9 = true ∨
        Nat.testBit (hw s.nread % 2 ^ 32) 8 = true ∨ Nat.testBit (hw s.nread % 2 ^ 32) 7 = true ∨
        Nat.testBit (hw s.nread % 2 ^ 32) 6 = true ∨ Nat.testBit (hw s.nread % 2 ^ 32) 1 = true) := by
  rw [← and_err_mask_ne_zero, dw_send_cmd_poll_succ]
  by_cases he : hw s.nread % 2 ^ 32 &&& err_mask ≠ 0
  · have hstep : dw_send_cmd_poll_step (hw (s.log [.udelay 500]).nread % 2 ^ 32) pending = none := by
      simp only [State.log, dw_send_cmd_poll_step, if_pos he]
    rw [hstep]
    exact ⟨fun _ => he, fun _ => ⟨_, rfl, by simp [State.afterRead, State.log]⟩⟩
  · refine ⟨?_, fun h => absurd h he⟩
    rintro ⟨s1, hrun, hn⟩
    exfalso
    cases hstep : dw_send_cmd_poll_step (hw (s.log [.udelay 500]).nread % 2 ^ 32) pending with
    | none =>
      simp only [State.log, dw_send_cmd_poll_step, if_neg he] at hstep
      cases hstep
    | some pending2 =>
      rw [hstep] at hrun
      simp only at hrun
      by_cases h0 : t = 0
      · rw [if_pos h0] at hrun; cases hrun
      · rw [if_neg h0] at hrun
        by_cases hp : pending2 ≠ 0
        · rw [if_pos hp] at hrun
          obtain ⟨t1, rfl⟩ : ∃ t1, t = t1 + 1 := ⟨t - 1, by omega⟩
          have hle := dw_send_cmd_poll_nread_succ hw base t1 pending2
            ((s.log [.udelay 500]).afterRead hw (base + DWMMC_RINTSTS))
          rw [hrun] at hle
          simp only [Result.state, State.afterRead, State.log] at hle
          omega
        · rw [if_neg hp] at hrun; cases hrun

/-! ## The descriptor chain of `init_dma` -/

theorem toInt32_of_range (x : Int) (h1 : -2 ^ 31 ≤ x) (h2 : x < 2 ^ 31) : toInt32 x = x := by
  unfold toInt32; omega

theorem toU64_natCast (n : Nat) (h2 : n < 2 ^ 64) : toU64 (n : Int) = n := by
  unfold toU64; omega

theorem store_run (idx : Int) (f : Field) (v : Nat) (s : State) :
    store idx f v s = .ok () (s.stored idx f v) := rfl

theorem load_run (idx : Int) (f : Field) (s : State) :
    load idx f s = .ok ((s.desc idx).get f) s := rfl

theorem stored_desc_same (s : State) (idx : Int) (f : Field) (v : Nat) :
    (s.stored idx f v).desc idx = (s.desc idx).set f v := by
  simp [State.stored]

theorem stored_desc_other (s : State) (idx j : Int) (f : Field) (v : Nat) (h : j ≠ idx) :
    (s.stored idx f v).desc j = s.desc j := by
  simp [State.stored, h]

theorem stored_nread (s : State) (idx : Int) (f : Field) (v : Nat) :
    (s.stored idx f v).nread = s.nread := rfl

/-- One iteration of the loop of `init_dma`: four stores to `desc[i]`. -/
theorem init_dma_loop_succ (p : dw_mmc_params_t) (buf : Nat) (k : Nat) (i : Int) (s : State) :
    init_dma_loop p buf (k + 1) i s =
      init_dma_loop p buf k (toInt32 (i + 1))
        ((((s.stored i .des0 (IDMAC_DES0_OWN ||| IDMAC_DES0_CH ||| IDMAC_DES0_DIC)).stored
          i .des1 (IDMAC_DES1_BS1 DWMMC_DMA_MAX_BUFFER_SIZE)).stored
          i .des2
            ((buf + toU64 (toInt32 (DWMMC_DMA_MAX_BUFFER_SIZE * i))) % 2 ^ 64 % 2 ^ 32)).stored
          i .des3
            ((p.desc_base + SIZEOF_DESC * toU64 (toInt32 (i + 1)) % 2 ^ 64) % 2 ^ 64
              % 2 ^ 32)) := rfl

/-- The loop of `init_dma` fills `desc[i..i+k)` and touches nothing else. -/
theorem init_dma_loop_run (p : dw_mmc_params_t) (buf : Nat) :
    ∀ (k : Nat) (i : Int) (s : State), 0 ≤ i → i + k < 2 ^ 31 →
      ∃ s1, init_dma_loop p buf k i s = .ok () s1 ∧ s1.nread = s.nread ∧
        (∀ j, i ≤ j → j < i + k → s1.desc j =
          ⟨IDMAC_DES0_OWN ||| IDMAC_DES0_CH ||| IDMAC_DES0_DIC,
           IDMAC_DES1_BS1 DWMMC_DMA_MAX_BUFFER_SIZE,
           (buf + toU64 (toInt32 (DWMMC_DMA_MAX_BUFFER_SIZE * j))) % 2 ^ 64 % 2 ^ 32,
           (p.desc_base + SIZEOF_DESC * toU64 (toInt32 (j + 1)) % 2 ^ 64) % 2 ^ 64
             % 2 ^ 32⟩) ∧
        (∀ j, (j < i ∨ i + k ≤ j) → s1.desc j = s.desc j) := by
  intro k
  induction k with
  | zero =>
    intro i s _ _
    refine ⟨s, rfl, rfl, ?_, fun _ _ => rfl⟩
    intro j h1 h2
    simp at h2
    omega
  | succ k ih =>
    intro i s hi hk
    have hi1 : toInt32 (i + 1) = i + 1 :=
      toInt32_of_range (i + 1) (by omega) (by push_cast at hk; omega)
    rw [init_dma_loop_succ]
    obtain ⟨s1, hrun, hn, hin, hout⟩ := ih (toInt32 (i + 1))
      ((((s.stored i .des0 (IDMAC_DES0_OWN ||| IDMAC_DES0_CH ||| IDMAC_DES0_DIC)).stored
          i .des1 (IDMAC_DES1_BS1 DWMMC_DMA_MAX_BUFFER_SIZE)).stored
          i .des2
            ((buf + toU64 (toInt32 (DWMMC_DMA_MAX_BUFFER_SIZE * i))) % 2 ^ 64 % 2 ^ 32)).stored
          i .des3
            ((p.desc_base + SIZEOF_DESC * toU64 (toInt32 (i + 1)) % 2 ^ 64) % 2 ^ 64
              % 2 ^ 32))
      (by omega) (by push_cast at hk ⊢; omega)
    refine ⟨s1, hrun, hn, ?_, ?_⟩
    · intro j h1 h2
      by_cases hj : j = i
      · subst hj
        rw [hout j (Or.inl (by omega)), stored_desc_same, stored_desc_same, stored_desc_same,
          stored_desc_same]
        rfl
      · exact hin j (by omega) (by push_cast at h2 ⊢; omega)
    · intro j hj
      have hne : j ≠ i := by push_cast at hj; omega
      rw [hout j (by push_cast at hj ⊢; omega), stored_desc_other _ _ _ _ _ hne,
        stored_desc_other _ _ _ _ _ hne, stored_desc_other _ _ _ _ _ hne,
        stored_desc_other _ _ _ _ _ hne]

theorem toInt32_range (x : Int) : -2 ^ 31 ≤ toInt32 x ∧ toInt32 x < 2 ^ 31 := by
  unfold toInt32; omega

theorem emit_run (e : Event) (s : State) : emit e s = .ok () (s.log [e]) := rfl

theorem log_desc (s : State) (es : List Event) : (s.log es).desc = s.desc := rfl

theorem log_nread (s : State) (es : List Event) : (s.log es).nread = s.nread := rfl

/-- The part of `init_dma` after the loop always returns; it changes `desc[0]`
and `desc[last]` only. -/
theorem init_dma_finish_run (p : dw_mmc_params_t) (size : Nat) (n : Int) (s1 : State) :
    ∃ s6, init_dma_finish p size n s1 = .ok () s6 ∧ s6.nread = s1.nread ∧
      (∀ j, j ≠ 0 → j ≠ toInt32 (n - 1) → s6.desc j = s1.desc j) ∧
      (toInt32 (n - 1) ≠ 0 →
        s6.desc 0 = (s1.desc 0).set .des0 ((s1.desc 0).des0 ||| IDMAC_DES0_FS)) ∧
      s6.desc (toInt32 (n - 1)) =
        ⟨((if toInt32 (n - 1) = 0 then (s1.desc 0).des0 ||| IDMAC_DES0_FS
            else (s1.desc (toInt32 (n - 1))).des0) ||| IDMAC_DES0_LD) &&&
            not32 (IDMAC_DES0_DIC ||| IDMAC_DES0_CH),
          IDMAC_DES1_BS1 ((size + 2 ^ 64 -
            toU64 (toInt32 (toInt32 (n - 1) * DWMMC_DMA_MAX_BUFFER_SIZE))) % 2 ^ 64),
          (s1.desc (toInt32 (n - 1))).des2, 0⟩ := by
  simp only [init_dma_finish, bind_run, load_run, store_run, mmio_write_32, emit_run]
  refine ⟨_, rfl, ?_, ?_, ?_, ?_⟩
  · simp only [log_nread, stored_nread]
  · intro j h0 hl
    simp only [log_desc]
    rw [stored_desc_other _ _ _ _ _ hl, stored_desc_other _ _ _ _ _ hl,
      stored_desc_other _ _ _ _ _ hl, stored_desc_other _ _ _ _ _ hl,
      stored_desc_other _ _ _ _ _ h0]
  · intro hl
    simp only [log_desc]
    rw [stored_desc_other _ _ _ _ _ (Ne.symm hl), stored_desc_other _ _ _ _ _ (Ne.symm hl),
      stored_desc_other _ _ _ _ _ (Ne.symm hl), stored_desc_other _ _ _ _ _ (Ne.symm hl),
      stored_desc_same]
    rfl
  · simp only [log_desc]
    rw [stored_desc_same, stored_desc_same, stored_desc_same, stored_desc_same]
    by_cases hl : toInt32 (n - 1) = 0
    · rw [hl, stored_desc_same]
      simp [dw_idmac_desc.set, dw_idmac_desc.get]
    · rw [stored_desc_other _ _ _ _ _ hl]
      simp [dw_idmac_desc.set, dw_idmac_desc.get, hl]

/-- The function `init_dma` in the DMA build, as a run: the capacity check, then
the loop, then the rest. -/
theorem init_dma_eq (p : dw_mmc_params_t) (buf size : Nat) (s : State) :
    init_dma false p buf size s =
      if toU64 (init_dma_desc_cnt size) * SIZEOF_DESC % 2 ^ 64 < p.desc_size then
        (init_dma_loop p buf (init_dma_desc_cnt size).toNat 0 >>= fun _ =>
          init_dma_finish p size (init_dma_desc_cnt size)) s
      else .fatal .assertion s := by
  unfold init_dma
  generalize init_dma_desc_cnt size = n
  rw [if_neg (by decide), bind_run]
  by_cases h : toU64 n * SIZEOF_DESC % 2 ^ 64 < p.desc_size
  · rw [if_pos h]
    have hc : c_assert (decide (toU64 n * SIZEOF_DESC % 2 ^ 64 < p.desc_size)) s = .ok () s := by
      unfold c_assert
      rw [if_pos (decide_eq_true h)]
      rfl
    rw [hc]
  · rw [if_neg h]
    have hc : c_assert (decide (toU64 n * SIZEOF_DESC % 2 ^ 64 < p.desc_size)) s =
        .fatal .assertion s := by
      unfold c_assert
      rw [if_neg (by simpa using h)]
      rfl
    rw [hc]

/-- The loop of `init_dma` for `n >= 1` descriptors followed by the rest of the
function: the run returns, and the descriptor memory it leaves is as follows. -/
theorem init_dma_body_run (p : dw_mmc_params_t) (buf size : Nat) (s : State) (n : Int)
    (hn : 1 ≤ n) (hr : n < 2 ^ 31) :
    ∃ s1, (init_dma_loop p buf n.toNat 0 >>= fun _ => init_dma_finish p size n) s = .ok () s1 ∧
      (n = 1 →
        (s1.desc 0).des0 = IDMAC_DES0_OWN ||| IDMAC_DES0_FS ||| IDMAC_DES0_LD) ∧
      (1 < n →
        (s1.desc 0).des0 =
          IDMAC_DES0_OWN ||| IDMAC_DES0_CH ||| IDMAC_DES0_DIC ||| IDMAC_DES0_FS) ∧
      (1 < n →
        (s1.desc (n - 1)).des0 = IDMAC_DES0_OWN ||| IDMAC_DES0_LD) ∧
      (∀ j, 0 < j → j < n - 1 →
        (s1.desc j).des0 = IDMAC_DES0_OWN ||| IDMAC_DES0_CH ||| IDMAC_DES0_DIC) ∧
      (∀ j, 0 ≤ j → j < n - 1 →
        (s1.desc j).des1 = IDMAC_DES1_BS1 DWMMC_DMA_MAX_BUFFER_SIZE ∧
        (s1.desc j).des3 =
          (p.desc_base + SIZEOF_DESC * toU64 (toInt32 (j + 1)) % 2 ^ 64) % 2 ^ 64 % 2 ^ 32) ∧
      ((s1.desc (n - 1)).des1 =
          IDMAC_DES1_BS1 ((size + 2 ^ 64 -
            toU64 (toInt32 ((n - 1) * DWMMC_DMA_MAX_BUFFER_SIZE))) % 2 ^ 64) ∧
        (s1.desc (n - 1)).des3 = 0) ∧
      (∀ j, 0 ≤ j → j < n →
        (s1.desc j).des2 =
          (buf + toU64 (toInt32 (DWMMC_DMA_MAX_BUFFER_SIZE * j))) % 2 ^ 64 % 2 ^ 32) ∧
      (∀ j, (j < 0 ∨ n ≤ j) → s1.desc j = s.desc j) := by
  obtain ⟨k, hk⟩ : ∃ k : Nat, (k : Int) = n := ⟨n.toNat, by omega⟩
  obtain ⟨s1, hrun, -, hin, hout⟩ := init_dma_loop_run p buf k 0 s (le_refl _) (by omega)
  have hlast : toInt32 (n - 1) = n - 1 := toInt32_of_range _ (by omega) (by omega)
  have hkn : n.toNat = k := by omega
  obtain ⟨s6, hfin, -, hoth, hzero, hl⟩ := init_dma_finish_run p size n s1
  rw [hlast] at hoth hzero hl
  rw [bind_run, hkn, hrun]
  refine ⟨s6, hfin, ?_, ?_, ?_, ?_, ?_, ?_, ?_, ?_⟩
  · intro h1
    have h0 : n - 1 = 0 := by omega
    rw [h0] at hl
    rw [hl, hin 0 (le_refl _) (by omega), if_pos rfl]
    show (IDMAC_DES0_OWN ||| IDMAC_DES0_CH ||| IDMAC_DES0_DIC ||| IDMAC_DES0_FS |||
      IDMAC_DES0_LD) &&& not32 (IDMAC_DES0_DIC ||| IDMAC_DES0_CH) = _
    decide
  · intro h1
    rw [hzero (by omega), hin 0 (le_refl _) (by omega)]
    rfl
  · intro h1
    rw [hl, if_neg (by omega), hin (n - 1) (by omega) (by omega)]
    show (IDMAC_DES0_OWN ||| IDMAC_DES0_CH ||| IDMAC_DES0_DIC ||| IDMAC_DES0_LD) &&&
      not32 (IDMAC_DES0_DIC ||| IDMAC_DES0_CH) = _
    decide
  · intro j h0 h1
    rw [hoth j (by omega) (by omega), hin j (by omega) (by omega)]
  · intro j h0 h1
    by_cases hj : j = 0
    · subst hj
      rw [hzero (by omega), hin 0 (le_refl _) (by omega)]
      exact ⟨rfl, rfl⟩
    · rw [hoth j hj (by omega), hin j (by omega) (by omega)]
      exact ⟨rfl, rfl⟩
  · rw [hl]
    exact ⟨rfl, rfl⟩
  · intro j h0 h1
    by_cases hjl : j = n - 1
    · subst hjl
      rw [hl, hin (n - 1) (by omega) (by omega)]
    · by_cases hj : j = 0
      · subst hj
        rw [hzero (fun e => hjl e.symm), hin 0 (le_refl _) (by omega)]
        rfl
      · rw [hoth j hj hjl, hin j (by omega) (by omega)]
  · intro j hj
    rw [hoth j (by omega) (by omega), hout j (by omega)]

/-- The run of `init_dma` in the DMA build when the capacity check passes and
`desc_cnt` is at least 1: it returns, and the descriptor memory it leaves is as
follows. -/
theorem init_dma_run (p : dw_mmc_params_t) (buf size : Nat) (s : State)
    (hn : 1 ≤ init_dma_desc_cnt size)
    (ha : toU64 (init_dma_desc_cnt size) * SIZEOF_DESC % 2 ^ 64 < p.desc_size) :
    ∃ s1, init_dma false p buf size s = .ok () s1 ∧
      (init_dma_desc_cnt size = 1 →
        (s1.desc 0).des0 = IDMAC_DES0_OWN ||| IDMAC_DES0_FS ||| IDMAC_DES0_LD) ∧
      (1 < init_dma_desc_cnt size →
        (s1.desc 0).des0 =
          IDMAC_DES0_OWN ||| IDMAC_DES0_CH ||| IDMAC_DES0_DIC ||| IDMAC_DES0_FS) ∧
      (1 < init_dma_desc_cnt size →
        (s1.desc (init_dma_desc_cnt size - 1)).des0 = IDMAC_DES0_OWN ||| IDMAC_DES0_LD) ∧
      (∀ j, 0 < j → j < init_dma_desc_cnt size - 1 →
        (s1.desc j).des0 = IDMAC_DES0_OWN ||| IDMAC_DES0_CH ||| IDMAC_DES0_DIC) ∧
      (∀ j, 0 ≤ j → j < init_dma_desc_cnt size - 1 →
        (s1.desc j).des1 = IDMAC_DES1_BS1 DWMMC_DMA_MAX_BUFFER_SIZE ∧
        (s1.desc j).des3 =
          (p.desc_base + SIZEOF_DESC * toU64 (toInt32 (j + 1)) % 2 ^ 64) % 2 ^ 64 % 2 ^ 32) ∧
      ((s1.desc (init_dma_desc_cnt size - 1)).des1 =
          IDMAC_DES1_BS1 ((size + 2 ^ 64 -
            toU64 (toInt32 ((init_dma_desc_cnt size - 1) * DWMMC_DMA_MAX_BUFFER_SIZE))) % 2 ^ 64) ∧
        (s1.desc (init_dma_desc_cnt size - 1)).des3 = 0) ∧
      (∀ j, 0 ≤ j → j < init_dma_desc_cnt size →
        (s1.desc j).des2 =
          (buf + toU64 (toInt32 (DWMMC_DMA_MAX_BUFFER_SIZE * j))) % 2 ^ 64 % 2 ^ 32) ∧
      (∀ j, (j < 0 ∨ init_dma_desc_cnt size ≤ j) → s1.desc j = s.desc j) := by
  rw [init_dma_eq, if_pos ha]
  exact init_dma_body_run p buf size s (init_dma_desc_cnt size) hn (toInt32_range _).2

/-- A failed capacity check stops `init_dma` before it writes anything. -/
theorem init_dma_fail (p : dw_mmc_params_t) (buf size : Nat) (s : State)
    (ha : ¬ toU64 (init_dma_desc_cnt size) * SIZEOF_DESC % 2 ^ 64 < p.desc_size) :
    init_dma false p buf size s = .fatal .assertion s := by
  rw [init_dma_eq, if_neg ha]

/-- The loop of `init_dma` followed by the rest of the function returns. -/
theorem init_dma_body_ok (p : dw_mmc_params_t) (buf size : Nat) (s : State) (n : Int)
    (hr : n < 2 ^ 31) :
    ∃ s1, (init_dma_loop p buf n.toNat 0 >>= fun _ => init_dma_finish p size n) s =
      .ok () s1 := by
  generalize hkn : n.toNat = k
  have hk : (0 : Int) + k < 2 ^ 31 := by omega
  obtain ⟨s1, hrun, -⟩ := init_dma_loop_run p buf k 0 s (le_refl _) hk
  obtain ⟨s6, hfin, -⟩ := init_dma_finish_run p size n s1
  rw [bind_run, hrun]
  exact ⟨s6, hfin⟩

/-- A passed capacity check lets `init_dma` run to its end. -/
theorem init_dma_ok (p : dw_mmc_params_t) (buf size : Nat) (s : State)
    (ha : toU64 (init_dma_desc_cnt size) * SIZEOF_DESC % 2 ^ 64 < p.desc_size) :
    ∃ s1, init_dma false p buf size s = .ok () s1 := by
  rw [init_dma_eq, if_pos ha]
  exact init_dma_body_ok p buf size s (init_dma_desc_cnt size) (toInt32_range _).2

/-- The quotient `(S + 4095) / 4096` is the ceiling of `S / 4096`. -/
theorem ceil_div_chunk (S : Nat) : ⌈(S : ℚ) / 4096⌉₊ = (S + 4095) / 4096 := by
  apply le_antisymm
  · rw [Nat.ceil_le, div_le_iff₀ (by norm_num)]
    have h : S ≤ (S + 4095) / 4096 * 4096 := by omega
    exact_mod_cast h
  · by_contra hlt
    push_neg at hlt
    have h1 : ⌈(S : ℚ) / 4096⌉₊ + 1 ≤ (S + 4095) / 4096 := hlt
    have h2 : (S : ℚ) / 4096 ≤ (⌈(S : ℚ) / 4096⌉₊ : ℚ) := Nat.le_ceil _
    rw [div_le_iff₀ (by norm_num)] at h2
    have h3 : S ≤ ⌈(S : ℚ) / 4096⌉₊ * 4096 := by exact_mod_cast h2
    omega

/-! ## Claims about the descriptor chain -/

/-- For sizes up to `2^31` no conversion in the computation of `desc_cnt` wraps. -/
theorem init_dma_desc_cnt_small (size : Nat) (hsz : size ≤ 2 ^ 31) :
    init_dma_desc_cnt size = (((size + 4095) / 4096 : Nat) : Int) := by
  unfold init_dma_desc_cnt DWMMC_DMA_MAX_BUFFER_SIZE
  have h1 : (size + 512 * 8 - 1) % 2 ^ 64 = size + 4095 := by omega
  rw [h1]
  apply toInt32_of_range <;> omega

theorem conv_small (x : Int) (n : Nat) (h : x = n) (hn : n < 2 ^ 31) :
    toU64 (toInt32 x) = n := by
  rw [toInt32_of_range x (by omega) (by omega), h]
  exact toU64_natCast n (by omega)

/-- The descriptors `init_dma` leaves for a size between 1 and `2^31`, with
`m = (size + 4095) / 4096`: all conversions are exact. -/
theorem init_dma_small_run (p : dw_mmc_params_t) (buf size : Nat) (s s1 : State)
    (hpos : 1 ≤ size) (hsz : size ≤ 2 ^ 31)
    (hok : init_dma false p buf size s = .ok () s1) :
    (∀ i : Nat, i + 1 < (size + 4095) / 4096 →
      (s1.desc i).des1 = 4096 ∧
      (s1.desc i).des3 = (p.desc_base + 16 * (i + 1)) % 2 ^ 32) ∧
    ((s1.desc (((size + 4095) / 4096 - 1 : Nat) : Int)).des1 =
        size - ((size + 4095) / 4096 - 1) * 4096 ∧
      (s1.desc (((size + 4095) / 4096 - 1 : Nat) : Int)).des3 = 0) ∧
    (∀ i : Nat, i < (size + 4095) / 4096 →
      (s1.desc i).des2 = (buf + i * 4096) % 2 ^ 32 ∧
      (s1.desc i).des0 &&& IDMAC_DES0_OWN = IDMAC_DES0_OWN) := by
  have hcnt := init_dma_desc_cnt_small size hsz
  generalize hm : (size + 4095) / 4096 = m at hcnt ⊢
  have hm1 : 1 ≤ m := by omega
  have hm2 : m ≤ 2 ^ 19 := by omega
  by_cases ha : toU64 (init_dma_desc_cnt size) * SIZEOF_DESC % 2 ^ 64 < p.desc_size
  swap
  · rw [init_dma_fail p buf size s ha] at hok; cases hok
  obtain ⟨s2, hrun, f1, f2, f3, f4, f5, f6, f7, -⟩ :=
    init_dma_run p buf size s (by rw [hcnt]; omega) ha
  rw [hok] at hrun
  cases hrun
  rw [hcnt] at f1 f2 f3 f4 f5 f6 f7
  have hlastidx : ((m - 1 : Nat) : Int) = (m : Int) - 1 := by omega
  refine ⟨?_, ?_, ?_⟩
  · intro i hi
    obtain ⟨g1, g3⟩ := f5 (i : Int) (by omega) (by omega)
    refine ⟨by rw [g1]; decide, ?_⟩
    rw [g3, conv_small ((i : Int) + 1) (i + 1) (by push_cast; rfl) (by omega)]
    simp only [SIZEOF_DESC]
    omega
  · rw [hlastidx]
    refine ⟨?_, f6.2⟩
    rw [f6.1, conv_small (((m : Int) - 1) * DWMMC_DMA_MAX_BUFFER_SIZE) ((m - 1) * 4096)
      (by simp only [DWMMC_DMA_MAX_BUFFER_SIZE]; push_cast; omega)
      (by omega)]
    have hv : (size + 2 ^ 64 - (m - 1) * 4096) % 2 ^ 64 = size - (m - 1) * 4096 := by omega
    rw [hv]
    have hlt : size - (m - 1) * 4096 < 2 ^ 13 := by omega
    exact Nat.and_pow_two_sub_one_of_lt_two_pow hlt
  · intro i hi
    constructor
    · rw [f7 (i : Int) (by omega) (by omega),
        conv_small (DWMMC_DMA_MAX_BUFFER_SIZE * (i : Int)) (i * 4096)
          (by simp only [DWMMC_DMA_MAX_BUFFER_SIZE]; push_cast; omega) (by omega)]
      omega
    · by_cases h1 : m = 1
      · have hi0 : i = 0 := by omega
        subst hi0
        have := f1 (by omega)
        rw [show ((0 : Nat) : Int) = 0 from rfl, this]
        decide
      · by_cases hi0 : i = 0
        · subst hi0
          have := f2 (by omega)
          rw [show ((0 : Nat) : Int) = 0 from rfl, this]
          decide
        · by_cases hil : i = m - 1
          · have := f3 (by omega)
            rw [show (i : Int) = (m : Int) - 1 by omega, this]
            decide
          · rw [f4 (i : Int) (by omega) (by omega)]
            decide
/-- Sum of a function that is constant on the range. -/
theorem sum_map_range_const (f : Nat → Nat) (c : Nat) :
    ∀ m : Nat, (∀ i, i < m → f i = c) → ((List.range m).map f).sum = m * c := by
  intro m
  induction m with
  | zero => intro _; simp
  | succ m ih =>
    intro h
    rw [List.range_succ, List.map_append, List.sum_append, ih (fun i hi => h i (by omega)),
      List.map_singleton, List.sum_singleton, h m (by omega)]
    ring

set_option maxRecDepth 100000 in
/-- C4 as stated fails for sizes whose byte count wraps: size `2^64 - 512` (a
multiple of the block size) passes the capacity check of a 512-byte ring with
`desc_cnt = 0`, no descriptor is filled by the loop, and `ceil(S/4096)` is
`2^52`. -/
theorem init_dma_chain_counterexample :
    (init_dma false sampleParams 0x80000 (2 ^ 64 - 512) (State.start zeroDesc)).value =
      some () ∧
    init_dma_desc_cnt (2 ^ 64 - 512) = 0 ∧
    ⌈((2 ^ 64 - 512 : Nat) : ℚ) / 4096⌉₊ = 2 ^ 52 ∧
    (init_dma false sampleParams 0x80000 (2 ^ 64 - 512) (State.start zeroDesc)).state.trace =
      [.st 0 .des0 8, .st (-1) .des0 4, .st (-1) .des0 4, .st (-1) .des1 3584,
       .st (-1) .des3 0, .wr (sampleParams.reg_base + DWMMC_DBADDR) 0x2000,
       .clean 0x2000 0] := by
  refine ⟨by decide, by decide, ?_, by decide⟩
  rw [ceil_div_chunk]
  decide


/-- A run that returns is the run to its final state. -/
theorem Result.eq_ok_of_value {α : Type} (r : Result α) (a : α) (h : r.value = some a) :
    r = .ok a r.state := by
  cases r with
  | ok b s => simp only [Result.value, Option.some.injEq] at h; subst h; rfl
  | fatal f s => cases h

/-- C4, amended: for every transfer size `S <= 2^31 - 4096` that `init_dma` accepts,
`desc_cnt` is `ceil(S/4096)` and the buffer-length fields (des1, low 13 bits) of
the descriptors `desc[0..desc_cnt)` sum exactly to `S`. -/
theorem init_dma_chain_length_sum (p : dw_mmc_params_t) (buf size : Nat) (s s1 : State)
    (hsz : size ≤ 2 ^ 31 - 4096) (hok : init_dma false p buf size s = .ok () s1) :
    init_dma_desc_cnt size = (⌈(size : ℚ) / 4096⌉₊ : Int) ∧
    ((List.range ⌈(size : ℚ) / 4096⌉₊).map
      (fun i : Nat => (s1.desc (i : Int)).des1 &&& 0x1fff)).sum = size := by
  rw [ceil_div_chunk]
  refine ⟨init_dma_desc_cnt_small size (by omega), ?_⟩
  by_cases h0 : size = 0
  · subst h0; rfl
  obtain ⟨hmid, hlast, -⟩ := init_dma_small_run p buf size s s1 (by omega) (by omega) hok
  generalize hm : (size + 4095) / 4096 = m at hmid hlast ⊢
  obtain ⟨k, rfl⟩ : ∃ k, m = k + 1 := ⟨m - 1, by omega⟩
  rw [List.range_succ, List.map_append, List.sum_append,
    sum_map_range_const _ 4096 k (fun i hi => by
      show (s1.desc (i : Int)).des1 &&& 0x1fff = 4096
      rw [(hmid i (by omega)).1]; decide)]
  simp only [List.map_singleton, List.sum_singleton]
  have hl : (s1.desc (k : Int)).des1 = size - k * 4096 := by
    have := hlast.1
    simpa using this
  rw [hl]
  have hlt : size - k * 4096 < 2 ^ 13 := by omega
  rw [show (0x1fff : Nat) = 2 ^ 13 - 1 from rfl, Nat.and_pow_two_sub_one_of_lt_two_pow hlt]
  omega

set_option maxRecDepth 100000 in
/-- C4, amended, at a concrete run: 10000 bytes give three descriptors of 4096,
4096 and 1808 bytes. -/
theorem init_dma_chain_length_sum_witness :
    init_dma_desc_cnt 10000 = (⌈((10000 : Nat) : ℚ) / 4096⌉₊ : Int) ∧
    ((List.range ⌈((10000 : Nat) : ℚ) / 4096⌉₊).map
      (fun i : Nat =>
        ((init_dma false sampleParams 0x80000 10000 (State.start zeroDesc)).state.desc
          (i : Int)).des1 &&& 0x1fff)).sum = 10000 :=
  init_dma_chain_length_sum sampleParams 0x80000 10000 (State.start zeroDesc) _ (by decide)
    (Result.eq_ok_of_value _ () (by decide))

/-- C5: in every chain of `n >= 1` descriptors written by `init_dma`, the
first-segment flag FS is on descriptor 0 only, the last-descriptor flag LD on
descriptor `n-1` only, the last descriptor has CH and DIC clear and `des3 = 0`,
every other descriptor has CH and DIC set, and when `n = 1` the single
descriptor has `des0 = OWN|FS|LD`. -/
theorem init_dma_chain_marks (p : dw_mmc_params_t) (buf size : Nat) (s s1 : State)
    (hok : init_dma false p buf size s = .ok () s1) (hn : 1 ≤ init_dma_desc_cnt size) :
    (∀ i : Int, 0 ≤ i → i < init_dma_desc_cnt size →
      ((s1.desc i).des0 &&& IDMAC_DES0_FS ≠ 0 ↔ i = 0) ∧
      ((s1.desc i).des0 &&& IDMAC_DES0_LD ≠ 0 ↔ i = init_dma_desc_cnt size - 1) ∧
      (i ≠ init_dma_desc_cnt size - 1 →
        (s1.desc i).des0 &&& IDMAC_DES0_CH = IDMAC_DES0_CH ∧
        (s1.desc i).des0 &&& IDMAC_DES0_DIC = IDMAC_DES0_DIC)) ∧
    ((s1.desc (init_dma_desc_cnt size - 1)).des0 &&& IDMAC_DES0_CH = 0 ∧
      (s1.desc (init_dma_desc_cnt size - 1)).des0 &&& IDMAC_DES0_DIC = 0 ∧
      (s1.desc (init_dma_desc_cnt size - 1)).des3 = 0) ∧
    (init_dma_desc_cnt size = 1 →
      (s1.desc 0).des0 = IDMAC_DES0_OWN ||| IDMAC_DES0_FS ||| IDMAC_DES0_LD) := by
  by_cases ha : toU64 (init_dma_desc_cnt size) * SIZEOF_DESC % 2 ^ 64 < p.desc_size
  swap
  · rw [init_dma_fail p buf size s ha] at hok; cases hok
  obtain ⟨s2, hrun, f1, f2, f3, f4, -, f6, -, -⟩ := init_dma_run p buf size s hn ha
  rw [hok] at hrun
  cases hrun
  generalize init_dma_desc_cnt size = n at hn f1 f2 f3 f4 f6 ⊢
  refine ⟨?_, ?_, f1⟩
  · intro i hi0 hin
    by_cases h1 : n = 1
    · have hi : i = 0 := by omega
      subst hi
      rw [f1 h1]
      refine ⟨⟨fun _ => rfl, fun _ => by decide⟩, ⟨fun _ => by omega, fun _ => by decide⟩,
        fun h => absurd (by omega) h⟩
    · by_cases hi : i = 0
      · subst hi
        rw [f2 (by omega)]
        refine ⟨⟨fun _ => rfl, fun _ => by decide⟩,
          ⟨fun h => absurd h (by decide), fun h => by omega⟩, fun _ => ⟨by decide, by decide⟩⟩
      · by_cases hl : i = n - 1
        · subst hl
          rw [f3 (by omega)]
          refine ⟨⟨fun h => absurd h (by decide), fun h => absurd h hi⟩,
            ⟨fun _ => rfl, fun _ => by decide⟩, fun h => absurd rfl h⟩
        · rw [f4 i (by omega) (by omega)]
          refine ⟨⟨fun h => absurd h (by decide), fun h => absurd h hi⟩,
            ⟨fun h => absurd h (by decide), fun h => absurd h hl⟩,
            fun _ => ⟨by decide, by decide⟩⟩
  · refine ⟨?_, ?_, f6.2⟩
    · by_cases h1 : n = 1
      · rw [show n - 1 = 0 by omega, f1 h1]; decide
      · rw [f3 (by omega)]; decide
    · by_cases h1 : n = 1
      · rw [show n - 1 = 0 by omega, f1 h1]; decide
      · rw [f3 (by omega)]; decide

set_option maxRecDepth 100000 in
/-- C5, at a concrete run: size 1024 gives a single descriptor with
`des0 = OWN|FS|LD`. -/
theorem init_dma_chain_marks_witness :
    init_dma_desc_cnt 1024 = 1 ∧
    ((init_dma false sampleParams 0x80000 1024 (State.start zeroDesc)).state.desc 0).des0 =
      IDMAC_DES0_OWN ||| IDMAC_DES0_FS ||| IDMAC_DES0_LD :=
  ⟨by decide,
   (init_dma_chain_marks sampleParams 0x80000 1024 (State.start zeroDesc) _
      (Result.eq_ok_of_value _ () (by decide)) (by decide)).2.2 (by decide)⟩

set_option maxRecDepth 100000 in
/-- C6 as stated fails for a buffer at or above 4 GiB: with `buf = 2^32` and
size 512 the run succeeds with one descriptor whose buffer pointer `des2` is 0,
not `buf + 0*4096`; `des2` is an `unsigned int`. -/
theorem init_dma_chain_fields_counterexample :
    (init_dma false sampleParams (2 ^ 32) 512 (State.start zeroDesc)).value = some () ∧
    init_dma_desc_cnt 512 = 1 ∧
    ((init_dma false sampleParams (2 ^ 32) 512 (State.start zeroDesc)).state.desc 0).des2 =
      0 ∧
    (0 : Nat) ≠ 2 ^ 32 + 0 * 4096 := by
  refine ⟨by decide, by decide, by decide, by decide⟩

/-- C6, amended: for every chain of `n` descriptors written by `init_dma` for
buffer address `buf` and size `S <= 2^31 - 4096`, and every index `i < n`: OWN
is set;
`des2` is `buf + i*4096` truncated to 32 bits; the buffer length is 4096 when
`i < n-1` and `S - (n-1)*4096`, a value in 1..4096, when `i = n-1`; `des3` is
`desc_base + 16*(i+1)` truncated to 32 bits when `i < n-1` and 0 when
`i = n-1`. -/
theorem init_dma_chain_fields (p : dw_mmc_params_t) (buf size : Nat) (s s1 : State) (n : Nat)
    (hsz : size ≤ 2 ^ 31 - 4096) (hok : init_dma false p buf size s = .ok () s1)
    (hn : init_dma_desc_cnt size = (n : Int)) :
    ∀ i : Nat, i < n →
      (s1.desc i).des0 &&& IDMAC_DES0_OWN = IDMAC_DES0_OWN ∧
      (s1.desc i).des2 = (buf + i * 4096) % 2 ^ 32 ∧
      (i + 1 < n →
        (s1.desc i).des1 &&& 0x1fff = 4096 ∧
        (s1.desc i).des3 = (p.desc_base + 16 * (i + 1)) % 2 ^ 32) ∧
      (i + 1 = n →
        (s1.desc i).des1 &&& 0x1fff = size - (n - 1) * 4096 ∧
        1 ≤ size - (n - 1) * 4096 ∧ size - (n - 1) * 4096 ≤ 4096 ∧
        (s1.desc i).des3 = 0) := by
  intro i hi
  have hcnt := init_dma_desc_cnt_small size (by omega)
  have hnm : n = (size + 4095) / 4096 := by
    rw [hn] at hcnt
    exact_mod_cast hcnt
  have hpos : 1 ≤ size := by omega
  obtain ⟨hmid, hlast, hall⟩ := init_dma_small_run p buf size s s1 hpos (by omega) hok
  rw [← hnm] at hmid hlast hall
  refine ⟨(hall i hi).2, (hall i hi).1, ?_, ?_⟩
  · intro h
    rw [(hmid i h).1, (hmid i h).2]
    exact ⟨by decide, rfl⟩
  · intro h
    have hi1 : i = n - 1 := by omega
    subst hi1
    rw [hlast.1, hlast.2]
    have hlt : size - (n - 1) * 4096 < 2 ^ 13 := by omega
    rw [show (0x1fff : Nat) = 2 ^ 13 - 1 from rfl, Nat.and_pow_two_sub_one_of_lt_two_pow hlt]
    exact ⟨rfl, by omega, by omega, rfl⟩

set_option maxRecDepth 100000 in
/-- C6, amended, at a concrete run: 10000 bytes at 0x80000 give three
descriptors; descriptor 1 has buffer pointer 0x81000. -/
theorem init_dma_chain_fields_witness :
    ((init_dma false sampleParams 0x80000 10000 (State.start zeroDesc)).state.desc
      ((1 : Nat) : Int)).des2 = (0x80000 + 1 * 4096) % 2 ^ 32 :=
  (init_dma_chain_fields sampleParams 0x80000 10000 (State.start zeroDesc) _ 3 (by decide)
    (Result.eq_ok_of_value _ () (by decide)) (by decide) 1 (by decide)).2.1

set_option maxRecDepth 100000 in
/-- C7 as stated fails at the boundary: 131072 bytes need 32 descriptors, a
footprint of 512 bytes, which equals (does not exceed) the 512-byte ring, and
`init_dma` stops at the assertion having written nothing.  It also fails where
the byte count wraps: `2^64 - 512` bytes have a footprint far above 512 bytes
and `init_dma` returns. -/
theorem init_dma_capacity_counterexample :
    (⌈((131072 : Nat) : ℚ) / 4096⌉₊ * 16 = sampleParams.desc_size ∧
      (init_dma false sampleParams 0x80000 131072 (State.start zeroDesc)).stopped =
        some .assertion ∧
      (init_dma false sampleParams 0x80000 131072 (State.start zeroDesc)).state.trace = []) ∧
    (sampleParams.desc_size < ⌈((2 ^ 64 - 512 : Nat) : ℚ) / 4096⌉₊ * 16 ∧
      (init_dma false sampleParams 0x80000 (2 ^ 64 - 512) (State.start zeroDesc)).value =
        some ()) := by
  refine ⟨⟨?_, by decide, by decide⟩, ⟨?_, by decide⟩⟩
  · rw [ceil_div_chunk]; decide
  · rw [ceil_div_chunk]; decide

/-- C7, amended: for every size `S <= 2^31 - 4096`, `init_dma` fails fatally (at the
assertion, before any write) exactly when the descriptor footprint
`ceil(S/4096) * 16` is at least `desc_size`, and builds the chain exactly when
the footprint is below `desc_size`. -/
theorem init_dma_capacity (p : dw_mmc_params_t) (buf size : Nat) (s : State)
    (hsz : size ≤ 2 ^ 31 - 4096) :
    (init_dma false p buf size s = .fatal .assertion s ↔
      p.desc_size ≤ ⌈(size : ℚ) / 4096⌉₊ * 16) ∧
    ((∃ s1, init_dma false p buf size s = .ok () s1) ↔
      ⌈(size : ℚ) / 4096⌉₊ * 16 < p.desc_size) := by
  rw [ceil_div_chunk]
  have hcnt := init_dma_desc_cnt_small size (by omega)
  have hfoot : toU64 (init_dma_desc_cnt size) * SIZEOF_DESC % 2 ^ 64 =
      (size + 4095) / 4096 * 16 := by
    rw [hcnt, toU64_natCast _ (by omega)]
    simp only [SIZEOF_DESC]
    omega
  by_cases ha : toU64 (init_dma_desc_cnt size) * SIZEOF_DESC % 2 ^ 64 < p.desc_size
  · obtain ⟨s1, hrun⟩ := init_dma_ok p buf size s ha
    rw [hfoot] at ha
    constructor
    · constructor
      · intro h; rw [hrun] at h; cases h
      · intro h; omega
    · exact ⟨fun _ => ha, fun _ => ⟨s1, hrun⟩⟩
  · have hrun := init_dma_fail p buf size s ha
    rw [hfoot] at ha
    constructor
    · exact ⟨fun _ => by omega, fun _ => hrun⟩
    · constructor
      · rintro ⟨s1, h⟩; rw [hrun] at h; cases h
      · intro h; omega

/-- C7, amended, at a concrete size: 1024 bytes against a 512-byte ring. -/
theorem init_dma_capacity_witness :
    (init_dma false sampleParams 0x80000 1024 (State.start zeroDesc) =
        .fatal .assertion (State.start zeroDesc) ↔
      sampleParams.desc_size ≤ ⌈((1024 : Nat) : ℚ) / 4096⌉₊ * 16) :=
  (init_dma_capacity sampleParams 0x80000 1024 (State.start zeroDesc) (by decide)).1

/-! ## The clock controller -/

theorem traceInv_bind {α β : Type} (Q : Nat → Nat → Prop) (m : M α) (f : α → M β)
    (hm : ∀ s, TraceInv Q s → TraceInv Q (m s).state)
    (hf : ∀ a s, TraceInv Q s → TraceInv Q (f a s).state) :
    ∀ s, TraceInv Q s → TraceInv Q ((m >>= f) s).state := by
  intro s hs
  rw [bind_run]
  have := hm s hs
  cases hr : m s with
  | ok a s1 => rw [hr] at this; exact hf a s1 this
  | fatal e s1 => rw [hr] at this; exact this

theorem traceInv_pure {α : Type} (Q : Nat → Nat → Prop) (a : α) :
    ∀ s, TraceInv Q s → TraceInv Q ((pure a : M α) s).state := fun _ hs => hs

theorem traceInv_stop {α : Type} (Q : Nat → Nat → Prop) (e : Fatal) :
    ∀ s, TraceInv Q s → TraceInv Q ((stop e : M α) s).state := fun _ hs => hs

theorem traceInv_assert (Q : Nat → Nat → Prop) (c : Bool) :
    ∀ s, TraceInv Q s → TraceInv Q (c_assert c s).state := by
  intro s hs
  cases c <;> exact hs

theorem traceInv_read (Q : Nat → Nat → Prop) (hw : Nat → Nat) (addr : Nat) :
    ∀ s, TraceInv Q s → TraceInv Q (mmio_read_32 hw addr s).state := by
  intro s hs a v hmem
  simp only [mmio_read_32, Result.state, List.mem_append, List.mem_singleton] at hmem
  rcases hmem with h | h
  · exact hs a v h
  · cases h

theorem traceInv_write (Q : Nat → Nat → Prop) (addr val : Nat) (hq : Q addr val) :
    ∀ s, TraceInv Q s → TraceInv Q (mmio_write_32 addr val s).state := by
  intro s hs a v hmem
  simp only [mmio_write_32, emit, Result.state, List.mem_append, List.mem_singleton] at hmem
  rcases hmem with h | h
  · exact hs a v h
  · cases h; exact hq

/-- The handshake writes only the update-clock command to CMD and the
hardware-lock bit to RINTSTS. -/
theorem traceInv_update_clk_poll (Q : Nat → Nat → Prop) (hw : Nat → Nat) (base : Nat)
    (h1 : Q (base + DWMMC_RINTSTS) INT_HLE) (h2 : Q (base + DWMMC_CMD) UPDATE_CLK_CMD) :
    ∀ fuel s, TraceInv Q s → TraceInv Q (dw_update_clk_poll hw base fuel s).state := by
  intro fuel
  induction fuel with
  | zero => exact traceInv_stop Q _
  | succ n ih =>
    unfold dw_update_clk_poll
    apply traceInv_bind Q _ _ (traceInv_read Q hw _)
    intro data
    by_cases hd : data &&& CMD_START = 0
    · rw [if_pos hd]; exact traceInv_pure Q ()
    · rw [if_neg hd]
      apply traceInv_bind Q _ _ (traceInv_read Q hw _)
      intro data1
      by_cases hh : data1 &&& INT_HLE ≠ 0
      · rw [if_pos hh]
        apply traceInv_bind Q _ _ (traceInv_write Q _ _ h1)
        intro _
        apply traceInv_bind Q _ _ (traceInv_write Q _ _ h2)
        intro _
        exact ih
      · rw [if_neg hh]; exact ih

theorem traceInv_update_clk (Q : Nat → Nat → Prop) (p : dw_mmc_params_t) (hw : Nat → Nat)
    (fuel : Nat)
    (h1 : Q (p.reg_base + DWMMC_RINTSTS) INT_HLE)
    (h2 : Q (p.reg_base + DWMMC_CMD) UPDATE_CLK_CMD) :
    ∀ s, TraceInv Q s → TraceInv Q (dw_update_clk p hw fuel s).state := by
  unfold dw_update_clk
  apply traceInv_bind Q _ _ (traceInv_write Q _ _ h2)
  intro _
  exact traceInv_update_clk_poll Q hw _ h1 h2 fuel

theorem traceInv_set_clk_idle (Q : Nat → Nat → Prop) (hw : Nat → Nat) (base : Nat) :
    ∀ fuel s, TraceInv Q s → TraceInv Q (dw_set_clk_idle hw base fuel s).state := by
  intro fuel
  induction fuel with
  | zero => exact traceInv_stop Q _
  | succ n ih =>
    unfold dw_set_clk_idle
    apply traceInv_bind Q _ _ (traceInv_read Q hw _)
    intro data
    by_cases hd : data &&& STATUS_DATA_BUSY ≠ 0
    · rw [if_pos hd]; exact ih
    · rw [if_neg hd]; exact traceInv_pure Q ()

/-- The register writes of `dw_set_clk`: CLKENA, CLKDIV, CLKSRC and those of the
handshake. -/
theorem traceInv_set_clk (Q : Nat → Nat → Prop) (p : dw_mmc_params_t) (hw : Nat → Nat)
    (fuel : Nat) (clk : Int)
    (h1 : Q (p.reg_base + DWMMC_RINTSTS) INT_HLE)
    (h2 : Q (p.reg_base + DWMMC_CMD) UPDATE_CLK_CMD)
    (h3 : Q (p.reg_base + DWMMC_CLKENA) 0)
    (h4 : Q (p.reg_base + DWMMC_CLKDIV) (dw_set_clk_div p.clk_rate clk 255 1).toNat)
    (h5 : Q (p.reg_base + DWMMC_CLKENA) 1)
    (h6 : Q (p.reg_base + DWMMC_CLKSRC) 0) :
    ∀ s, TraceInv Q s → TraceInv Q (dw_set_clk p hw fuel clk s).state := by
  unfold dw_set_clk
  apply traceInv_bind Q _ _ (traceInv_assert Q _)
  intro _
  apply traceInv_bind Q _ _ (traceInv_assert Q _)
  intro _
  apply traceInv_bind Q _ _ (traceInv_set_clk_idle Q hw _ fuel)
  intro _
  apply traceInv_bind Q _ _ (traceInv_write Q _ _ h3)
  intro _
  apply traceInv_bind Q _ _ (traceInv_update_clk Q p hw fuel h1 h2)
  intro _
  apply traceInv_bind Q _ _ (traceInv_write Q _ _ h4)
  intro _
  apply traceInv_bind Q _ _ (traceInv_update_clk Q p hw fuel h1 h2)
  intro _
  apply traceInv_bind Q _ _ (traceInv_write Q _ _ h5)
  intro _
  apply traceInv_bind Q _ _ (traceInv_write Q _ _ h6)
  intro _
  exact traceInv_update_clk Q p hw fuel h1 h2

/-- The `for` loop of `dw_set_clk` stops at the first divisor, from `div` on,
that meets the target, or at `div + remaining` when there is none. -/
theorem dw_set_clk_div_spec (clk_rate clk : Int) :
    ∀ (k : Nat) (div : Int),
      (dw_set_clk_div clk_rate clk k div = div + k ∧
        ∀ d, div ≤ d → d < div + k → ¬ Int.tdiv clk_rate (2 * d) ≤ clk) ∨
      (div ≤ dw_set_clk_div clk_rate clk k div ∧
        dw_set_clk_div clk_rate clk k div < div + k ∧
        Int.tdiv clk_rate (2 * dw_set_clk_div clk_rate clk k div) ≤ clk ∧
        ∀ d, div ≤ d → d < dw_set_clk_div clk_rate clk k div →
          ¬ Int.tdiv clk_rate (2 * d) ≤ clk) := by
  intro k
  induction k with
  | zero =>
    intro div
    left
    refine ⟨by simp [dw_set_clk_div], ?_⟩
    intro d h1 h2
    simp at h2
    omega
  | succ k ih =>
    intro div
    unfold dw_set_clk_div
    by_cases hc : Int.tdiv clk_rate (2 * div) ≤ clk
    · rw [if_pos hc]
      right
      refine ⟨le_refl _, by push_cast; omega, hc, fun d h1 h2 => by omega⟩
    · rw [if_neg hc]
      rcases ih (div + 1) with ⟨he, hall⟩ | ⟨h1, h2, h3, h4⟩
      · left
        refine ⟨by rw [he]; push_cast; ring, ?_⟩
        intro d hd1 hd2
        by_cases hdd : d = div
        · subst hdd; exact hc
        · exact hall d (by omega) (by push_cast at hd2; omega)
      · right
        refine ⟨by omega, by push_cast; omega, h3, ?_⟩
        intro d hd1 hd2
        by_cases hdd : d = div
        · subst hdd; exact hc
        · exact h4 d (by omega) hd2

theorem traceInv_start (Q : Nat → Nat → Prop) (desc : Int → dw_idmac_desc) :
    TraceInv Q (State.start desc) := by
  intro a v h
  simp [State.start] at h

/-- With hardware that answers 0 to every read (never busy, START already
clear) and one unit of fuel, `dw_set_clk` runs to its end once both assertions
pass. -/
theorem dw_set_clk_quiet_run (p : dw_mmc_params_t) (clk : Int) (desc : Int → dw_idmac_desc)
    (hclk : 0 < clk) (hdiv : dw_set_clk_div p.clk_rate clk 255 1 < 256) :
    dw_set_clk p (fun _ => 0) 1 clk (State.start desc) =
      .ok ()
        { nread := 4,
          trace :=
            [.rd (p.reg_base + DWMMC_STATUS) 0,
             .wr (p.reg_base + DWMMC_CLKENA) 0,
             .wr (p.reg_base + DWMMC_CMD) UPDATE_CLK_CMD,
             .rd (p.reg_base + DWMMC_CMD) 0,
             .wr (p.reg_base + DWMMC_CLKDIV) (dw_set_clk_div p.clk_rate clk 255 1).toNat,
             .wr (p.reg_base + DWMMC_CMD) UPDATE_CLK_CMD,
             .rd (p.reg_base + DWMMC_CMD) 0,
             .wr (p.reg_base + DWMMC_CLKENA) 1,
             .wr (p.reg_base + DWMMC_CLKSRC) 0,
             .wr (p.reg_base + DWMMC_CMD) UPDATE_CLK_CMD,
             .rd (p.reg_base + DWMMC_CMD) 0],
          desc := desc } := by
  simp [dw_set_clk, bind_run, pure_run, c_assert, hclk, hdiv, dw_set_clk_idle, dw_update_clk,
    dw_update_clk_poll, mmio_read_32, mmio_write_32, emit, State.start]


/-- C8: for every source clock rate and every target `clk > 0` for which some
divisor in [1,255] satisfies `clk_rate / (2*d) <= clk` (C integer division), a
value `dw_set_clk` writes to CLKDIV is the smallest such divisor; and with
hardware that is never busy the run does write it. -/
theorem dw_set_clk_divisor (p : dw_mmc_params_t) (clk : Int) (desc : Int → dw_idmac_desc)
    (hclk : 0 < clk)
    (hex : ∃ d : Int, 1 ≤ d ∧ d ≤ 255 ∧ Int.tdiv p.clk_rate (2 * d) ≤ clk) :
    (∀ (hw : Nat → Nat) (fuel v : Nat),
      Event.wr (p.reg_base + DWMMC_CLKDIV) v ∈
        (dw_set_clk p hw fuel clk (State.start desc)).state.trace →
      1 ≤ v ∧ v ≤ 255 ∧ Int.tdiv p.clk_rate (2 * (v : Int)) ≤ clk ∧
        ∀ d : Int, 1 ≤ d → d < v → ¬ Int.tdiv p.clk_rate (2 * d) ≤ clk) ∧
    (∃ v : Nat, (dw_set_clk p (fun _ => 0) 1 clk (State.start desc)).value = some () ∧
      Event.wr (p.reg_base + DWMMC_CLKDIV) v ∈
        (dw_set_clk p (fun _ => 0) 1 clk (State.start desc)).state.trace) := by
  obtain ⟨d0, hd1, hd2, hd3⟩ := hex
  have hspec := dw_set_clk_div_spec p.clk_rate clk 255 1
  have hmin : 1 ≤ dw_set_clk_div p.clk_rate clk 255 1 ∧
      dw_set_clk_div p.clk_rate clk 255 1 < 256 ∧
      Int.tdiv p.clk_rate (2 * dw_set_clk_div p.clk_rate clk 255 1) ≤ clk ∧
      ∀ d : Int, 1 ≤ d → d < dw_set_clk_div p.clk_rate clk 255 1 →
        ¬ Int.tdiv p.clk_rate (2 * d) ≤ clk := by
    rcases hspec with ⟨-, hall⟩ | ⟨h1, h2, h3, h4⟩
    · exact absurd hd3 (hall d0 hd1 (by push_cast; omega))
    · exact ⟨h1, by push_cast at h2; omega, h3, h4⟩
  obtain ⟨m1, m2, m3, m4⟩ := hmin
  constructor
  · intro hw fuel v hmem
    have hinv := traceInv_set_clk
      (fun a x => a = p.reg_base + DWMMC_CLKDIV →
        x = (dw_set_clk_div p.clk_rate clk 255 1).toNat)
      p hw fuel clk
      (by intro h; simp only [DWMMC_RINTSTS, DWMMC_CLKDIV] at h; omega)
      (by intro h; simp only [DWMMC_CMD, DWMMC_CLKDIV] at h; omega)
      (by intro h; simp only [DWMMC_CLKENA, DWMMC_CLKDIV] at h; omega)
      (fun _ => rfl)
      (by intro h; simp only [DWMMC_CLKENA, DWMMC_CLKDIV] at h; omega)
      (by intro h; simp only [DWMMC_CLKSRC, DWMMC_CLKDIV] at h; omega)
      (State.start desc) (traceInv_start _ desc)
    have hv : v = (dw_set_clk_div p.clk_rate clk 255 1).toNat := hinv _ v hmem rfl
    have hvi : (v : Int) = dw_set_clk_div p.clk_rate clk 255 1 := by omega
    rw [hvi]
    exact ⟨by omega, by omega, m3, m4⟩
  · refine ⟨(dw_set_clk_div p.clk_rate clk 255 1).toNat, ?_, ?_⟩
    · rw [dw_set_clk_quiet_run p clk desc hclk m2]; rfl
    · rw [dw_set_clk_quiet_run p clk desc hclk m2]
      simp [Result.state]

set_option maxRecDepth 100000 in
/-- C8, at a concrete run: a 200 MHz source and a 400 kHz target give divisor
250. -/
theorem dw_set_clk_divisor_witness :
    Event.wr (sampleParams.reg_base + DWMMC_CLKDIV) 250 ∈
      (dw_set_clk sampleParams (fun _ => 0) 1 400000 (State.start zeroDesc)).state.trace ∧
    Int.tdiv sampleParams.clk_rate (2 * ((250 : Nat) : Int)) ≤ 400000 ∧
    ¬ Int.tdiv sampleParams.clk_rate (2 * 249) ≤ 400000 :=
  have h := (dw_set_clk_divisor sampleParams 400000 zeroDesc (by decide)
    ⟨250, by decide, by decide, by decide⟩).1 (fun _ => 0) 1 250 (by decide)
  ⟨by decide, h.2.2.1, h.2.2.2 249 (by decide) (by decide)⟩

theorem stopped_bind_ne {α β : Type} (e : Fatal) (m : M α) (f : α → M β)
    (hm : ∀ s, (m s).stopped ≠ some e) (hf : ∀ a s, (f a s).stopped ≠ some e) :
    ∀ s, ((m >>= f) s).stopped ≠ some e := by
  intro s
  rw [bind_run]
  have := hm s
  cases hr : m s with
  | ok a s1 => exact hf a s1
  | fatal e1 s1 => rw [hr] at this; exact this

theorem stopped_read_ne (e : Fatal) (hw : Nat → Nat) (addr : Nat) :
    ∀ s, (mmio_read_32 hw addr s).stopped ≠ some e := by
  intro s h; cases h

theorem stopped_write_ne (e : Fatal) (addr val : Nat) :
    ∀ s, (mmio_write_32 addr val s).stopped ≠ some e := by
  intro s h; cases h

theorem stopped_pure_ne {α : Type} (e : Fatal) (a : α) :
    ∀ s, ((pure a : M α) s).stopped ≠ some e := by
  intro s h; cases h

/-- The handshake has no assertion. -/
theorem dw_update_clk_poll_no_assert (hw : Nat → Nat) (base : Nat) :
    ∀ fuel s, (dw_update_clk_poll hw base fuel s).stopped ≠ some .assertion := by
  intro fuel
  induction fuel with
  | zero => intro s h; cases h
  | succ n ih =>
    unfold dw_update_clk_poll
    apply stopped_bind_ne _ _ _ (stopped_read_ne _ hw _)
    intro data
    by_cases hd : data &&& CMD_START = 0
    · rw [if_pos hd]; exact stopped_pure_ne _ ()
    · rw [if_neg hd]
      apply stopped_bind_ne _ _ _ (stopped_read_ne _ hw _)
      intro data1
      by_cases hh : data1 &&& INT_HLE ≠ 0
      · rw [if_pos hh]
        apply stopped_bind_ne _ _ _ (stopped_write_ne _ _ _)
        intro _
        apply stopped_bind_ne _ _ _ (stopped_write_ne _ _ _)
        intro _
        exact ih
      · rw [if_neg hh]; exact ih

theorem dw_update_clk_no_assert (p : dw_mmc_params_t) (hw : Nat → Nat) (fuel : Nat) :
    ∀ s, (dw_update_clk p hw fuel s).stopped ≠ some .assertion := by
  unfold dw_update_clk
  apply stopped_bind_ne _ _ _ (stopped_write_ne _ _ _)
  intro _
  exact dw_update_clk_poll_no_assert hw _ fuel

theorem dw_set_clk_idle_no_assert (hw : Nat → Nat) (base : Nat) :
    ∀ fuel s, (dw_set_clk_idle hw base fuel s).stopped ≠ some .assertion := by
  intro fuel
  induction fuel with
  | zero => intro s h; cases h
  | succ n ih =>
    unfold dw_set_clk_idle
    apply stopped_bind_ne _ _ _ (stopped_read_ne _ hw _)
    intro data
    by_cases hd : data &&& STATUS_DATA_BUSY ≠ 0
    · rw [if_pos hd]; exact ih
    · rw [if_neg hd]; exact stopped_pure_ne _ ()

/-- C9: for every target `clk > 0` that no divisor in [1,255] reaches,
`dw_set_clk` stops at the `div < 256` assertion with no register read or
written; for every target that has such a divisor it never stops at an
assertion. -/
theorem dw_set_clk_unreachable (p : dw_mmc_params_t) (hw : Nat → Nat) (fuel : Nat)
    (clk : Int) (s : State) (hclk : 0 < clk) :
    ((¬ ∃ d : Int, 1 ≤ d ∧ d ≤ 255 ∧ Int.tdiv p.clk_rate (2 * d) ≤ clk) →
      dw_set_clk p hw fuel clk s = .fatal .assertion s) ∧
    ((∃ d : Int, 1 ≤ d ∧ d ≤ 255 ∧ Int.tdiv p.clk_rate (2 * d) ≤ clk) →
      (dw_set_clk p hw fuel clk s).stopped ≠ some .assertion) := by
  have hspec := dw_set_clk_div_spec p.clk_rate clk 255 1
  constructor
  · intro hno
    have hd : ¬ dw_set_clk_div p.clk_rate clk 255 1 < 256 := by
      rcases hspec with ⟨he, -⟩ | ⟨h1, h2, h3, -⟩
      · rw [he]; norm_num
      · exact absurd ⟨_, h1, by push_cast at h2; omega, h3⟩ hno
    simp [dw_set_clk, bind_run, pure_run, c_assert, hclk, hd, stop]
  · rintro ⟨d0, hd1, hd2, hd3⟩
    have hd : dw_set_clk_div p.clk_rate clk 255 1 < 256 := by
      rcases hspec with ⟨-, hall⟩ | ⟨-, h2, -, -⟩
      · exact absurd hd3 (hall d0 hd1 (by push_cast; omega))
      · push_cast at h2; omega
    unfold dw_set_clk
    simp only [c_assert, hclk, hd, decide_True, if_true]
    apply stopped_bind_ne _ _ _ (stopped_pure_ne _ ())
    intro _
    apply stopped_bind_ne _ _ _ (stopped_pure_ne _ ())
    intro _
    apply stopped_bind_ne _ _ _ (dw_set_clk_idle_no_assert hw _ fuel)
    intro _
    apply stopped_bind_ne _ _ _ (stopped_write_ne _ _ _)
    intro _
    apply stopped_bind_ne _ _ _ (dw_update_clk_no_assert p hw fuel)
    intro _
    apply stopped_bind_ne _ _ _ (stopped_write_ne _ _ _)
    intro _
    apply stopped_bind_ne _ _ _ (dw_update_clk_no_assert p hw fuel)
    intro _
    apply stopped_bind_ne _ _ _ (stopped_write_ne _ _ _)
    intro _
    apply stopped_bind_ne _ _ _ (stopped_write_ne _ _ _)
    intro _
    exact dw_update_clk_no_assert p hw fuel

set_option maxRecDepth 100000 in
/-- C9, at a concrete run: a 200 MHz source cannot be divided down to 1 kHz. -/
theorem dw_set_clk_unreachable_witness :
    (¬ ∃ d : Int, 1 ≤ d ∧ d ≤ 255 ∧ Int.tdiv sampleParams.clk_rate (2 * d) ≤ 1000) ∧
    dw_set_clk sampleParams hwDone 10 1000 (State.start zeroDesc) =
      .fatal .assertion (State.start zeroDesc) :=
  have hno : ¬ ∃ d : Int, 1 ≤ d ∧ d ≤ 255 ∧ Int.tdiv sampleParams.clk_rate (2 * d) ≤ 1000 := by
    rintro ⟨d, h1, h2, h3⟩
    have hspec := dw_set_clk_div_spec sampleParams.clk_rate 1000 255 1
    have he : dw_set_clk_div sampleParams.clk_rate 1000 255 1 = 256 := by decide
    rcases hspec with ⟨-, hall⟩ | ⟨-, h4, -, -⟩
    · exact hall d h1 (by push_cast; omega) h3
    · rw [he] at h4; exact absurd h4 (by norm_num)
  ⟨hno, (dw_set_clk_unreachable sampleParams hwDone 10 1000 (State.start zeroDesc)
    (by decide)).1 hno⟩

/-- C10: `dw_set_ios` writes CTYPE with 0 for the 1-bit width, 1 for the 4-bit
width and `1 << 16` for the 8-bit width, as its first action and as the only
value CTYPE ever gets, and then reprograms the clock; for every other width it
stops at the assertion having written nothing and without reprogramming the
clock. -/
theorem dw_set_ios_ctype (h : EmmcDefs) (hd : h.WidthLabelsDistinct) (p : dw_mmc_params_t)
    (hw : Nat → Nat) (fuel : Nat) (clk width : Int) (desc : Int → dw_idmac_desc) :
    (∀ val : Nat,
      (width = h.EMMC_BUS_WIDTH_1 ∧ val = 0) ∨ (width = h.EMMC_BUS_WIDTH_4 ∧ val = 1) ∨
        (width = h.EMMC_BUS_WIDTH_8 ∧ val = 1 <<< 16) →
      dw_set_ios h p hw fuel clk width (State.start desc) =
        (dw_set_clk p hw fuel clk >>= fun _ => pure (0 : Int))
          ((State.start desc).log [.wr (p.reg_base + DWMMC_CTYPE) val]) ∧
      ∀ v, Event.wr (p.reg_base + DWMMC_CTYPE) v ∈
        (dw_set_ios h p hw fuel clk width (State.start desc)).state.trace → v = val) ∧
    (width ≠ h.EMMC_BUS_WIDTH_1 → width ≠ h.EMMC_BUS_WIDTH_4 → width ≠ h.EMMC_BUS_WIDTH_8 →
      dw_set_ios h p hw fuel clk width (State.start desc) =
        .fatal .assertion (State.start desc)) := by
  obtain ⟨d14, d18, d48⟩ := hd
  have hrun : ∀ val : Nat,
      (width = h.EMMC_BUS_WIDTH_1 ∧ val = 0) ∨ (width = h.EMMC_BUS_WIDTH_4 ∧ val = 1) ∨
        (width = h.EMMC_BUS_WIDTH_8 ∧ val = 1 <<< 16) →
      dw_set_ios h p hw fuel clk width (State.start desc) =
        (dw_set_clk p hw fuel clk >>= fun _ => pure (0 : Int))
          ((State.start desc).log [.wr (p.reg_base + DWMMC_CTYPE) val]) := by
    intro val hv
    rcases hv with ⟨hw1, rfl⟩ | ⟨hw4, rfl⟩ | ⟨hw8, rfl⟩
    · unfold dw_set_ios
      rw [if_pos hw1]
      rfl
    · unfold dw_set_ios
      rw [if_neg (fun e => d14 (e.symm.trans hw4)), if_pos hw4]
      rfl
    · unfold dw_set_ios
      rw [if_neg (fun e => d18 (e.symm.trans hw8)), if_neg (fun e => d48 (e.symm.trans hw8)),
        if_pos hw8]
      rfl
  refine ⟨fun val hv => ⟨hrun val hv, ?_⟩, ?_⟩
  · intro v hmem
    rw [hrun val hv] at hmem
    have hinv := traceInv_bind (fun a x => a = p.reg_base + DWMMC_CTYPE → x = val)
      (dw_set_clk p hw fuel clk) (fun _ => pure (0 : Int))
      (traceInv_set_clk _ p hw fuel clk
        (by intro e; simp only [DWMMC_RINTSTS, DWMMC_CTYPE] at e; omega)
        (by intro e; simp only [DWMMC_CMD, DWMMC_CTYPE] at e; omega)
        (by intro e; simp only [DWMMC_CLKENA, DWMMC_CTYPE] at e; omega)
        (by intro e; simp only [DWMMC_CLKDIV, DWMMC_CTYPE] at e; omega)
        (by intro e; simp only [DWMMC_CLKENA, DWMMC_CTYPE] at e; omega)
        (by intro e; simp only [DWMMC_CLKSRC, DWMMC_CTYPE] at e; omega))
      (fun a => traceInv_pure _ a)
      ((State.start desc).log [.wr (p.reg_base + DWMMC_CTYPE) val])
      (by
        intro a x hm _
        simp only [State.log, State.start, List.nil_append, List.mem_singleton] at hm
        cases hm; rfl)
    exact hinv _ v hmem rfl
  · intro n1 n4 n8
    unfold dw_set_ios
    rw [if_neg n1, if_neg n4, if_neg n8]
    rfl

set_option maxRecDepth 100000 in
/-- C10, at concrete runs: with the widths of `sampleDefs`, width 2 (8-bit)
writes `1 << 16` to CTYPE and width 7 stops at the assertion. -/
theorem dw_set_ios_ctype_witness :
    (∀ v, Event.wr (sampleParams.reg_base + DWMMC_CTYPE) v ∈
        (dw_set_ios sampleDefs sampleParams hwDone 10 400000 2
          (State.start zeroDesc)).state.trace → v = 1 <<< 16) ∧
    Event.wr (sampleParams.reg_base + DWMMC_CTYPE) 65536 ∈
        (dw_set_ios sampleDefs sampleParams hwDone 10 400000 2
          (State.start zeroDesc)).state.trace ∧
    dw_set_ios sampleDefs sampleParams hwDone 10 400000 7 (State.start zeroDesc) =
      .fatal .assertion (State.start zeroDesc) :=
  ⟨((dw_set_ios_ctype sampleDefs ⟨by decide, by decide, by decide⟩ sampleParams hwDone 10
      400000 2 zeroDesc).1 (1 <<< 16) (Or.inr (Or.inr ⟨rfl, rfl⟩))).2,
   by decide,
   (dw_set_ios_ctype sampleDefs ⟨by decide, by decide, by decide⟩ sampleParams hwDone 10
      400000 7 zeroDesc).2 (by decide) (by decide) (by decide)⟩

/-! ## `dw_prepare`, `dw_read`, `dw_write` and the build without DMA -/

theorem and_block_mask (x : Nat) : x &&& EMMC_BLOCK_MASK = x % 512 := by
  show x &&& (2 ^ 9 - 1) = x % 2 ^ 9
  exact Nat.and_pow_two_sub_one_eq_mod x 9

/-- The run of `dw_prepare` when the assertion of line 426 fails: nothing is
done. -/
theorem dw_prepare_unaligned (no_dma : Bool) (p : dw_mmc_params_t) (depth lba : Int)
    (buf size : Nat) (s : State) (hbad : ¬ (buf % 512 = 0 ∧ size % 512 = 0)) :
    dw_prepare no_dma p depth lba buf size s = .fatal .assertion s := by
  unfold dw_prepare
  rw [bind_run]
  have hc : c_assert (decide (buf &&& EMMC_BLOCK_MASK = 0 ∧ size % EMMC_BLOCK_SIZE = 0)) s =
      .fatal .assertion s := by
    unfold c_assert
    rw [and_block_mask, show EMMC_BLOCK_SIZE = 512 from rfl, if_neg (by simpa using hbad)]
    rfl
  rw [hc]

/-- The run of `dw_prepare` when the assertion of line 426 holds: BYTCNT and
RINTSTS are written and the function goes on with `init_dma`. -/
theorem dw_prepare_aligned (no_dma : Bool) (p : dw_mmc_params_t) (depth lba : Int)
    (buf size : Nat) (s : State) (hb : buf % 512 = 0) (hs : size % 512 = 0) :
    dw_prepare no_dma p depth lba buf size s =
      (init_dma no_dma p buf size >>= fun _ =>
        (if no_dma then
          if size > toU64 depth then pure (-EINVAL) else pure 0
        else pure 0 : M Int))
        (s.log [.wr (p.reg_base + DWMMC_BYTCNT) (size % 2 ^ 32),
          .wr (p.reg_base + DWMMC_RINTSTS) ALL_ONES]) := by
  unfold dw_prepare
  rw [bind_run]
  have hc : c_assert (decide (buf &&& EMMC_BLOCK_MASK = 0 ∧ size % EMMC_BLOCK_SIZE = 0)) s =
      .ok () s := by
    unfold c_assert
    rw [and_block_mask, show EMMC_BLOCK_SIZE = 512 from rfl,
      if_pos (by simpa using ⟨hb, hs⟩)]
    rfl
  rw [hc]
  simp only [bind_run, mmio_write_32, emit, State.log, List.append_assoc, List.singleton_append]

theorem fifoth_get_rwmark (data : Nat) : FIFOTH_GET_RWMARK data = data / 2 ^ 16 % 2 ^ 12 := by
  unfold FIFOTH_GET_RWMARK
  rw [Nat.shiftRight_eq_div_pow]
  exact Nat.and_pow_two_sub_one_eq_mod _ 12

/-- The FIFO depth of line 247 as a byte count: bits 27..16 of the word read,
plus 1, times 4. -/
theorem dw_init_fifo_depth_eq (data : Nat) :
    toU64 (dw_init_fifo_depth data) = (data / 2 ^ 16 % 2 ^ 12 + 1) * 4 := by
  unfold dw_init_fifo_depth
  rw [fifoth_get_rwmark]
  have h1 : data / 2 ^ 16 % 2 ^ 12 < 2 ^ 12 := Nat.mod_lt _ (by decide)
  generalize data / 2 ^ 16 % 2 ^ 12 = m at h1
  have h2 : ((m + 1) % 2 ^ 32 * 4) % 2 ^ 64 = (m + 1) * 4 := by omega
  rw [h2, toInt32_of_range _ (by omega) (by omega)]
  exact toU64_natCast _ (by omega)

/-- A sequence that returns: its first part returned, and the rest ran from
there. -/
theorem bind_ok {α β : Type} {m : M α} {f : α → M β} {s s2 : State} {b : β}
    (h : (m >>= f) s = .ok b s2) : ∃ a s1, m s = .ok a s1 ∧ f a s1 = .ok b s2 := by
  rw [bind_run] at h
  cases hm : m s with
  | ok a s1 => rw [hm] at h; exact ⟨a, s1, rfl, h⟩
  | fatal e s1 => rw [hm] at h; cases h

theorem mono_bind {α β : Type} (m : M α) (f : α → M β)
    (hm : ∀ s e, e ∈ s.trace → e ∈ (m s).state.trace)
    (hf : ∀ a s e, e ∈ s.trace → e ∈ (f a s).state.trace) :
    ∀ s e, e ∈ s.trace → e ∈ ((m >>= f) s).state.trace := by
  intro s e he
  rw [bind_run]
  have := hm s e he
  cases hr : m s with
  | ok a s1 => rw [hr] at this; exact hf a s1 e this
  | fatal x s1 => rw [hr] at this; exact this

theorem mono_pure {α : Type} (a : α) :
    ∀ s e, e ∈ s.trace → e ∈ ((pure a : M α) s).state.trace := fun _ _ he => he

theorem mono_stop {α : Type} (x : Fatal) :
    ∀ s e, e ∈ s.trace → e ∈ ((stop x : M α) s).state.trace := fun _ _ he => he

theorem mono_assert (c : Bool) :
    ∀ s e, e ∈ s.trace → e ∈ (c_assert c s).state.trace := by
  intro s e he
  cases c <;> exact he

theorem mono_emit (x : Event) :
    ∀ s e, e ∈ s.trace → e ∈ (emit x s).state.trace := by
  intro s e he
  simp only [emit, Result.state, List.mem_append]
  exact Or.inl he

theorem mono_write (addr val : Nat) :
    ∀ s e, e ∈ s.trace → e ∈ (mmio_write_32 addr val s).state.trace :=
  mono_emit _

theorem mono_read (hw : Nat → Nat) (addr : Nat) :
    ∀ s e, e ∈ s.trace → e ∈ (mmio_read_32 hw addr s).state.trace := by
  intro s e he
  simp only [mmio_read_32, Result.state, List.mem_append]
  exact Or.inl he

theorem mono_update_clk_poll (hw : Nat → Nat) (base : Nat) :
    ∀ fuel s e, e ∈ s.trace → e ∈ (dw_update_clk_poll hw base fuel s).state.trace := by
  intro fuel
  induction fuel with
  | zero => exact mono_stop _
  | succ n ih =>
    unfold dw_update_clk_poll
    apply mono_bind _ _ (mono_read hw _)
    intro data
    by_cases hd : data &&& CMD_START = 0
    · rw [if_pos hd]; exact mono_pure ()
    · rw [if_neg hd]
      apply mono_bind _ _ (mono_read hw _)
      intro data1
      by_cases hh : data1 &&& INT_HLE ≠ 0
      · rw [if_pos hh]
        apply mono_bind _ _ (mono_write _ _)
        intro _
        apply mono_bind _ _ (mono_write _ _)
        intro _
        exact ih
      · rw [if_neg hh]; exact ih

theorem mono_update_clk (p : dw_mmc_params_t) (hw : Nat → Nat) (fuel : Nat) :
    ∀ s e, e ∈ s.trace → e ∈ (dw_update_clk p hw fuel s).state.trace := by
  unfold dw_update_clk
  apply mono_bind _ _ (mono_write _ _)
  intro _
  exact mono_update_clk_poll hw _ fuel

theorem mono_set_clk_idle (hw : Nat → Nat) (base : Nat) :
    ∀ fuel s e, e ∈ s.trace → e ∈ (dw_set_clk_idle hw base fuel s).state.trace := by
  intro fuel
  induction fuel with
  | zero => exact mono_stop _
  | succ n ih =>
    unfold dw_set_clk_idle
    apply mono_bind _ _ (mono_read hw _)
    intro data
    by_cases hd : data &&& STATUS_DATA_BUSY ≠ 0
    · rw [if_pos hd]; exact ih
    · rw [if_neg hd]; exact mono_pure ()

theorem mono_set_clk (p : dw_mmc_params_t) (hw : Nat → Nat) (fuel : Nat) (clk : Int) :
    ∀ s e, e ∈ s.trace → e ∈ (dw_set_clk p hw fuel clk s).state.trace := by
  unfold dw_set_clk
  apply mono_bind _ _ (mono_assert _)
  intro _
  apply mono_bind _ _ (mono_assert _)
  intro _
  apply mono_bind _ _ (mono_set_clk_idle hw _ fuel)
  intro _
  apply mono_bind _ _ (mono_write _ _)
  intro _
  apply mono_bind _ _ (mono_update_clk p hw fuel)
  intro _
  apply mono_bind _ _ (mono_write _ _)
  intro _
  apply mono_bind _ _ (mono_update_clk p hw fuel)
  intro _
  apply mono_bind _ _ (mono_write _ _)
  intro _
  apply mono_bind _ _ (mono_write _ _)
  intro _
  exact mono_update_clk p hw fuel

theorem mono_set_ios (h : EmmcDefs) (p : dw_mmc_params_t) (hw : Nat → Nat) (fuel : Nat)
    (clk width : Int) :
    ∀ s e, e ∈ s.trace → e ∈ (dw_set_ios h p hw fuel clk width s).state.trace := by
  have htail : ∀ (y : Unit) s e, e ∈ s.trace →
      e ∈ ((do dw_set_clk p hw fuel clk; pure (0 : Int) : M Int) s).state.trace := by
    intro _
    apply mono_bind _ _ (mono_set_clk p hw fuel clk)
    intro _
    exact mono_pure _
  unfold dw_set_ios
  by_cases h1 : width = h.EMMC_BUS_WIDTH_1
  · rw [if_pos h1]; exact mono_bind _ _ (mono_write _ _) htail
  · rw [if_neg h1]
    by_cases h4 : width = h.EMMC_BUS_WIDTH_4
    · rw [if_pos h4]; exact mono_bind _ _ (mono_write _ _) htail
    · rw [if_neg h4]
      by_cases h8 : width = h.EMMC_BUS_WIDTH_8
      · rw [if_pos h8]; exact mono_bind _ _ (mono_write _ _) htail
      · rw [if_neg h8]; exact mono_bind _ _ (mono_assert _) htail

/-- When `dw_init` returns in the build without DMA, the FIFO depth it leaves
is computed from a word it read from FIFOTH. -/
theorem dw_init_depth (h : EmmcDefs) (p : dw_mmc_params_t) (hw : Nat → Nat) (fuel : Nat)
    (clk d0 d : Int) (s s1 : State)
    (hrun : dw_init h true p hw fuel clk d0 s = .ok d s1) :
    ∃ data, Event.rd (p.reg_base + DWMMC_FIFOTH) data ∈ s1.trace ∧
      d = dw_init_fifo_depth data := by
  unfold dw_init at hrun
  simp only [if_true] at hrun
  obtain ⟨_, t1, -, hrun⟩ := bind_ok hrun
  obtain ⟨_, t2, -, hrun⟩ := bind_ok hrun
  obtain ⟨_, t3, -, hrun⟩ := bind_ok hrun
  obtain ⟨_, t4, -, hrun⟩ := bind_ok hrun
  obtain ⟨_, t5, -, hrun⟩ := bind_ok hrun
  obtain ⟨_, t6, -, hrun⟩ := bind_ok hrun
  obtain ⟨_, t7, -, hrun⟩ := bind_ok hrun
  obtain ⟨_, t8, -, hrun⟩ := bind_ok hrun
  obtain ⟨_, t9, -, hrun⟩ := bind_ok hrun
  obtain ⟨_, t10, -, hrun⟩ := bind_ok hrun
  obtain ⟨_, t11, -, hrun⟩ := bind_ok hrun
  obtain ⟨_, t12, -, hrun⟩ := bind_ok hrun
  obtain ⟨_, t13, -, hrun⟩ := bind_ok hrun
  obtain ⟨data, t14, -, hrun⟩ := bind_ok hrun
  obtain ⟨data1, t15, hrd, hrun⟩ := bind_ok hrun
  obtain ⟨depth, t16, hdepth, hrun⟩ := bind_ok hrun
  obtain ⟨_, t17, hud, hrun⟩ := bind_ok hrun
  obtain ⟨_, t18, hios, hrun⟩ := bind_ok hrun
  obtain ⟨_, t19, hud2, hrun⟩ := bind_ok hrun
  simp only [pure_run, Result.ok.injEq] at hrun hdepth
  simp only [mmio_read_32, Result.ok.injEq] at hrd
  obtain ⟨rfl, rfl⟩ := hrun
  obtain ⟨rfl, rfl⟩ := hdepth
  obtain ⟨rfl, rfl⟩ := hrd
  refine ⟨hw t14.nread % 2 ^ 32, ?_, rfl⟩
  have m1 := mono_emit (.udelay 100) _
    (Event.rd (p.reg_base + DWMMC_FIFOTH) (hw t14.nread % 2 ^ 32))
    (show _ ∈ ({ t14 with nread := t14.nread + 1, trace := t14.trace ++
      [.rd (p.reg_base + DWMMC_FIFOTH) (hw t14.nread % 2 ^ 32)] } : State).trace by simp)
  rw [hud] at m1
  have m2 := mono_set_ios h p hw fuel clk h.EMMC_BUS_WIDTH_1 t17 _ m1
  rw [hios] at m2
  have m3 := mono_emit (.udelay 100) t18 _ m2
  rw [hud2] at m3
  exact m3

set_option maxRecDepth 100000 in
/-- C11 as stated fails: a misaligned request is not answered with
`InvalidArgument`.  With buffer address 1 in the DMA build, and with size 100
in the build without DMA, `dw_prepare` does not return at all: it stops at the
assertion of line 426. -/
theorem dw_prepare_alignment_counterexample :
    ((dw_prepare false sampleParams 0 0 1 512 (State.start zeroDesc)).value = none ∧
      (dw_prepare false sampleParams 0 0 1 512 (State.start zeroDesc)).stopped =
        some .assertion) ∧
    ((dw_prepare true sampleParams 1024 0 0x80000 100 (State.start zeroDesc)).value = none ∧
      (dw_prepare true sampleParams 1024 0 0x80000 100 (State.start zeroDesc)).stopped =
        some .assertion) := by
  refine ⟨⟨by decide, by decide⟩, ⟨by decide, by decide⟩⟩

/-- C11, amended: in both builds, for every buffer address that is not a
multiple of 512 and for every size that is not a multiple of 512, `dw_prepare`
stops at its assertion with no register written and no descriptor built (it
does not return an error); for an aligned buffer and a block-multiple size it
writes BYTCNT and RINTSTS and goes on with `init_dma`. -/
theorem dw_prepare_alignment (no_dma : Bool) (p : dw_mmc_params_t) (depth lba : Int)
    (buf size : Nat) (s : State) :
    (¬ (buf % 512 = 0 ∧ size % 512 = 0) →
      dw_prepare no_dma p depth lba buf size s = .fatal .assertion s) ∧
    (buf % 512 = 0 → size % 512 = 0 →
      dw_prepare no_dma p depth lba buf size s =
        (init_dma no_dma p buf size >>= fun _ =>
          (if no_dma then
            if size > toU64 depth then pure (-EINVAL) else pure 0
          else pure 0 : M Int))
          (s.log [.wr (p.reg_base + DWMMC_BYTCNT) (size % 2 ^ 32),
            .wr (p.reg_base + DWMMC_RINTSTS) ALL_ONES])) :=
  ⟨dw_prepare_unaligned no_dma p depth lba buf size s,
   dw_prepare_aligned no_dma p depth lba buf size s⟩

/-- C11, amended, at a concrete request: buffer address 0x80001. -/
theorem dw_prepare_alignment_witness :
    dw_prepare false sampleParams 0 0 0x80001 512 (State.start zeroDesc) =
      .fatal .assertion (State.start zeroDesc) :=
  (dw_prepare_alignment false sampleParams 0 0 0x80001 512 (State.start zeroDesc)).1
    (by decide)

/-- The run of `dw_prepare` in the build without DMA on an aligned request. -/
theorem dw_prepare_no_dma_run (p : dw_mmc_params_t) (depth lba : Int) (buf size : Nat)
    (s : State) (hb : buf % 512 = 0) (hs : size % 512 = 0) :
    dw_prepare true p depth lba buf size s =
      .ok (if size > toU64 depth then -EINVAL else 0)
        (s.log [.wr (p.reg_base + DWMMC_BYTCNT) (size % 2 ^ 32),
          .wr (p.reg_base + DWMMC_RINTSTS) ALL_ONES]) := by
  rw [dw_prepare_aligned true p depth lba buf size s hb hs]
  by_cases h : size > toU64 depth
  · simp [bind_run, init_dma, pure_run, h]
  · simp [bind_run, init_dma, pure_run, h]

/-- C12: in the build without DMA, with the FIFO depth that line 247 computes
from the FIFOTH word `data` (bits 27..16 plus 1, times 4 bytes), `dw_prepare` on
a block-aligned buffer and a block-multiple size returns `-EINVAL` exactly when
the size is greater than the FIFO depth and 0 exactly when it is at most the
FIFO depth; and the depth `dw_init` leaves is computed so from a word it read
from FIFOTH. -/
theorem dw_prepare_fifo_depth (p : dw_mmc_params_t) (data : Nat) (lba : Int)
    (buf size : Nat) (s : State) (hb : buf % 512 = 0) (hs : size % 512 = 0) :
    ((dw_prepare true p (dw_init_fifo_depth data) lba buf size s).value = some (-EINVAL) ↔
      size > (data / 2 ^ 16 % 2 ^ 12 + 1) * 4) ∧
    ((dw_prepare true p (dw_init_fifo_depth data) lba buf size s).value = some 0 ↔
      size ≤ (data / 2 ^ 16 % 2 ^ 12 + 1) * 4) ∧
    (∀ (h : EmmcDefs) (hw : Nat → Nat) (fuel : Nat) (clk d0 d : Int) (s0 s1 : State),
      dw_init h true p hw fuel clk d0 s0 = .ok d s1 →
      ∃ word, Event.rd (p.reg_base + DWMMC_FIFOTH) word ∈ s1.trace ∧
        d = dw_init_fifo_depth word) := by
  rw [dw_prepare_no_dma_run p _ lba buf size s hb hs, dw_init_fifo_depth_eq]
  refine ⟨?_, ?_, fun h hw fuel clk d0 d s0 s1 hrun => dw_init_depth h p hw fuel clk d0 d s0 s1 hrun⟩
  · simp only [Result.value, Option.some.injEq]
    by_cases hgt : size > (data / 2 ^ 16 % 2 ^ 12 + 1) * 4
    · rw [if_pos hgt]
      exact ⟨fun _ => hgt, fun _ => rfl⟩
    · rw [if_neg hgt]
      exact ⟨fun h => absurd h (by decide), fun h => absurd h hgt⟩
  · simp only [Result.value, Option.some.injEq]
    by_cases hgt : size > (data / 2 ^ 16 % 2 ^ 12 + 1) * 4
    · rw [if_pos hgt]
      exact ⟨fun h => absurd h (by decide), fun h => by omega⟩
    · rw [if_neg hgt]
      exact ⟨fun _ => by omega, fun _ => rfl⟩

set_option maxRecDepth 100000 in
/-- C12, at concrete requests: FIFOTH reading 0x00ff0000 at init gives a depth
of 1024 bytes; 1024 bytes are accepted and 1536 bytes are refused. -/
theorem dw_prepare_fifo_depth_witness :
    (dw_init sampleDefs true sampleParams hwFifo 1 400000 0 (State.start zeroDesc)).value =
      some (dw_init_fifo_depth 0x00ff0000) ∧
    dw_init_fifo_depth 0x00ff0000 = 1024 ∧
    (dw_prepare true sampleParams (dw_init_fifo_depth 0x00ff0000) 0 0x80000 1024
      (State.start zeroDesc)).value = some 0 ∧
    (dw_prepare true sampleParams (dw_init_fifo_depth 0x00ff0000) 0 0x80000 1536
      (State.start zeroDesc)).value = some (-EINVAL) :=
  ⟨by decide!, by decide, by decide,
   (dw_prepare_fifo_depth sampleParams 0x00ff0000 0 0x80000 1536 (State.start zeroDesc)
      (by decide) (by decide)).1.mpr (by decide)⟩

/-- C13 as stated fails: in the build without DMA `dw_write` returns 0, which is
success. -/
theorem dw_write_counterexample :
    (dw_write true 0 (fun _ => 0) 512 (State.start zeroDesc)).value.map Prod.fst = some 0 := by
  decide

/-- C13, amended: in both builds, for every buffer and size, `dw_write` returns
0 and touches neither a register nor the buffer; the refusal of writes in the
build without DMA is made by `dw_send_cmd`. -/
theorem dw_write_returns_zero (no_dma : Bool) (lba : Int) (buffer : Nat → Nat) (size : Nat)
    (s : State) :
    dw_write no_dma lba buffer size s = .ok (0, buffer) s := rfl

set_option maxRecDepth 100000 in
/-- C14 as stated fails in the error it names: in the build without DMA the
value `dw_send_cmd` returns for CMD24 is `-EINVAL`, the very value `dw_prepare`
returns for a transfer larger than the FIFO (the invalid-argument error); the
driver has no separate error for an unsupported write. -/
theorem dw_send_cmd_write_no_dma_counterexample :
    (dw_send_cmd sampleDefs true sampleParams hwDone cmdWriteBlock
      (State.start zeroDesc)).value.map Prod.fst = some (-EINVAL) ∧
    (dw_prepare true sampleParams 1024 0 0x80000 1536 (State.start zeroDesc)).value =
      some (-EINVAL) := by
  refine ⟨by decide, by decide⟩

/-- C14, amended: in the build without DMA, for every command whose index is
CMD24 or CMD25, with any argument and response type, `dw_send_cmd` returns
`-EINVAL` at once: no register is read or written and the command, its response
data included, is unchanged. -/
theorem dw_send_cmd_write_no_dma (h : EmmcDefs) (p : dw_mmc_params_t) (hw : Nat → Nat)
    (cmd : emmc_cmd_t) (s : State) (hidx : cmd.cmd_idx = 24 ∨ cmd.cmd_idx = 25) :
    dw_send_cmd h true p hw cmd s = .ok (-EINVAL, cmd) s := by
  have hc : dw_send_cmd_class true cmd.cmd_idx = none := by
    rcases hidx with e | e <;> (rw [e]; decide)
  unfold dw_send_cmd
  rw [hc]
  rfl

set_option maxRecDepth 100000 in
/-- C14, amended, at a concrete command: CMD24 with busy hardware. -/
theorem dw_send_cmd_write_no_dma_witness :
    dw_send_cmd sampleDefs true sampleParams (fun _ => 0x200) cmdWriteBlock
        (State.start zeroDesc) =
      .ok (-EINVAL, cmdWriteBlock) (State.start zeroDesc) :=
  dw_send_cmd_write_no_dma sampleDefs sampleParams (fun _ => 0x200) cmdWriteBlock
    (State.start zeroDesc) (Or.inl rfl)

/-- The loop of `dw_read`: `n` reads of FIFO, stored to words `k`, `k+1`, ... -/
theorem dw_read_loop_run (hw : Nat → Nat) (base : Nat) :
    ∀ (n k : Nat) (buffer : Nat → Nat) (s : State),
      ∃ buffer1 s1, dw_read_loop hw base n k buffer s = .ok buffer1 s1 ∧
        s1.nread = s.nread + n ∧ s1.desc = s.desc ∧
        s1.trace = s.trace ++
          (List.range n).map (fun i => Event.rd (base + DWMMC_FIFO) (hw (s.nread + i) % 2 ^ 32)) ∧
        (∀ i, i < n → buffer1 (k + i) = hw (s.nread + i) % 2 ^ 32) ∧
        (∀ j, (j < k ∨ k + n ≤ j) → buffer1 j = buffer j) := by
  intro n
  induction n with
  | zero =>
    intro k buffer s
    exact ⟨buffer, s, rfl, rfl, rfl, by simp, fun i hi => absurd hi (by omega), fun _ _ => rfl⟩
  | succ n ih =>
    intro k buffer s
    obtain ⟨b1, s1, hrun, hn, hd, ht, hin, hout⟩ := ih (k + 1)
      (fun j => if j = k then hw s.nread % 2 ^ 32 else buffer j)
      (s.afterRead hw (base + DWMMC_FIFO))
    refine ⟨b1, s1, ?_, ?_, ?_, ?_, ?_, ?_⟩
    · rw [← hrun]; rfl
    · rw [hn]; simp only [State.afterRead]; omega
    · rw [hd]; rfl
    · rw [ht, List.range_succ_eq_map, List.map_cons, List.map_map]
      simp only [State.afterRead, List.append_assoc, List.singleton_append, Nat.add_zero]
      congr 2
      apply List.map_congr_left
      intro i _
      simp only [Function.comp, Nat.succ_eq_add_one]
      rw [show s.nread + 1 + i = s.nread + (i + 1) by omega]
    · intro i hi
      cases i with
      | zero =>
        rw [Nat.add_zero, hout k (Or.inl (by omega))]
        simp
      | succ i =>
        have := hin i (by omega)
        rw [show k + 1 + i = k + (i + 1) by omega] at this
        rw [this]
        simp only [State.afterRead]
        rw [show s.nread + 1 + i = s.nread + (i + 1) by omega]
    · intro j hj
      rw [hout j (by omega)]
      have : j ≠ k := by omega
      simp [this]

/-- The run of `dw_read` in the build without DMA for `n` words. -/
theorem dw_read_words_run (p : dw_mmc_params_t) (hw : Nat → Nat) (n : Nat)
    (buffer : Nat → Nat) (s : State) :
    ∃ buffer1 s1,
      (dw_read_loop hw p.reg_base n 0 buffer >>= fun b => (pure (0, b) : M (Int × (Nat → Nat))))
        s = .ok (0, buffer1) s1 ∧
      s1.nread = s.nread + n ∧ s1.desc = s.desc ∧
      s1.trace = s.trace ++
        (List.range n).map
          (fun i => Event.rd (p.reg_base + DWMMC_FIFO) (hw (s.nread + i) % 2 ^ 32)) ∧
      (∀ i, i < n → buffer1 i = hw (s.nread + i) % 2 ^ 32) ∧
      (∀ j, n ≤ j → buffer1 j = buffer j) := by
  obtain ⟨b1, s1, hrun, hn, hd, ht, hin, hout⟩ := dw_read_loop_run hw p.reg_base n 0 buffer s
  refine ⟨b1, s1, ?_, hn, hd, ht, ?_, ?_⟩
  · rw [bind_run, hrun]; rfl
  · intro i hi
    have := hin i hi
    rwa [Nat.zero_add] at this
  · intro j hj
    exact hout j (Or.inr (by omega))

/-- C15: in the build without DMA, for every size that is a multiple of 4,
`dw_read` makes exactly `size/4` reads of the FIFO register (offset 0x200),
stores the `k`-th value read into the `k`-th 32-bit word of the buffer, leaves
the other words alone and returns 0; a size that is not a multiple of 4 is
rejected, by the assertion, before anything is read; in the DMA build `dw_read`
reads no register, writes nothing to the buffer and returns 0. -/
theorem dw_read_fifo (p : dw_mmc_params_t) (hw : Nat → Nat) (lba : Int)
    (buffer : Nat → Nat) (size : Nat) (s : State) :
    (size % 4 = 0 →
      ∃ buffer1 s1, dw_read true p hw lba buffer size s = .ok (0, buffer1) s1 ∧
        s1.trace = s.trace ++
          (List.range (size / 4)).map
            (fun k => Event.rd (p.reg_base + 0x200) (hw (s.nread + k) % 2 ^ 32)) ∧
        (∀ k, k < size / 4 → buffer1 k = hw (s.nread + k) % 2 ^ 32) ∧
        (∀ j, size / 4 ≤ j → buffer1 j = buffer j)) ∧
    (size % 4 ≠ 0 → dw_read true p hw lba buffer size s = .fatal .assertion s) ∧
    dw_read false p hw lba buffer size s = .ok (0, buffer) s := by
  refine ⟨fun h4 => ?_, fun h4 => ?_, rfl⟩
  · obtain ⟨b1, s1, hrun, -, -, ht, hin, hout⟩ :=
      dw_read_words_run p hw (size / 4) buffer s
    refine ⟨b1, s1, ?_, ht, hin, hout⟩
    rw [← hrun]
    unfold dw_read
    rw [if_pos rfl, bind_run]
    have hc : c_assert (decide (size % 4 = 0)) s = .ok () s := by
      unfold c_assert; rw [if_pos (by simpa using h4)]; rfl
    rw [hc]
  · unfold dw_read
    rw [if_pos rfl, bind_run]
    have hc : c_assert (decide (size % 4 = 0)) s = .fatal .assertion s := by
      unfold c_assert; rw [if_neg (by simpa using h4)]; rfl
    rw [hc]

set_option maxRecDepth 100000 in
/-- C15, at a concrete run: 8 bytes are two reads of FIFO. -/
theorem dw_read_fifo_witness :
    (dw_read true sampleParams (fun k => 10 + k) 0 (fun _ => 0) 8
      (State.start zeroDesc)).state.trace =
      [.rd (sampleParams.reg_base + 0x200) 10, .rd (sampleParams.reg_base + 0x200) 11] ∧
    (dw_read true sampleParams (fun k => 10 + k) 0 (fun _ => 0) 6 (State.start zeroDesc)) =
      .fatal .assertion (State.start zeroDesc) :=
  ⟨by decide,
   (dw_read_fifo sampleParams (fun k => 10 + k) 0 (fun _ => 0) 6 (State.start zeroDesc)).2.1
     (by decide)⟩

/-! ## `dw_send_cmd`: the response read-out -/

theorem readsOnly_nil (Q : Nat → Prop) : ReadsOnly Q [] := by
  intro a v h; cases h

theorem readsOnly_append (Q : Nat → Prop) (l1 l2 : List Event) (h1 : ReadsOnly Q l1)
    (h2 : ReadsOnly Q l2) : ReadsOnly Q (l1 ++ l2) := by
  intro a v h
  rcases List.mem_append.1 h with h | h
  · exact h1 a v h
  · exact h2 a v h

theorem readsOnly_mono (Q R : Nat → Prop) (l : List Event) (hqr : ∀ a, Q a → R a)
    (h : ReadsOnly Q l) : ReadsOnly R l :=
  fun a v hm => hqr a (h a v hm)

/-- A busy wait that ends has read STATUS only. -/
theorem dw_send_cmd_busy_ok (hw : Nat → Nat) (base : Nat) :
    ∀ (t : Nat) (s s1 : State), dw_send_cmd_busy hw base t s = .ok () s1 →
      ∃ mid, s1.trace = s.trace ++ mid ∧ ReadsOnly (fun a => a = base + DWMMC_STATUS) mid := by
  intro t
  induction t with
  | zero =>
    intro s s1 h
    simp [dw_send_cmd_busy, bind_run, mmio_read_32, stop] at h
  | succ t ih =>
    intro s s1 h
    rw [dw_send_cmd_busy_succ] at h
    have hone : ReadsOnly (fun a => a = base + DWMMC_STATUS)
        [Event.rd (base + DWMMC_STATUS) (hw s.nread % 2 ^ 32)] := by
      intro a v hm
      simp only [List.mem_singleton, Event.rd.injEq] at hm
      exact hm.1
    by_cases h0 : t = 0
    · rw [if_pos h0] at h; cases h
    · rw [if_neg h0] at h
      by_cases hb : hw s.nread % 2 ^ 32 &&& STATUS_DATA_BUSY ≠ 0
      · rw [if_pos hb] at h
        obtain ⟨mid, ht, hq⟩ := ih _ _ h
        refine ⟨[Event.rd (base + DWMMC_STATUS) (hw s.nread % 2 ^ 32)] ++ mid, ?_,
          readsOnly_append _ _ _ hone hq⟩
        rw [ht]
        simp [State.afterRead]
      · rw [if_neg hb] at h
        injection h with _ hs
        refine ⟨[Event.rd (base + DWMMC_STATUS) (hw s.nread % 2 ^ 32)], ?_, hone⟩
        rw [← hs]
        rfl

/-- A completion loop that ends has read RINTSTS only, and the only early return
value is `-EIO`. -/
theorem dw_send_cmd_poll_ok (hw : Nat → Nat) (base : Nat) :
    ∀ (t pending : Nat) (s s1 : State) (r : Option Int),
      dw_send_cmd_poll hw base t pending s = .ok r s1 →
      (∃ mid, s1.trace = s.trace ++ mid ∧
        ReadsOnly (fun a => a = base + DWMMC_RINTSTS) mid) ∧
      (∀ code, r = some code → code = - EIO) := by
  intro t
  induction t with
  | zero =>
    intro pending s s1 r h
    simp [dw_send_cmd_poll, stop] at h
  | succ t ih =>
    intro pending s s1 r h
    rw [dw_send_cmd_poll_succ] at h
    have hone : ∀ tail : List Event, (∀ a v, Event.rd a v ∉ tail) →
        ReadsOnly (fun a => a = base + DWMMC_RINTSTS)
          ([Event.udelay 500, Event.rd (base + DWMMC_RINTSTS) (hw s.nread % 2 ^ 32)] ++
            tail) := by
      intro tail htail a v hm
      simp only [List.cons_append, List.nil_append, List.mem_cons, Event.rd.injEq] at hm
      rcases hm with hm | hm | hm
      · cases hm
      · exact hm.1
      · exact absurd hm (htail a v)
    cases hstep : dw_send_cmd_poll_step (hw (s.log [.udelay 500]).nread % 2 ^ 32) pending with
    | none =>
      rw [hstep] at h
      injection h with hr hs
      refine ⟨⟨[Event.udelay 500, Event.rd (base + DWMMC_RINTSTS) (hw s.nread % 2 ^ 32)] ++
        [Event.error (hw s.nread % 2 ^ 32)], ?_, hone _ ?_⟩, ?_⟩
      · rw [← hs]; simp [State.afterRead, State.log]
      · intro a v hm
        simp at hm
      · intro code hc
        rw [← hr] at hc
        injection hc with hc
        exact hc.symm
    | some pending2 =>
      rw [hstep] at h
      simp only at h
      by_cases h0 : t = 0
      · rw [if_pos h0] at h; cases h
      · rw [if_neg h0] at h
        by_cases hp : pending2 ≠ 0
        · rw [if_pos hp] at h
          obtain ⟨⟨mid, ht, hq⟩, hcode⟩ := ih _ _ _ _ h
          refine ⟨⟨[Event.udelay 500,
            Event.rd (base + DWMMC_RINTSTS) (hw s.nread % 2 ^ 32)] ++ mid, ?_, ?_⟩, hcode⟩
          · rw [ht]; simp [State.afterRead, State.log]
          · exact readsOnly_append _ _ _
              (by simpa using hone [] (by intro a v hm; cases hm)) hq
        · rw [if_neg hp] at h
          injection h with hr hs
          refine ⟨⟨[Event.udelay 500,
            Event.rd (base + DWMMC_RINTSTS) (hw s.nread % 2 ^ 32)] ++ [], ?_,
            hone [] (by intro a v hm; cases hm)⟩, ?_⟩
          · rw [← hs]; simp [State.afterRead, State.log]
          · intro code hc
            rw [← hr] at hc
            cases hc

/-- The second `switch` only adds flags: the bits of its value under a mask are
those of `op` and those of the flags added. -/
theorem dw_send_cmd_resp_and (h : EmmcDefs) (rt x m : Nat) :
    dw_send_cmd_resp h rt x &&& m = (x &&& m) ||| (dw_send_cmd_resp h rt 0 &&& m) := by
  unfold dw_send_cmd_resp
  by_cases h0 : rt = 0
  · simp [h0]
  · by_cases h2 : rt = h.EMMC_RESPONSE_R2
    · simp only [if_neg h0, if_pos h2, or_and_mask, Nat.zero_or, Nat.zero_and]
    · by_cases h3 : rt = h.EMMC_RESPONSE_R3
      · simp only [if_neg h0, if_neg h2, if_pos h3, or_and_mask, Nat.zero_or, Nat.zero_and]
      · simp only [if_neg h0, if_neg h2, if_neg h3, or_and_mask, Nat.zero_or, Nat.zero_and]

/-- The flags `op` carries before the second `switch` have none of the bits
0..8. -/
theorem dw_send_cmd_class_low (no_dma : Bool) (idx op0 : Nat)
    (hc : dw_send_cmd_class no_dma idx = some op0) :
    (op0 ||| (CMD_USE_HOLD_REG ||| CMD_START)) &&& 0x1ff = 0 := by
  rcases dw_send_cmd_class_values no_dma idx op0 hc with e | e | e | e | e | e <;>
    (subst e; decide)

/-- RESP_EXPECT is set in `op` exactly for a response type other than 0. -/
theorem dw_send_cmd_resp_expect (h : EmmcDefs) (rt x : Nat)
    (hx : x &&& 0x1ff = 0) :
    (dw_send_cmd_resp h rt x &&& CMD_RESP_EXPECT ≠ 0 ↔ rt ≠ 0) := by
  have hxm : x &&& CMD_RESP_EXPECT = 0 := by
    have : x &&& CMD_RESP_EXPECT = (x &&& 0x1ff) &&& CMD_RESP_EXPECT := by
      rw [Nat.and_assoc]; rfl
    rw [this, hx, Nat.zero_and]
  rw [dw_send_cmd_resp_and, hxm, Nat.zero_or]
  unfold dw_send_cmd_resp
  by_cases h0 : rt = 0
  · simp [h0]
  · by_cases h2 : rt = h.EMMC_RESPONSE_R2
    · simp only [if_neg h0, if_pos h2, Nat.zero_or]
      exact ⟨fun _ => h0, fun _ => by decide⟩
    · by_cases h3 : rt = h.EMMC_RESPONSE_R3
      · simp only [if_neg h0, if_neg h2, if_pos h3, Nat.zero_or]
        exact ⟨fun _ => h0, fun _ => by decide⟩
      · simp only [if_neg h0, if_neg h2, if_neg h3, Nat.zero_or]
        exact ⟨fun _ => h0, fun _ => by decide⟩

/-- RESP_LEN is set in `op` exactly for the long response. -/
theorem dw_send_cmd_resp_len (h : EmmcDefs) (hd : h.RespLabelsDistinct) (rt x : Nat)
    (hx : x &&& 0x1ff = 0) :
    (dw_send_cmd_resp h rt x &&& CMD_RESP_LEN ≠ 0 ↔ rt = h.EMMC_RESPONSE_R2) := by
  have hxm : x &&& CMD_RESP_LEN = 0 := by
    have : x &&& CMD_RESP_LEN = (x &&& 0x1ff) &&& CMD_RESP_LEN := by
      rw [Nat.and_assoc]; rfl
    rw [this, hx, Nat.zero_and]
  rw [dw_send_cmd_resp_and, hxm, Nat.zero_or]
  unfold dw_send_cmd_resp
  by_cases h0 : rt = 0
  · have : rt ≠ h.EMMC_RESPONSE_R2 := by rw [h0]; exact fun e => hd.1 e.symm
    simp [h0, this]
    exact fun e => hd.1 e.symm
  · by_cases h2 : rt = h.EMMC_RESPONSE_R2
    · simp only [if_neg h0, if_pos h2, Nat.zero_or]
      exact ⟨fun _ => h2, fun _ => by decide⟩
    · by_cases h3 : rt = h.EMMC_RESPONSE_R3
      · simp only [if_neg h0, if_neg h2, if_pos h3, Nat.zero_or]
        exact ⟨fun hne => absurd (by decide) hne, fun e => absurd e h2⟩
      · simp only [if_neg h0, if_neg h2, if_neg h3, Nat.zero_or]
        exact ⟨fun hne => absurd (by decide) hne, fun e => absurd e h2⟩

/-- The response read-out, as a run. -/
theorem dw_send_cmd_read_resp_run (hw : Nat → Nat) (base op : Nat) (cmd : emmc_cmd_t)
    (s : State) :
    dw_send_cmd_read_resp hw base op cmd s =
      if op &&& CMD_RESP_EXPECT ≠ 0 then
        if op &&& CMD_RESP_LEN ≠ 0 then
          .ok (set_resp (set_resp (set_resp (set_resp cmd 0 (hw s.nread % 2 ^ 32))
              1 (hw (s.nread + 1) % 2 ^ 32)) 2 (hw (s.nread + 2) % 2 ^ 32))
              3 (hw (s.nread + 3) % 2 ^ 32))
            ((((s.afterRead hw (base + DWMMC_RESP0)).afterRead hw (base + DWMMC_RESP1)).afterRead
              hw (base + DWMMC_RESP2)).afterRead hw (base + DWMMC_RESP3))
        else .ok (set_resp cmd 0 (hw s.nread % 2 ^ 32)) (s.afterRead hw (base + DWMMC_RESP0))
      else .ok cmd s := by
  unfold dw_send_cmd_read_resp
  by_cases he : op &&& CMD_RESP_EXPECT ≠ 0
  · rw [if_pos he, if_pos he]
    by_cases hl : op &&& CMD_RESP_LEN ≠ 0
    · rw [if_pos hl]
      simp only [bind_run, mmio_read_32, if_pos hl, pure_run, State.afterRead]
    · rw [if_neg hl]
      simp only [bind_run, mmio_read_32, if_neg hl, pure_run, State.afterRead]
  · rw [if_neg he, if_neg he]
    rfl

/-- The ways a run of `dw_send_cmd` returns: the early `-EINVAL` with nothing
done; or, after the busy wait, the writes and the completion loop, in which only
STATUS and RINTSTS are read, either `-EIO` with the command unchanged, or 0
after the response read-out. -/
theorem dw_send_cmd_ok (h : EmmcDefs) (no_dma : Bool) (p : dw_mmc_params_t)
    (hw : Nat → Nat) (cmd cmd1 : emmc_cmd_t) (s s1 : State) (code : Int)
    (hrun : dw_send_cmd h no_dma p hw cmd s = .ok (code, cmd1) s1) :
    (dw_send_cmd_class no_dma cmd.cmd_idx = none ∧ code = -EINVAL ∧ cmd1 = cmd ∧ s1 = s) ∨
    ∃ op0 mid s3, dw_send_cmd_class no_dma cmd.cmd_idx = some op0 ∧
      s3.trace = s.trace ++ mid ∧
      ReadsOnly (fun a => a = p.reg_base + DWMMC_STATUS ∨ a = p.reg_base + DWMMC_RINTSTS) mid ∧
      ((code = - EIO ∧ cmd1 = cmd ∧ s1 = s3) ∨
       (code = 0 ∧
        dw_send_cmd_read_resp hw p.reg_base
          (dw_send_cmd_resp h cmd.resp_type (op0 ||| (CMD_USE_HOLD_REG ||| CMD_START)))
          cmd s3 = .ok cmd1 s1)) := by
  unfold dw_send_cmd at hrun
  cases hc : dw_send_cmd_class no_dma cmd.cmd_idx with
  | none =>
    left
    rw [hc] at hrun
    simp only [pure_run] at hrun
    injection hrun with hv hs
    injection hv with hcode hcmd
    exact ⟨rfl, hcode.symm, hcmd.symm, hs.symm⟩
  | some op0 =>
    right
    rw [hc] at hrun
    simp only [bind_run] at hrun
    cases hbr : dw_send_cmd_busy hw p.reg_base TIMEOUT s with
    | fatal f sb => rw [hbr] at hrun; cases hrun
    | ok u sb =>
      rw [hbr] at hrun
      obtain ⟨mid1, ht1, hq1⟩ := dw_send_cmd_busy_ok hw p.reg_base TIMEOUT s sb hbr
      simp only [mmio_write_32, emit_run, bind_run] at hrun
      generalize hs2 : ((((sb.log [Event.wr (p.reg_base + DWMMC_RINTSTS) ALL_ONES]).log
        [Event.wr (p.reg_base + DWMMC_CMDARG) cmd.cmd_arg]).log [Event.dsbsy]).log
        [Event.wr (p.reg_base + DWMMC_CMD)
          (dw_send_cmd_resp h cmd.resp_type (op0 ||| (CMD_USE_HOLD_REG ||| CMD_START)) |||
            cmd.cmd_idx)]) = s2 at hrun
      generalize hpend : (INT_CMD_DONE ||| if dw_send_cmd_resp h cmd.resp_type
        (op0 ||| (CMD_USE_HOLD_REG ||| CMD_START)) &&& CMD_DATA_TRANS_EXPECT ≠ 0
        then INT_DTO else 0) = pending at hrun
      cases hpr : dw_send_cmd_poll hw p.reg_base TIMEOUT pending s2 with
      | fatal f s3 => rw [hpr] at hrun; cases hrun
      | ok r s3 =>
        rw [hpr] at hrun
        obtain ⟨⟨mid2, ht2, hq2⟩, hcode⟩ :=
          dw_send_cmd_poll_ok hw p.reg_base TIMEOUT pending s2 s3 r hpr
        have hwr : ReadsOnly
            (fun a => a = p.reg_base + DWMMC_STATUS ∨ a = p.reg_base + DWMMC_RINTSTS)
            [Event.wr (p.reg_base + DWMMC_RINTSTS) ALL_ONES,
             Event.wr (p.reg_base + DWMMC_CMDARG) cmd.cmd_arg, Event.dsbsy,
             Event.wr (p.reg_base + DWMMC_CMD)
              (dw_send_cmd_resp h cmd.resp_type (op0 ||| (CMD_USE_HOLD_REG ||| CMD_START)) |||
                cmd.cmd_idx)] := by
          intro a v hm
          simp at hm
        refine ⟨op0, mid1 ++ [Event.wr (p.reg_base + DWMMC_RINTSTS) ALL_ONES,
             Event.wr (p.reg_base + DWMMC_CMDARG) cmd.cmd_arg, Event.dsbsy,
             Event.wr (p.reg_base + DWMMC_CMD)
              (dw_send_cmd_resp h cmd.resp_type (op0 ||| (CMD_USE_HOLD_REG ||| CMD_START)) |||
                cmd.cmd_idx)] ++ mid2, s3, rfl, ?_, ?_, ?_⟩
        · rw [ht2, ← hs2]
          simp [State.log, ht1]
        · exact readsOnly_append _ _ _
            (readsOnly_append _ _ _ (readsOnly_mono _ _ _ (fun a ha => Or.inl ha) hq1) hwr)
            (readsOnly_mono _ _ _ (fun a ha => Or.inr ha) hq2)
        · cases r with
          | some c =>
            left
            simp only [pure_run] at hrun
            injection hrun with hv hs
            injection hv with hcd hcmd
            exact ⟨by rw [← hcd]; exact hcode c rfl, hcmd.symm, hs.symm⟩
          | none =>
            right
            simp only [bind_run] at hrun
            cases hrr : dw_send_cmd_read_resp hw p.reg_base
              (dw_send_cmd_resp h cmd.resp_type (op0 ||| (CMD_USE_HOLD_REG ||| CMD_START)))
              cmd s3 with
            | fatal f s4 => rw [hrr] at hrun; cases hrun
            | ok c4 s4 =>
              rw [hrr] at hrun
              simp only [pure_run] at hrun
              injection hrun with hv hs
              injection hv with hcd hcmd
              exact ⟨hcd.symm, by rw [hcmd, hs]⟩

/-- C16: whenever `dw_send_cmd` returns 0, the registers read before the
response read-out are STATUS and RINTSTS only, and then: for response type 0 no
response register is read and the command, its four `resp_data` words included,
is unchanged; for the long response R2 the registers RESP0, RESP1, RESP2, RESP3
are read in this order and the values read are stored into `resp_data[0..3]`;
for every other response type RESP0 alone is read, its value is stored into
`resp_data[0]`, and `resp_data[1..3]` are unchanged. -/
theorem dw_send_cmd_success_resp (h : EmmcDefs) (hd : h.RespLabelsDistinct) (no_dma : Bool)
    (p : dw_mmc_params_t) (hw : Nat → Nat) (cmd cmd1 : emmc_cmd_t) (s s1 : State)
    (hrun : dw_send_cmd h no_dma p hw cmd s = .ok (0, cmd1) s1) :
    ∃ mid,
      ReadsOnly (fun a => a = p.reg_base + DWMMC_STATUS ∨ a = p.reg_base + DWMMC_RINTSTS) mid ∧
      (cmd.resp_type = 0 → s1.trace = s.trace ++ mid ∧ cmd1 = cmd) ∧
      (cmd.resp_type = h.EMMC_RESPONSE_R2 →
        ∃ v0 v1 v2 v3, s1.trace = s.trace ++ mid ++
            [.rd (p.reg_base + DWMMC_RESP0) v0, .rd (p.reg_base + DWMMC_RESP1) v1,
             .rd (p.reg_base + DWMMC_RESP2) v2, .rd (p.reg_base + DWMMC_RESP3) v3] ∧
          cmd1.resp_data 0 = v0 ∧ cmd1.resp_data 1 = v1 ∧ cmd1.resp_data 2 = v2 ∧
          cmd1.resp_data 3 = v3) ∧
      (cmd.resp_type ≠ 0 → cmd.resp_type ≠ h.EMMC_RESPONSE_R2 →
        ∃ v0, s1.trace = s.trace ++ mid ++ [.rd (p.reg_base + DWMMC_RESP0) v0] ∧
          cmd1.resp_data 0 = v0 ∧ cmd1.resp_data 1 = cmd.resp_data 1 ∧
          cmd1.resp_data 2 = cmd.resp_data 2 ∧ cmd1.resp_data 3 = cmd.resp_data 3) := by
  rcases dw_send_cmd_ok h no_dma p hw cmd cmd1 s s1 0 hrun with
    ⟨_, hcode, _, _⟩ | ⟨op0, mid, s3, hc, ht, hq, ⟨hcode, _, _⟩ | ⟨_, hresp⟩⟩
  · exact absurd hcode (by decide)
  · exact absurd hcode (by decide)
  · have hlow := dw_send_cmd_class_low no_dma cmd.cmd_idx op0 hc
    have hexp := dw_send_cmd_resp_expect h cmd.resp_type _ hlow
    have hlen := dw_send_cmd_resp_len h hd cmd.resp_type _ hlow
    rw [dw_send_cmd_read_resp_run] at hresp
    refine ⟨mid, hq, ?_, ?_, ?_⟩
    · intro h0
      rw [if_neg (fun hne => (hexp.1 hne) h0)] at hresp
      injection hresp with hcmd hs
      rw [← hs, ← hcmd]
      exact ⟨ht, rfl⟩
    · intro h2
      have hne : cmd.resp_type ≠ 0 := by rw [h2]; exact hd.1
      rw [if_pos (hexp.2 hne), if_pos (hlen.2 h2)] at hresp
      injection hresp with hcmd hs
      refine ⟨hw s3.nread % 2 ^ 32, hw (s3.nread + 1) % 2 ^ 32, hw (s3.nread + 2) % 2 ^ 32,
        hw (s3.nread + 3) % 2 ^ 32, ?_, ?_, ?_, ?_, ?_⟩
      · rw [← hs]
        simp [State.afterRead, ht]
      · rw [← hcmd]; simp [set_resp]
      · rw [← hcmd]; simp [set_resp]
      · rw [← hcmd]; simp [set_resp]
      · rw [← hcmd]; simp [set_resp]
    · intro h0 h2
      rw [if_pos (hexp.2 h0), if_neg (fun hne => h2 (hlen.1 hne))] at hresp
      injection hresp with hcmd hs
      refine ⟨hw s3.nread % 2 ^ 32, ?_, ?_, ?_, ?_, ?_⟩
      · rw [← hs]
        simp [State.afterRead, ht]
      · rw [← hcmd]; simp [set_resp]
      · rw [← hcmd]; simp [set_resp]
      · rw [← hcmd]; simp [set_resp]
      · rw [← hcmd]; simp [set_resp]

/-- C17: whenever `dw_send_cmd` returns `-EIO`, the command, its four
`resp_data` words included, is the same as before the call, and every register
read of the call is a read of STATUS or of RINTSTS: none of RESP0..RESP3 is
read. -/
theorem dw_send_cmd_eio_resp (h : EmmcDefs) (no_dma : Bool) (p : dw_mmc_params_t)
    (hw : Nat → Nat) (cmd cmd1 : emmc_cmd_t) (s s1 : State)
    (hrun : dw_send_cmd h no_dma p hw cmd s = .ok (- EIO, cmd1) s1) :
    (cmd1 = cmd ∧ ∀ i, cmd1.resp_data i = cmd.resp_data i) ∧
    ∃ mid, s1.trace = s.trace ++ mid ∧
      ReadsOnly (fun a => a = p.reg_base + DWMMC_STATUS ∨ a = p.reg_base + DWMMC_RINTSTS) mid ∧
      ReadsOnly (fun a => a ≠ p.reg_base + DWMMC_RESP0 ∧ a ≠ p.reg_base + DWMMC_RESP1 ∧
        a ≠ p.reg_base + DWMMC_RESP2 ∧ a ≠ p.reg_base + DWMMC_RESP3) mid := by
  rcases dw_send_cmd_ok h no_dma p hw cmd cmd1 s s1 (- EIO) hrun with
    ⟨_, hcode, _, _⟩ | ⟨op0, mid, s3, hc, ht, hq, ⟨_, hcmd, hs⟩ | ⟨hcode, _⟩⟩
  · exact absurd hcode (by decide)
  · refine ⟨⟨hcmd, fun i => by rw [hcmd]⟩, mid, by rw [hs]; exact ht, hq, ?_⟩
    refine readsOnly_mono _ _ _ (fun a ha => ?_) hq
    simp only [DWMMC_STATUS, DWMMC_RINTSTS, DWMMC_RESP0, DWMMC_RESP1, DWMMC_RESP2,
      DWMMC_RESP3] at ha ⊢
    omega
  · exact absurd hcode (by decide)

/-- The command word is flags or'ed with an index below 64; the flags have no
bit in positions 0..5. -/
theorem dw_send_cmd_flags_low (h : EmmcDefs) (no_dma : Bool) (idx rt op0 : Nat)
    (hc : dw_send_cmd_class no_dma idx = some op0) :
    dw_send_cmd_resp h rt (op0 ||| (CMD_USE_HOLD_REG ||| CMD_START)) % 64 = 0 := by
  have hlow := dw_send_cmd_class_low no_dma idx op0 hc
  have h1 : dw_send_cmd_resp h rt (op0 ||| (CMD_USE_HOLD_REG ||| CMD_START)) &&& 63 = 0 := by
    rw [dw_send_cmd_resp_and]
    have hx : (op0 ||| (CMD_USE_HOLD_REG ||| CMD_START)) &&& 63 = 0 := by
      have : (op0 ||| (CMD_USE_HOLD_REG ||| CMD_START)) &&& 63 =
          ((op0 ||| (CMD_USE_HOLD_REG ||| CMD_START)) &&& 0x1ff) &&& 63 := by
        rw [Nat.and_assoc]; rfl
      rw [this, hlow, Nat.zero_and]
    rw [hx, Nat.zero_or]
    unfold dw_send_cmd_resp
    split
    · rfl
    · split
      · decide
      · split <;> decide
  have h2 := Nat.and_pow_two_sub_one_eq_mod
    (dw_send_cmd_resp h rt (op0 ||| (CMD_USE_HOLD_REG ||| CMD_START))) 6
  exact h2.symm.trans h1

theorem or_low_bits (f idx : Nat) (hf : f % 64 = 0) (hidx : idx < 64) :
    (f ||| idx) % 64 = idx ∧ (f ||| idx) / 64 = f / 64 := by
  have hhigh : ∀ i, 6 ≤ i → idx.testBit i = false := by
    intro i hi
    apply Nat.testBit_lt_two_pow
    calc idx < 2 ^ 6 := hidx
      _ ≤ 2 ^ i := Nat.pow_le_pow_right (by decide) hi
  have hlow : ∀ i, i < 6 → f.testBit i = false := by
    intro i hi
    have h1 : (f % 2 ^ 6).testBit i = false := by
      rw [show (2 : Nat) ^ 6 = 64 from rfl, hf, Nat.zero_testBit]
    rw [Nat.testBit_mod_two_pow] at h1
    simpa [hi] using h1
  constructor
  · apply Nat.eq_of_testBit_eq
    intro i
    rw [show (64 : Nat) = 2 ^ 6 from rfl, Nat.testBit_mod_two_pow, Nat.testBit_or]
    by_cases hi : i < 6
    · simp [hi, hlow i hi]
    · simp [hi, hhigh i (by omega)]
  · apply Nat.eq_of_testBit_eq
    intro i
    rw [show (64 : Nat) = 2 ^ 6 from rfl, ← Nat.shiftRight_eq_div_pow,
      ← Nat.shiftRight_eq_div_pow, Nat.testBit_shiftRight, Nat.testBit_shiftRight,
      Nat.testBit_or, hhigh (6 + i) (by omega), Bool.or_false]

/-- C18: for every command index in 0..63 and every response type, a command
word written to CMD by `dw_send_cmd` is `flags | index`, where the flags (the
class flags of the index, the always-on flags and the response-shape flags of
the response type) have no bit in positions 0..5; the low six bits of the word
are the command index and the bits above bit 5 are those of the flags. -/
theorem dw_send_cmd_word_index (h : EmmcDefs) (no_dma : Bool) (p : dw_mmc_params_t)
    (hw : Nat → Nat) (cmd : emmc_cmd_t) (desc : Int → dw_idmac_desc) (w : Nat)
    (hidx : cmd.cmd_idx < 64)
    (hmem : Event.wr (p.reg_base + DWMMC_CMD) w ∈
      (dw_send_cmd h no_dma p hw cmd (State.start desc)).state.trace) :
    w % 64 = cmd.cmd_idx ∧
    ∃ op0, dw_send_cmd_class no_dma cmd.cmd_idx = some op0 ∧
      w = dw_send_cmd_resp h cmd.resp_type (op0 ||| (CMD_USE_HOLD_REG ||| CMD_START)) |||
        cmd.cmd_idx ∧
      dw_send_cmd_resp h cmd.resp_type (op0 ||| (CMD_USE_HOLD_REG ||| CMD_START)) % 64 = 0 ∧
      w / 64 =
        dw_send_cmd_resp h cmd.resp_type (op0 ||| (CMD_USE_HOLD_REG ||| CMD_START)) / 64 ∧
      ∀ i, 6 ≤ i → w.testBit i =
        (dw_send_cmd_resp h cmd.resp_type
          (op0 ||| (CMD_USE_HOLD_REG ||| CMD_START))).testBit i := by
  obtain ⟨op0, hc, hw0⟩ := dw_send_cmd_cmd_word h no_dma p hw cmd desc w hmem
  have hf := dw_send_cmd_flags_low h no_dma cmd.cmd_idx cmd.resp_type op0 hc
  have hlow := or_low_bits _ _ hf hidx
  rw [← hw0] at hlow
  refine ⟨hlow.1, op0, hc, hw0, hf, hlow.2, ?_⟩
  intro i hi
  rw [hw0, Nat.testBit_or]
  have : cmd.cmd_idx.testBit i = false := by
    apply Nat.testBit_lt_two_pow
    calc cmd.cmd_idx < 2 ^ 6 := hidx
      _ ≤ 2 ^ i := Nat.pow_le_pow_right (by decide) hi
  rw [this, Bool.or_false]

set_option maxRecDepth 100000 in
/-- C16, at a concrete run: a command with the long response on hardware whose
response registers read 0x102 ... 0x105. -/
theorem dw_send_cmd_success_resp_witness :
    dw_send_cmd sampleDefs false sampleParams hwResp cmdAllSendCid (State.start zeroDesc) =
      .ok (0, cmdCidDone) stCidDone ∧
    (cmdCidDone.resp_data 0 = 0x102 ∧ cmdCidDone.resp_data 3 = 0x105) ∧
    ∃ mid v0 v1 v2 v3, stCidDone.trace = (State.start zeroDesc).trace ++ mid ++
        [.rd (sampleParams.reg_base + DWMMC_RESP0) v0,
         .rd (sampleParams.reg_base + DWMMC_RESP1) v1,
         .rd (sampleParams.reg_base + DWMMC_RESP2) v2,
         .rd (sampleParams.reg_base + DWMMC_RESP3) v3] ∧
      cmdCidDone.resp_data 0 = v0 ∧ cmdCidDone.resp_data 1 = v1 ∧
      cmdCidDone.resp_data 2 = v2 ∧ cmdCidDone.resp_data 3 = v3 :=
  ⟨rfl, ⟨rfl, rfl⟩,
   match dw_send_cmd_success_resp sampleDefs ⟨by decide, by decide, by decide⟩ false
      sampleParams hwResp cmdAllSendCid cmdCidDone (State.start zeroDesc) stCidDone rfl with
   | ⟨mid, _, _, h2, _⟩ => ⟨mid, h2 rfl⟩⟩

set_option maxRecDepth 100000 in
/-- C17, at a concrete run: the first completion poll shows the response error
(bit 1). -/
theorem dw_send_cmd_eio_resp_witness :
    dw_send_cmd sampleDefs false sampleParams hwRe cmdGoIdle (State.start zeroDesc) =
      .ok (- EIO, cmdGoIdle) stIdleError ∧
    reads stIdleError.trace =
      [(sampleParams.reg_base + DWMMC_STATUS, 4), (sampleParams.reg_base + DWMMC_RINTSTS, 2)] ∧
    ∃ mid, stIdleError.trace = (State.start zeroDesc).trace ++ mid ∧
      ReadsOnly (fun a => a = sampleParams.reg_base + DWMMC_STATUS ∨
        a = sampleParams.reg_base + DWMMC_RINTSTS) mid ∧
      ReadsOnly (fun a => a ≠ sampleParams.reg_base + DWMMC_RESP0 ∧
        a ≠ sampleParams.reg_base + DWMMC_RESP1 ∧ a ≠ sampleParams.reg_base + DWMMC_RESP2 ∧
        a ≠ sampleParams.reg_base + DWMMC_RESP3) mid :=
  ⟨rfl, by decide,
   (dw_send_cmd_eio_resp sampleDefs false sampleParams hwRe cmdGoIdle cmdGoIdle
      (State.start zeroDesc) stIdleError rfl).2⟩

set_option maxRecDepth 100000 in
/-- C18, at a concrete run: index 2 with the long response is written as
0xA00001C2, whose low six bits are 2. -/
theorem dw_send_cmd_word_index_witness :
    Event.wr (sampleParams.reg_base + DWMMC_CMD) 0xA00001C2 ∈
      (dw_send_cmd sampleDefs false sampleParams hwDone cmdAllSendCid
        (State.start zeroDesc)).state.trace ∧
    0xA00001C2 % 64 = cmdAllSendCid.cmd_idx :=
  ⟨by decide,
   (dw_send_cmd_word_index sampleDefs false sampleParams hwDone cmdAllSendCid zeroDesc
      0xA00001C2 (by decide) (by decide)).1⟩

/-! ## `dw_send_cmd`: the completion loop -/

theorem dw_send_cmd_poll_step_clear (data pending : Nat) (he : data &&& err_mask = 0) :
    dw_send_cmd_poll_step data pending = some (pending_clear data pending) := by
  unfold dw_send_cmd_poll_step pending_clear
  rw [if_neg (by simpa using he)]

theorem seen_zero (hw : Nat → Nat) (n bit : Nat) : ¬ Seen hw n bit 0 := by
  rintro ⟨j, hj, _⟩
  omega

theorem seen_succ (hw : Nat → Nat) (n bit k : Nat) :
    Seen hw n bit (k + 1) ↔ (hw n % 2 ^ 32 &&& bit ≠ 0 ∨ Seen hw (n + 1) bit k) := by
  constructor
  · rintro ⟨j, hj, hb⟩
    cases j with
    | zero => left; simpa using hb
    | succ j =>
      right
      refine ⟨j, by omega, ?_⟩
      rw [show n + 1 + j = n + (j + 1) by omega]
      exact hb
  · rintro (hb | ⟨j, hj, hb⟩)
    · exact ⟨0, by omega, by simpa using hb⟩
    · refine ⟨j + 1, by omega, ?_⟩
      rw [show n + (j + 1) = n + 1 + j by omega]
      exact hb

theorem seen_mono (hw : Nat → Nat) (n bit k1 k2 : Nat) (hk : k1 ≤ k2) (h : Seen hw n bit k1) :
    Seen hw n bit k2 := by
  obtain ⟨j, hj, hb⟩ := h
  exact ⟨j, by omega, hb⟩

theorem completed_mono (hw : Nat → Nat) (n idx k1 k2 : Nat) (hk : k1 ≤ k2)
    (h : Completed hw n idx k1) : Completed hw n idx k2 :=
  ⟨seen_mono hw n _ k1 k2 hk h.1, fun hi => seen_mono hw n _ k1 k2 hk (h.2 hi)⟩

/-- What is pending after `k` polls, for each value `pending` can have. -/
theorem pending_after_spec (hw : Nat → Nat) :
    ∀ (k n : Nat),
      pending_after hw n 0 k = 0 ∧
      (pending_after hw n 4 k = 0 ↔ Seen hw n INT_CMD_DONE k) ∧
      (pending_after hw n 8 k = 0 ↔ Seen hw n INT_DTO k) ∧
      (pending_after hw n 12 k = 0 ↔ (Seen hw n INT_CMD_DONE k ∧ Seen hw n INT_DTO k)) := by
  intro k
  induction k with
  | zero =>
    intro n
    refine ⟨rfl, ?_, ?_, ?_⟩
    · simp [pending_after, seen_zero]
    · simp [pending_after, seen_zero]
    · simp [pending_after, seen_zero]
  | succ k ih =>
    intro n
    obtain ⟨i0, i4, i8, i12⟩ := ih (n + 1)
    have c0 : ∀ d, pending_clear d 0 = 0 := by
      intro d; unfold pending_clear; simp
    by_cases hd : hw n % 2 ^ 32 &&& INT_CMD_DONE ≠ 0
    · by_cases ht : hw n % 2 ^ 32 &&& INT_DTO ≠ 0
      · have e4 : pending_clear (hw n % 2 ^ 32) 4 = 0 := by
          unfold pending_clear; rw [if_pos ht, if_pos hd]; decide
        have e8 : pending_clear (hw n % 2 ^ 32) 8 = 0 := by
          unfold pending_clear; rw [if_pos ht, if_pos hd]; decide
        have e12 : pending_clear (hw n % 2 ^ 32) 12 = 0 := by
          unfold pending_clear; rw [if_pos ht, if_pos hd]; decide
        simp only [pending_after, c0, e4, e8, e12, i0, seen_succ, hd, ht, ne_eq,
          not_false_eq_true, true_or, and_self]
      · have e4 : pending_clear (hw n % 2 ^ 32) 4 = 0 := by
          unfold pending_clear; rw [if_neg ht, if_pos hd]; decide
        have e8 : pending_clear (hw n % 2 ^ 32) 8 = 8 := by
          unfold pending_clear; rw [if_neg ht, if_pos hd]; decide
        have e12 : pending_clear (hw n % 2 ^ 32) 12 = 8 := by
          unfold pending_clear; rw [if_neg ht, if_pos hd]; decide
        have ht0 : hw n % 2 ^ 32 &&& INT_DTO = 0 := by simpa using ht
        simp only [pending_after, c0, e4, e8, e12, i0, i8, seen_succ, hd, ht0, ne_eq,
          not_false_eq_true, true_or, not_true_eq_false, false_or, true_and]
    · have hd0 : hw n % 2 ^ 32 &&& INT_CMD_DONE = 0 := by simpa using hd
      by_cases ht : hw n % 2 ^ 32 &&& INT_DTO ≠ 0
      · have e4 : pending_clear (hw n % 2 ^ 32) 4 = 4 := by
          unfold pending_clear; rw [if_pos ht, if_neg hd]; decide
        have e8 : pending_clear (hw n % 2 ^ 32) 8 = 0 := by
          unfold pending_clear; rw [if_pos ht, if_neg hd]; decide
        have e12 : pending_clear (hw n % 2 ^ 32) 12 = 4 := by
          unfold pending_clear; rw [if_pos ht, if_neg hd]; decide
        simp only [pending_after, c0, e4, e8, e12, i0, i4, seen_succ, hd0, ht, ne_eq,
          not_false_eq_true, true_or, not_true_eq_false, false_or, and_true]
      · have ht0 : hw n % 2 ^ 32 &&& INT_DTO = 0 := by simpa using ht
        have e4 : pending_clear (hw n % 2 ^ 32) 4 = 4 := by
          unfold pending_clear; rw [if_neg ht, if_neg hd]
        have e8 : pending_clear (hw n % 2 ^ 32) 8 = 8 := by
          unfold pending_clear; rw [if_neg ht, if_neg hd]
        have e12 : pending_clear (hw n % 2 ^ 32) 12 = 12 := by
          unfold pending_clear; rw [if_neg ht, if_neg hd]
        simp only [pending_after, c0, e4, e8, e12, i0, i4, i8, i12, seen_succ, hd0, ht0,
          ne_eq, not_true_eq_false, false_or, and_self]


/-- The completion condition is that nothing is pending. -/
theorem pending_after_completed (hw : Nat → Nat) (n idx op k : Nat)
    (hop : op &&& CMD_DATA_TRANS_EXPECT ≠ 0 ↔ idx ∈ [8, 17, 18, 24, 25]) :
    pending_after hw n
      (INT_CMD_DONE ||| (if op &&& CMD_DATA_TRANS_EXPECT ≠ 0 then INT_DTO else 0)) k = 0 ↔
      Completed hw n idx k := by
  obtain ⟨_, i4, _, i12⟩ := pending_after_spec hw k n
  unfold Completed
  by_cases hdata : op &&& CMD_DATA_TRANS_EXPECT ≠ 0
  · rw [if_pos hdata, show INT_CMD_DONE ||| INT_DTO = 12 from by decide, i12]
    have hin := hop.1 hdata
    exact ⟨fun hh => ⟨hh.1, fun _ => hh.2⟩, fun hh => ⟨hh.1, hh.2 hin⟩⟩
  · rw [if_neg hdata, show INT_CMD_DONE ||| 0 = 4 from by decide, i4]
    have hnin := fun hi => hdata (hop.2 hi)
    exact ⟨fun hh => ⟨hh, fun hi => absurd hi hnin⟩, fun hh => hh.1⟩

/-- The flag DATA_TRANS_EXPECT of `op` is set exactly for the data-carrying
commands. -/
theorem dw_send_cmd_data_class (h : EmmcDefs) (no_dma : Bool) (idx rt op0 : Nat)
    (hc : dw_send_cmd_class no_dma idx = some op0) :
    dw_send_cmd_resp h rt (op0 ||| (CMD_USE_HOLD_REG ||| CMD_START)) &&&
        CMD_DATA_TRANS_EXPECT ≠ 0 ↔ idx ∈ [8, 17, 18, 24, 25] := by
  have hr : dw_send_cmd_resp h rt 0 &&& CMD_DATA_TRANS_EXPECT = 0 := by
    unfold dw_send_cmd_resp
    split
    · rfl
    · split
      · decide
      · split <;> decide
  rw [dw_send_cmd_resp_and, hr, Nat.or_zero]
  unfold dw_send_cmd_class at hc
  simp only [EMMC_CMD0, EMMC_CMD12, EMMC_CMD13, EMMC_CMD8, EMMC_CMD17, EMMC_CMD18, EMMC_CMD24,
    EMMC_CMD25] at hc
  simp only [List.mem_cons, List.mem_singleton, List.not_mem_nil, or_false]
  split at hc
  · injection hc with hc; subst hc
    constructor
    · intro hne; exact absurd (by decide) hne
    · intro hi; omega
  · split at hc
    · injection hc with hc; subst hc
      constructor
      · intro hne; exact absurd (by decide) hne
      · intro hi; omega
    · split at hc
      · injection hc with hc; subst hc
        constructor
        · intro hne; exact absurd (by decide) hne
        · intro hi; omega
      · split at hc
        · injection hc with hc; subst hc
          rename_i h8
          exact ⟨fun _ => by omega, fun _ => by decide⟩
        · split at hc
          · rename_i h24
            split at hc
            · cases hc
            · injection hc with hc; subst hc
              exact ⟨fun _ => by omega, fun _ => by decide⟩
          · injection hc with hc; subst hc
            constructor
            · intro hne; exact absurd (by decide) hne
            · intro hi; omega

theorem poll_events_append (hw : Nat → Nat) (base : Nat) :
    ∀ (k n : Nat), poll_events hw base n (k + 1) =
      poll_events hw base n k ++
        [.udelay 500, .rd (base + DWMMC_RINTSTS) (hw (n + k) % 2 ^ 32)] := by
  intro k
  induction k with
  | zero => intro n; simp [poll_events]
  | succ k ih =>
    intro n
    rw [poll_events, ih (n + 1)]
    simp only [poll_events, List.append_assoc, List.cons_append, List.nil_append]
    rw [show n + 1 + k = n + (k + 1) by omega]

/-- A completion loop in which nothing shows an error and the last thing pending
is cleared by poll `k + 1`, before the retry ceiling: it ends after exactly
`k + 1` polls. -/
theorem dw_send_cmd_poll_done (hw : Nat → Nat) (base : Nat) :
    ∀ (k t pending : Nat) (s : State),
      (∀ j, j < k + 1 → hw (s.nread + j) % 2 ^ 32 &&& err_mask = 0) →
      (∀ j, 1 ≤ j → j ≤ k → pending_after hw s.nread pending j ≠ 0) →
      pending_after hw s.nread pending (k + 1) = 0 → k + 1 ≤ t →
      ∃ s1, dw_send_cmd_poll hw base (t + 1) pending s = .ok none s1 ∧
        s1.nread = s.nread + (k + 1) ∧
        s1.trace = s.trace ++ poll_events hw base s.nread (k + 1) ∧ s1.desc = s.desc := by
  intro k
  induction k with
  | zero =>
    intro t pending s hne _ hdone ht
    rw [dw_send_cmd_poll_succ]
    have he := hne 0 (by omega)
    rw [Nat.add_zero] at he
    rw [show (s.log [.udelay 500]).nread = s.nread from rfl, dw_send_cmd_poll_step_clear _ _ he]
    simp only
    have hz : pending_clear (hw s.nread % 2 ^ 32) pending = 0 := hdone
    rw [if_neg (by omega), if_neg (not_not.2 hz)]
    exact ⟨_, rfl, rfl, by simp [State.afterRead, State.log, poll_events], rfl⟩
  | succ k ih =>
    intro t pending s hne hpend hdone ht
    rw [dw_send_cmd_poll_succ]
    have he := hne 0 (by omega)
    rw [Nat.add_zero] at he
    rw [show (s.log [.udelay 500]).nread = s.nread from rfl, dw_send_cmd_poll_step_clear _ _ he]
    simp only
    have hnz : pending_clear (hw s.nread % 2 ^ 32) pending ≠ 0 := hpend 1 (by omega) (by omega)
    rw [if_neg (by omega), if_pos hnz]
    obtain ⟨t1, rfl⟩ : ∃ t1, t = t1 + 1 := ⟨t - 1, by omega⟩
    obtain ⟨s1, hrun, hn, htr, hd⟩ := ih t1 (pending_clear (hw s.nread % 2 ^ 32) pending)
      ((s.log [.udelay 500]).afterRead hw (base + DWMMC_RINTSTS))
      (by
        intro j hj
        have := hne (j + 1) (by omega)
        rw [show s.nread + (j + 1) = s.nread + 1 + j by omega] at this
        exact this)
      (by
        intro j h1 hj
        exact hpend (j + 1) (by omega) (by omega))
      hdone (by omega)
    refine ⟨s1, hrun, ?_, ?_, hd⟩
    · rw [hn]; simp only [State.afterRead, State.log]; omega
    · rw [htr]
      simp only [State.afterRead, State.log, List.append_assoc, List.singleton_append]
      rw [poll_events.eq_2 hw base s.nread (k + 1)]

/-- A completion loop in which nothing shows an error and something is pending
after every poll before the last one allowed: it ends in `panic()` on the last
poll, whatever that poll shows. -/
theorem dw_send_cmd_poll_panic (hw : Nat → Nat) (base : Nat) :
    ∀ (t pending : Nat) (s : State),
      (∀ j, j < t + 1 → hw (s.nread + j) % 2 ^ 32 &&& err_mask = 0) →
      (∀ j, 1 ≤ j → j ≤ t → pending_after hw s.nread pending j ≠ 0) →
      ∃ s1, dw_send_cmd_poll hw base (t + 1) pending s = .fatal .panic s1 ∧
        s1.nread = s.nread + (t + 1) ∧
        s1.trace = s.trace ++ poll_events hw base s.nread (t + 1) ++
          [.error (hw (s.nread + t) % 2 ^ 32)] := by
  intro t
  induction t with
  | zero =>
    intro pending s hne _
    rw [dw_send_cmd_poll_succ]
    have he := hne 0 (by omega)
    rw [Nat.add_zero] at he
    rw [show (s.log [.udelay 500]).nread = s.nread from rfl, dw_send_cmd_poll_step_clear _ _ he]
    simp only [if_true]
    exact ⟨_, rfl, rfl, by simp [State.afterRead, State.log, poll_events]⟩
  | succ t ih =>
    intro pending s hne hpend
    rw [dw_send_cmd_poll_succ]
    have he := hne 0 (by omega)
    rw [Nat.add_zero] at he
    rw [show (s.log [.udelay 500]).nread = s.nread from rfl, dw_send_cmd_poll_step_clear _ _ he]
    simp only
    have hnz : pending_clear (hw s.nread % 2 ^ 32) pending ≠ 0 := hpend 1 (by omega) (by omega)
    rw [if_neg (by omega), if_pos hnz]
    obtain ⟨s1, hrun, hn, htr⟩ := ih (pending_clear (hw s.nread % 2 ^ 32) pending)
      ((s.log [.udelay 500]).afterRead hw (base + DWMMC_RINTSTS))
      (by
        intro j hj
        have := hne (j + 1) (by omega)
        rw [show s.nread + (j + 1) = s.nread + 1 + j by omega] at this
        exact this)
      (by
        intro j h1 hj
        exact hpend (j + 1) (by omega) (by omega))
    refine ⟨s1, hrun, ?_, ?_⟩
    · rw [hn]; simp only [State.afterRead, State.log]; omega
    · rw [htr]
      simp only [State.afterRead, State.log, List.append_assoc, List.singleton_append]
      rw [poll_events.eq_2 hw base s.nread (t + 1)]
      simp only [List.append_assoc, List.cons_append, List.nil_append, List.singleton_append]
      rw [show s.nread + 1 + t = s.nread + (t + 1) by omega]

/-- A run of `dw_send_cmd` whose busy wait ended: the three writes, then the
completion loop, then the response read-out. -/
theorem dw_send_cmd_dispatch (h : EmmcDefs) (no_dma : Bool) (p : dw_mmc_params_t)
    (hw : Nat → Nat) (cmd : emmc_cmd_t) (s sb : State) (op0 : Nat)
    (hc : dw_send_cmd_class no_dma cmd.cmd_idx = some op0)
    (hbusy : dw_send_cmd_busy hw p.reg_base TIMEOUT s = .ok () sb) :
    dw_send_cmd h no_dma p hw cmd s =
      match dw_send_cmd_poll hw p.reg_base TIMEOUT
          (INT_CMD_DONE ||| (if dw_send_cmd_resp h cmd.resp_type
            (op0 ||| (CMD_USE_HOLD_REG ||| CMD_START)) &&& CMD_DATA_TRANS_EXPECT ≠ 0
            then INT_DTO else 0))
          (sb.log (dispatch_events h p cmd op0)) with
      | .ok (some code) s3 => .ok (code, cmd) s3
      | .ok none s3 =>
        (match dw_send_cmd_read_resp hw p.reg_base
            (dw_send_cmd_resp h cmd.resp_type (op0 ||| (CMD_USE_HOLD_REG ||| CMD_START)))
            cmd s3 with
          | .ok c s4 => .ok (0, c) s4
          | .fatal f s4 => .fatal f s4)
      | .fatal f s3 => .fatal f s3 := by
  have hlog : ((((sb.log [Event.wr (p.reg_base + DWMMC_RINTSTS) ALL_ONES]).log
        [Event.wr (p.reg_base + DWMMC_CMDARG) cmd.cmd_arg]).log [Event.dsbsy]).log
        [Event.wr (p.reg_base + DWMMC_CMD)
          (dw_send_cmd_resp h cmd.resp_type (op0 ||| (CMD_USE_HOLD_REG ||| CMD_START)) |||
            cmd.cmd_idx)]) = sb.log (dispatch_events h p cmd op0) := by
    simp [State.log, dispatch_events]
  unfold dw_send_cmd
  rw [hc]
  simp only [bind_run]
  rw [hbusy]
  simp only [mmio_write_32, emit_run, bind_run]
  rw [hlog]
  generalize (sb.log (dispatch_events h p cmd op0)) = s2
  generalize (INT_CMD_DONE ||| if dw_send_cmd_resp h cmd.resp_type
        (op0 ||| (CMD_USE_HOLD_REG ||| CMD_START)) &&& CMD_DATA_TRANS_EXPECT ≠ 0
        then INT_DTO else 0) = pending
  cases dw_send_cmd_poll hw p.reg_base TIMEOUT pending s2 with
  | fatal f s3 => rfl
  | ok r s3 =>
    cases r with
    | some c => rfl
    | none =>
      simp only [bind_run]
      cases dw_send_cmd_read_resp hw p.reg_base
        (dw_send_cmd_resp h cmd.resp_type (op0 ||| (CMD_USE_HOLD_REG ||| CMD_START))) cmd s3 with
      | fatal f s4 => rfl
      | ok c4 s4 => rfl

/-- The response read-out always returns. -/
theorem dw_send_cmd_read_resp_ok (hw : Nat → Nat) (base op : Nat) (cmd : emmc_cmd_t)
    (s : State) : ∃ c s1, dw_send_cmd_read_resp hw base op cmd s = .ok c s1 := by
  rw [dw_send_cmd_read_resp_run]
  split
  · split
    · exact ⟨_, _, rfl⟩
    · exact ⟨_, _, rfl⟩
  · exact ⟨_, _, rfl⟩

/-- The completion of a dispatched command: success after exactly `k` polls
when the completion condition first holds at poll `k <= 99999`; `panic()` on
poll 100000 when it does not hold after 99999 polls. -/
theorem dw_send_cmd_completion_run (h : EmmcDefs) (no_dma : Bool) (p : dw_mmc_params_t)
    (hw : Nat → Nat) (cmd : emmc_cmd_t) (s sb : State) (op0 : Nat)
    (hc : dw_send_cmd_class no_dma cmd.cmd_idx = some op0)
    (hbusy : dw_send_cmd_busy hw p.reg_base TIMEOUT s = .ok () sb) (k : Nat)
    (hnoerr : ∀ j, j < k → hw (sb.nread + j) % 2 ^ 32 &&& err_mask = 0) :
    (1 ≤ k → k ≤ 99999 → Completed hw sb.nread cmd.cmd_idx k →
      (∀ k1, k1 < k → ¬ Completed hw sb.nread cmd.cmd_idx k1) →
      ∃ s3 cmd1 s1, dw_send_cmd h no_dma p hw cmd s = .ok (0, cmd1) s1 ∧
        s3.nread = sb.nread + k ∧
        s3.trace = sb.trace ++ dispatch_events h p cmd op0 ++
          poll_events hw p.reg_base sb.nread k ∧
        dw_send_cmd_read_resp hw p.reg_base
          (dw_send_cmd_resp h cmd.resp_type (op0 ||| (CMD_USE_HOLD_REG ||| CMD_START)))
          cmd s3 = .ok cmd1 s1) ∧
    (k = 100000 → ¬ Completed hw sb.nread cmd.cmd_idx 99999 →
      ∃ s1, dw_send_cmd h no_dma p hw cmd s = .fatal .panic s1 ∧
        s1.trace = sb.trace ++ dispatch_events h p cmd op0 ++
          poll_events hw p.reg_base sb.nread 100000 ++
          [.error (hw (sb.nread + 99999) % 2 ^ 32)]) := by
  have hdisp := dw_send_cmd_dispatch h no_dma p hw cmd s sb op0 hc hbusy
  have hdata := dw_send_cmd_data_class h no_dma cmd.cmd_idx cmd.resp_type op0 hc
  have hpend : ∀ j, pending_after hw sb.nread
      (INT_CMD_DONE ||| (if dw_send_cmd_resp h cmd.resp_type
        (op0 ||| (CMD_USE_HOLD_REG ||| CMD_START)) &&& CMD_DATA_TRANS_EXPECT ≠ 0
        then INT_DTO else 0)) j = 0 ↔ Completed hw sb.nread cmd.cmd_idx j :=
    fun j => pending_after_completed hw sb.nread cmd.cmd_idx _ j hdata
  constructor
  · intro h1 hk hdone hfirst
    obtain ⟨k0, rfl⟩ : ∃ k0, k = k0 + 1 := ⟨k - 1, by omega⟩
    obtain ⟨s3, hrun, hn, htr, _⟩ := dw_send_cmd_poll_done hw p.reg_base k0 99999 _
      (sb.log (dispatch_events h p cmd op0)) hnoerr
      (fun j _ hj hz => hfirst j (by omega) ((hpend j).1 hz))
      ((hpend (k0 + 1)).2 hdone) (by omega)
    rw [show (99999 + 1 : Nat) = TIMEOUT from rfl] at hrun
    obtain ⟨c, s1, hresp⟩ := dw_send_cmd_read_resp_ok hw p.reg_base
      (dw_send_cmd_resp h cmd.resp_type (op0 ||| (CMD_USE_HOLD_REG ||| CMD_START))) cmd s3
    refine ⟨s3, c, s1, ?_, hn, ?_, hresp⟩
    · rw [hdisp, hrun]
      simp only
      rw [hresp]
    · rw [htr]; rfl
  · intro hk hnot
    subst hk
    obtain ⟨s1, hrun, _, htr⟩ := dw_send_cmd_poll_panic hw p.reg_base 99999 _
      (sb.log (dispatch_events h p cmd op0)) hnoerr
      (fun j _ hj hz => hnot (completed_mono hw sb.nread cmd.cmd_idx j 99999 hj ((hpend j).1 hz)))
    rw [show (99999 + 1 : Nat) = TIMEOUT from rfl] at hrun
    refine ⟨s1, ?_, ?_⟩
    · rw [hdisp, hrun]
    · rw [htr]; rfl

/-- C21 as stated fails at the retry ceiling: on hardware that shows no error
bit and shows command-done on poll 100000, a command that is not data-carrying
meets the completion condition within 100000 polls, yet the call does not
return success: it ends in `panic()`. -/
theorem dw_send_cmd_completion_counterexample :
    (∀ j, 1 ≤ j → j ≤ 100000 → hwLate j % 2 ^ 32 &&& err_mask = 0) ∧
    hwLate 100000 % 2 ^ 32 &&& INT_CMD_DONE ≠ 0 ∧
    cmdGoIdle.cmd_idx ∉ [8, 17, 18, 24, 25] ∧
    (dw_send_cmd sampleDefs false sampleParams hwLate cmdGoIdle
      (State.start zeroDesc)).stopped = some .panic := by
  have herr : ∀ x, hwLate x % 2 ^ 32 &&& err_mask = 0 := by
    intro x
    unfold hwLate
    split <;> decide
  refine ⟨fun j _ _ => herr j, by decide, by decide, ?_⟩
  have hbusy : dw_send_cmd_busy hwLate sampleParams.reg_base TIMEOUT (State.start zeroDesc) =
      .ok () ((State.start zeroDesc).afterRead hwLate (sampleParams.reg_base + DWMMC_STATUS)) := by
    rw [show TIMEOUT = 99999 + 1 from rfl, dw_send_cmd_busy_succ]
    rfl
  have hnot : ¬ Completed hwLate
      ((State.start zeroDesc).afterRead hwLate (sampleParams.reg_base + DWMMC_STATUS)).nread
      cmdGoIdle.cmd_idx 99999 := by
    rintro ⟨⟨j, hj, hb⟩, _⟩
    have hn : ((State.start zeroDesc).afterRead hwLate
        (sampleParams.reg_base + DWMMC_STATUS)).nread = 1 := rfl
    rw [hn] at hb
    have h0 : hwLate (1 + j) = 0 := by
      unfold hwLate
      rw [if_neg (by omega)]
    rw [h0] at hb
    exact hb (by decide)
  obtain ⟨s1, hrun, _⟩ := (dw_send_cmd_completion_run sampleDefs false sampleParams hwLate
    cmdGoIdle (State.start zeroDesc) _ CMD_SEND_INIT rfl hbusy 100000
    (fun j _ => herr _)).2 rfl hnot
  rw [hrun]
  rfl

/-- C21, amended: in a call of `dw_send_cmd` whose busy wait ended, with the
RINTSTS words read by the completion polls taken from the read stream, provided
no poll up to `k` shows an error bit: the call returns 0 after exactly `k` polls
when `k <= 99999` is the first poll count at which command-done (bit 2) has been
seen and, for a data-carrying command only (CMD8/17/18/24/25), data-transfer-done
(bit 3) has been seen too; and when the condition does not hold after 99999
polls the call ends in `panic()` on poll 100000, whatever that poll shows. -/
theorem dw_send_cmd_completion (h : EmmcDefs) (no_dma : Bool) (p : dw_mmc_params_t)
    (hw : Nat → Nat) (cmd : emmc_cmd_t) (s sb : State) (op0 : Nat)
    (hc : dw_send_cmd_class no_dma cmd.cmd_idx = some op0)
    (hbusy : dw_send_cmd_busy hw p.reg_base TIMEOUT s = .ok () sb) (k : Nat)
    (hnoerr : ∀ j, j < k → hw (sb.nread + j) % 2 ^ 32 &&& err_mask = 0) :
    (1 ≤ k → k ≤ 99999 → Completed hw sb.nread cmd.cmd_idx k →
      (∀ k1, k1 < k → ¬ Completed hw sb.nread cmd.cmd_idx k1) →
      ∃ s3 cmd1 s1, dw_send_cmd h no_dma p hw cmd s = .ok (0, cmd1) s1 ∧
        s3.nread = sb.nread + k ∧
        s3.trace = sb.trace ++ dispatch_events h p cmd op0 ++
          poll_events hw p.reg_base sb.nread k ∧
        dw_send_cmd_read_resp hw p.reg_base
          (dw_send_cmd_resp h cmd.resp_type (op0 ||| (CMD_USE_HOLD_REG ||| CMD_START)))
          cmd s3 = .ok cmd1 s1) ∧
    (k = 100000 → ¬ Completed hw sb.nread cmd.cmd_idx 99999 →
      ∃ s1, dw_send_cmd h no_dma p hw cmd s = .fatal .panic s1 ∧
        s1.trace = sb.trace ++ dispatch_events h p cmd op0 ++
          poll_events hw p.reg_base sb.nread 100000 ++
          [.error (hw (sb.nread + 99999) % 2 ^ 32)]) :=
  dw_send_cmd_completion_run h no_dma p hw cmd s sb op0 hc hbusy k hnoerr

/-- C21, amended, at a concrete run: CMD0 on hardware that shows command-done
on the first poll returns 0 after one poll. -/
theorem dw_send_cmd_completion_witness :
    dw_send_cmd_class false cmdGoIdle.cmd_idx = some CMD_SEND_INIT ∧
    dw_send_cmd_busy hwDone sampleParams.reg_base TIMEOUT (State.start zeroDesc) =
      .ok () ((State.start zeroDesc).afterRead hwDone (sampleParams.reg_base + DWMMC_STATUS)) ∧
    ∃ s3 cmd1 s1,
      dw_send_cmd sampleDefs false sampleParams hwDone cmdGoIdle (State.start zeroDesc) =
        .ok (0, cmd1) s1 ∧
      s3.nread = 1 + 1 ∧
      s3.trace = [.rd (sampleParams.reg_base + DWMMC_STATUS) 4] ++
        dispatch_events sampleDefs sampleParams cmdGoIdle CMD_SEND_INIT ++
          poll_events hwDone sampleParams.reg_base 1 1 ∧
      dw_send_cmd_read_resp hwDone sampleParams.reg_base
        (dw_send_cmd_resp sampleDefs cmdGoIdle.resp_type
          (CMD_SEND_INIT ||| (CMD_USE_HOLD_REG ||| CMD_START))) cmdGoIdle s3 = .ok cmd1 s1 :=
  ⟨rfl, rfl,
   (dw_send_cmd_completion sampleDefs false sampleParams hwDone cmdGoIdle (State.start zeroDesc)
      ((State.start zeroDesc).afterRead hwDone (sampleParams.reg_base + DWMMC_STATUS))
      CMD_SEND_INIT rfl rfl 1
      (fun _ _ => (by decide : 4 % 2 ^ 32 &&& err_mask = 0))).1 (by decide) (by decide)
      ⟨⟨0, by decide, by decide⟩, fun hi => absurd hi (by decide)⟩
      (fun k1 hk1 hcm => by
        obtain ⟨⟨j, hj, _⟩, _⟩ := hcm
        omega)⟩

/-! ## `dw_send_cmd`: the register writes of a dispatch -/

theorem writes_status_events (hw : Nat → Nat) (base : Nat) :
    ∀ (k n : Nat), writes (status_events hw base n k) = [] := by
  intro k
  induction k with
  | zero => intro n; rfl
  | succ k ih => intro n; simp only [status_events, writes]; exact ih (n + 1)

theorem writes_poll_events (hw : Nat → Nat) (base : Nat) :
    ∀ (k n : Nat), writes (poll_events hw base n k) = [] := by
  intro k
  induction k with
  | zero => intro n; rfl
  | succ k ih =>
    intro n
    simp only [poll_events, List.cons_append, List.nil_append, writes]
    exact ih (n + 1)

/-- A busy wait that sees the controller not busy on read `k + 1`, before the
retry budget is used up: it ends after exactly `k + 1` reads of STATUS. -/
theorem dw_send_cmd_busy_done (hw : Nat → Nat) (base : Nat) :
    ∀ (k t : Nat) (s : State),
      (∀ j, j < k → hw (s.nread + j) % 2 ^ 32 &&& STATUS_DATA_BUSY ≠ 0) →
      hw (s.nread + k) % 2 ^ 32 &&& STATUS_DATA_BUSY = 0 → k + 1 ≤ t →
      ∃ s1, dw_send_cmd_busy hw base (t + 1) s = .ok () s1 ∧ s1.nread = s.nread + (k + 1) ∧
        s1.trace = s.trace ++ status_events hw base s.nread (k + 1) ∧ s1.desc = s.desc := by
  intro k
  induction k with
  | zero =>
    intro t s _ hclear ht
    rw [dw_send_cmd_busy_succ, if_neg (by omega)]
    rw [Nat.add_zero] at hclear
    rw [if_neg (not_not.2 hclear)]
    exact ⟨_, rfl, rfl, rfl, rfl⟩
  | succ k ih =>
    intro t s hbusy hclear ht
    rw [dw_send_cmd_busy_succ, if_neg (by omega)]
    have h0 := hbusy 0 (by omega)
    rw [Nat.add_zero] at h0
    rw [if_pos h0]
    obtain ⟨t1, rfl⟩ : ∃ t1, t = t1 + 1 := ⟨t - 1, by omega⟩
    obtain ⟨s1, hrun, hn, htr, hd⟩ := ih t1 (s.afterRead hw (base + DWMMC_STATUS))
      (by
        intro j hj
        have := hbusy (j + 1) (by omega)
        rw [show s.nread + (j + 1) = s.nread + 1 + j by omega] at this
        exact this)
      (by
        rw [show s.nread + (k + 1) = s.nread + 1 + k by omega] at hclear
        exact hclear)
      (by omega)
    refine ⟨s1, hrun, ?_, ?_, hd⟩
    · rw [hn]; simp only [State.afterRead]; omega
    · rw [htr]
      simp only [State.afterRead, List.append_assoc, List.singleton_append]
      rw [status_events.eq_2 hw base s.nread (k + 1)]

/-- A busy wait that sees the controller busy on every read before the last one
allowed: it ends in `panic()` on the last read, whatever that read shows. -/
theorem dw_send_cmd_busy_panic (hw : Nat → Nat) (base : Nat) :
    ∀ (t : Nat) (s : State),
      (∀ j, j < t → hw (s.nread + j) % 2 ^ 32 &&& STATUS_DATA_BUSY ≠ 0) →
      ∃ s1, dw_send_cmd_busy hw base (t + 1) s = .fatal .panic s1 ∧
        s1.trace = s.trace ++ status_events hw base s.nread (t + 1) := by
  intro t
  induction t with
  | zero =>
    intro s _
    rw [dw_send_cmd_busy_succ, if_pos rfl]
    exact ⟨_, rfl, rfl⟩
  | succ t ih =>
    intro s hbusy
    rw [dw_send_cmd_busy_succ, if_neg (by omega)]
    have h0 := hbusy 0 (by omega)
    rw [Nat.add_zero] at h0
    rw [if_pos h0]
    obtain ⟨s1, hrun, htr⟩ := ih (s.afterRead hw (base + DWMMC_STATUS))
      (by
        intro j hj
        have := hbusy (j + 1) (by omega)
        rw [show s.nread + (j + 1) = s.nread + 1 + j by omega] at this
        exact this)
    refine ⟨s1, hrun, ?_⟩
    rw [htr]
    simp only [State.afterRead, List.append_assoc, List.singleton_append]
    rw [status_events.eq_2 hw base s.nread (t + 1)]

/-- The completion loop only appends to the trace, and appends no register
write, however it ends. -/
theorem dw_send_cmd_poll_tail (hw : Nat → Nat) (base : Nat) :
    ∀ (t pending : Nat) (s : State),
      ∃ tail, (dw_send_cmd_poll hw base t pending s).state.trace = s.trace ++ tail ∧
        writes tail = [] := by
  intro t
  induction t with
  | zero =>
    intro pending s
    exact ⟨[], by simp [dw_send_cmd_poll, stop, Result.state], rfl⟩
  | succ t ih =>
    intro pending s
    rw [dw_send_cmd_poll_succ]
    split
    · exact ⟨[.udelay 500, .rd (base + DWMMC_RINTSTS) (hw s.nread % 2 ^ 32),
        .error (hw s.nread % 2 ^ 32)],
        by simp [Result.state, State.afterRead, State.log], rfl⟩
    · split
      · exact ⟨[.udelay 500, .rd (base + DWMMC_RINTSTS) (hw s.nread % 2 ^ 32),
          .error (hw s.nread % 2 ^ 32)],
          by simp [Result.state, State.afterRead, State.log], rfl⟩
      · split
        · rename_i pending2 _ _ _
          obtain ⟨tail, htr, hwr⟩ := ih pending2
            ((s.log [.udelay 500]).afterRead hw (base + DWMMC_RINTSTS))
          refine ⟨[.udelay 500, .rd (base + DWMMC_RINTSTS) (hw s.nread % 2 ^ 32)] ++ tail, ?_, ?_⟩
          · rw [htr]; simp [State.afterRead, State.log]
          · simp only [List.cons_append, List.nil_append, writes]; exact hwr
        · exact ⟨[.udelay 500, .rd (base + DWMMC_RINTSTS) (hw s.nread % 2 ^ 32)],
            by simp [Result.state, State.afterRead, State.log], rfl⟩

/-- The response read-out only appends to the trace, and appends no register
write. -/
theorem dw_send_cmd_read_resp_tail (hw : Nat → Nat) (base op : Nat) (cmd : emmc_cmd_t)
    (s : State) :
    ∃ tail, (dw_send_cmd_read_resp hw base op cmd s).state.trace = s.trace ++ tail ∧
      writes tail = [] := by
  rw [dw_send_cmd_read_resp_run]
  split
  · split
    · exact ⟨[.rd (base + DWMMC_RESP0) (hw s.nread % 2 ^ 32),
        .rd (base + DWMMC_RESP1) (hw (s.nread + 1) % 2 ^ 32),
        .rd (base + DWMMC_RESP2) (hw (s.nread + 1 + 1) % 2 ^ 32),
        .rd (base + DWMMC_RESP3) (hw (s.nread + 1 + 1 + 1) % 2 ^ 32)],
        by simp [Result.state, State.afterRead], rfl⟩
    · exact ⟨[.rd (base + DWMMC_RESP0) (hw s.nread % 2 ^ 32)],
        by simp [Result.state, State.afterRead], rfl⟩
  · exact ⟨[], by simp [Result.state], rfl⟩

/-- A busy wait that ends has seen the controller not busy on one of its first
99999 reads; its trace is the reads of STATUS up to the first such read. -/
theorem dw_send_cmd_busy_ok_reads (hw : Nat → Nat) (base : Nat) (s sb : State)
    (hbusy : dw_send_cmd_busy hw base TIMEOUT s = .ok () sb) :
    ∃ n, 1 ≤ n ∧ n ≤ 99999 ∧ hw (s.nread + (n - 1)) % 2 ^ 32 &&& STATUS_DATA_BUSY = 0 ∧
      sb.nread = s.nread + n ∧ sb.trace = s.trace ++ status_events hw base s.nread n := by
  have hex : ∃ j, j < 99999 ∧ hw (s.nread + j) % 2 ^ 32 &&& STATUS_DATA_BUSY = 0 := by
    by_contra hne
    push_neg at hne
    obtain ⟨s1, hrun, _⟩ := dw_send_cmd_busy_panic hw base 99999 s hne
    rw [show (99999 + 1 : Nat) = TIMEOUT from rfl, hbusy] at hrun
    cases hrun
  have hspec := Nat.find_spec hex
  have hmin : ∀ j, j < Nat.find hex → hw (s.nread + j) % 2 ^ 32 &&& STATUS_DATA_BUSY ≠ 0 := by
    intro j hj hz
    exact Nat.find_min hex hj ⟨by omega, hz⟩
  obtain ⟨s1, hrun, hn, htr, _⟩ := dw_send_cmd_busy_done hw base (Nat.find hex) 99999 s hmin
    hspec.2 (by omega)
  rw [show (99999 + 1 : Nat) = TIMEOUT from rfl, hbusy] at hrun
  injection hrun with _ hs
  subst hs
  exact ⟨Nat.find hex + 1, by omega, by omega, by simpa using hspec.2, hn, htr⟩

/-- The trace of a run of `dw_send_cmd` whose busy wait ended: the events of
lines 327-330 follow the busy wait, and nothing after them is a register
write. -/
theorem dw_send_cmd_dispatch_tail (h : EmmcDefs) (no_dma : Bool) (p : dw_mmc_params_t)
    (hw : Nat → Nat) (cmd : emmc_cmd_t) (s sb : State) (op0 : Nat)
    (hc : dw_send_cmd_class no_dma cmd.cmd_idx = some op0)
    (hbusy : dw_send_cmd_busy hw p.reg_base TIMEOUT s = .ok () sb) :
    ∃ tail, (dw_send_cmd h no_dma p hw cmd s).state.trace =
        sb.trace ++ dispatch_events h p cmd op0 ++ tail ∧ writes tail = [] := by
  rw [dw_send_cmd_dispatch h no_dma p hw cmd s sb op0 hc hbusy]
  obtain ⟨tail1, ht1, hw1⟩ := dw_send_cmd_poll_tail hw p.reg_base TIMEOUT
    (INT_CMD_DONE ||| (if dw_send_cmd_resp h cmd.resp_type
      (op0 ||| (CMD_USE_HOLD_REG ||| CMD_START)) &&& CMD_DATA_TRANS_EXPECT ≠ 0
      then INT_DTO else 0))
    (sb.log (dispatch_events h p cmd op0))
  cases hp : dw_send_cmd_poll hw p.reg_base TIMEOUT
    (INT_CMD_DONE ||| (if dw_send_cmd_resp h cmd.resp_type
      (op0 ||| (CMD_USE_HOLD_REG ||| CMD_START)) &&& CMD_DATA_TRANS_EXPECT ≠ 0
      then INT_DTO else 0))
    (sb.log (dispatch_events h p cmd op0)) with
  | fatal f s3 =>
    rw [hp] at ht1
    exact ⟨tail1, ht1, hw1⟩
  | ok r s3 =>
    rw [hp] at ht1
    simp only [Result.state] at ht1
    cases r with
    | some c => exact ⟨tail1, ht1, hw1⟩
    | none =>
      simp only
      obtain ⟨tail2, ht2, hw2⟩ := dw_send_cmd_read_resp_tail hw p.reg_base
        (dw_send_cmd_resp h cmd.resp_type (op0 ||| (CMD_USE_HOLD_REG ||| CMD_START))) cmd s3
      refine ⟨tail1 ++ tail2, ?_, by rw [writes_append, hw1, hw2]; rfl⟩
      cases hr : dw_send_cmd_read_resp hw p.reg_base
        (dw_send_cmd_resp h cmd.resp_type (op0 ||| (CMD_USE_HOLD_REG ||| CMD_START))) cmd s3 with
      | fatal f s4 =>
        rw [hr] at ht2
        simp only [Result.state] at ht2 ⊢
        rw [ht2, ht1]
        simp [State.log]
      | ok c4 s4 =>
        rw [hr] at ht2
        simp only [Result.state] at ht2 ⊢
        rw [ht2, ht1]
        simp [State.log]

/-- C22: for every dispatch by `dw_send_cmd` (a command the first `switch` gives
class flags), the busy wait ends exactly when one of its first 99999 reads of
STATUS shows the data-busy bit clear; when it ends, the trace of the whole call
is the reads of STATUS, then RINTSTS <- 0xFFFFFFFF, CMDARG <- the argument, the
barrier, CMD <- flags | index, then a tail without any register write, so the
register writes of the call are exactly these three in this order; when the busy
wait uses up its budget the call ends in `panic()` having made 100000 reads of
STATUS and no write at all. -/
theorem dw_send_cmd_three_writes (h : EmmcDefs) (no_dma : Bool) (p : dw_mmc_params_t)
    (hw : Nat → Nat) (cmd : emmc_cmd_t) (s : State) (op0 : Nat)
    (hc : dw_send_cmd_class no_dma cmd.cmd_idx = some op0) :
    ((∃ sb, dw_send_cmd_busy hw p.reg_base TIMEOUT s = .ok () sb) ↔
      ∃ j, j < 99999 ∧ hw (s.nread + j) % 2 ^ 32 &&& STATUS_DATA_BUSY = 0) ∧
    (∀ sb, dw_send_cmd_busy hw p.reg_base TIMEOUT s = .ok () sb →
      ∃ n tail, 1 ≤ n ∧ n ≤ 99999 ∧
        (dw_send_cmd h no_dma p hw cmd s).state.trace =
          s.trace ++ status_events hw p.reg_base s.nread n ++ dispatch_events h p cmd op0 ++
            tail ∧
        writes (status_events hw p.reg_base s.nread n) = [] ∧ writes tail = [] ∧
        writes (dw_send_cmd h no_dma p hw cmd s).state.trace =
          writes s.trace ++
            [(p.reg_base + DWMMC_RINTSTS, 0xFFFFFFFF), (p.reg_base + DWMMC_CMDARG, cmd.cmd_arg),
             (p.reg_base + DWMMC_CMD,
              dw_send_cmd_resp h cmd.resp_type (op0 ||| (CMD_USE_HOLD_REG ||| CMD_START)) |||
                cmd.cmd_idx)]) ∧
    ((∀ j, j < 99999 → hw (s.nread + j) % 2 ^ 32 &&& STATUS_DATA_BUSY ≠ 0) →
      ∃ s1, dw_send_cmd h no_dma p hw cmd s = .fatal .panic s1 ∧
        s1.trace = s.trace ++ status_events hw p.reg_base s.nread 100000 ∧
        writes s1.trace = writes s.trace) := by
  refine ⟨⟨?_, ?_⟩, ?_, ?_⟩
  · rintro ⟨sb, hbusy⟩
    obtain ⟨n, h1, hn, hclear, _, _⟩ := dw_send_cmd_busy_ok_reads hw p.reg_base s sb hbusy
    exact ⟨n - 1, by omega, hclear⟩
  · intro hex
    have hspec := Nat.find_spec hex
    have hmin : ∀ j, j < Nat.find hex →
        hw (s.nread + j) % 2 ^ 32 &&& STATUS_DATA_BUSY ≠ 0 := by
      intro j hj hz
      exact Nat.find_min hex hj ⟨by omega, hz⟩
    obtain ⟨s1, hrun, _⟩ := dw_send_cmd_busy_done hw p.reg_base (Nat.find hex) 99999 s hmin
      hspec.2 (by omega)
    exact ⟨s1, hrun⟩
  · intro sb hbusy
    obtain ⟨n, h1, hn, _, _, htr⟩ := dw_send_cmd_busy_ok_reads hw p.reg_base s sb hbusy
    obtain ⟨tail, htail, hwt⟩ := dw_send_cmd_dispatch_tail h no_dma p hw cmd s sb op0 hc hbusy
    refine ⟨n, tail, h1, hn, ?_, writes_status_events hw p.reg_base n s.nread, hwt, ?_⟩
    · rw [htail, htr]
    · rw [htail, htr]
      simp only [writes_append, writes_status_events, hwt, List.append_nil]
      rfl
  · intro hall
    obtain ⟨s1, hrun, htr⟩ := dw_send_cmd_busy_panic hw p.reg_base 99999 s hall
    rw [show (99999 + 1 : Nat) = TIMEOUT from rfl] at hrun
    refine ⟨s1, ?_, htr, ?_⟩
    · unfold dw_send_cmd
      rw [hc]
      simp only [bind_run]
      rw [hrun]
    · rw [htr, writes_append, writes_status_events, List.append_nil]

set_option maxRecDepth 100000 in
/-- C22, at a concrete run: CMD0 on hardware that is never busy. -/
theorem dw_send_cmd_three_writes_witness :
    dw_send_cmd_class false cmdGoIdle.cmd_idx = some CMD_SEND_INIT ∧
    ((∃ sb, dw_send_cmd_busy hwDone sampleParams.reg_base TIMEOUT (State.start zeroDesc) =
        .ok () sb) ↔
      ∃ j, j < 99999 ∧
        hwDone ((State.start zeroDesc).nread + j) % 2 ^ 32 &&& STATUS_DATA_BUSY = 0) ∧
    writes (dw_send_cmd sampleDefs false sampleParams hwDone cmdGoIdle
        (State.start zeroDesc)).state.trace =
      [(sampleParams.reg_base + DWMMC_RINTSTS, 0xFFFFFFFF),
       (sampleParams.reg_base + DWMMC_CMDARG, 0),
       (sampleParams.reg_base + DWMMC_CMD, 0xA0008000)] :=
  ⟨rfl,
   (dw_send_cmd_three_writes sampleDefs false sampleParams hwDone cmdGoIdle
      (State.start zeroDesc) CMD_SEND_INIT rfl).1,
   by decide⟩

/-! ## The update-clock handshake -/

/-- One iteration of the polling of `dw_update_clk`, as a run. -/
theorem dw_update_clk_poll_succ (hw : Nat → Nat) (base n : Nat) (s : State) :
    dw_update_clk_poll hw base (n + 1) s =
      if hw s.nread % 2 ^ 32 &&& CMD_START = 0 then .ok () (s.afterRead hw (base + DWMMC_CMD))
      else if hw (s.nread + 1) % 2 ^ 32 &&& INT_HLE ≠ 0 then
        dw_update_clk_poll hw base n
          (((s.afterRead hw (base + DWMMC_CMD)).afterRead hw (base + DWMMC_RINTSTS)).log
            [.wr (base + DWMMC_RINTSTS) INT_HLE, .wr (base + DWMMC_CMD) UPDATE_CLK_CMD])
      else
        dw_update_clk_poll hw base n
          ((s.afterRead hw (base + DWMMC_CMD)).afterRead hw (base + DWMMC_RINTSTS)) := by
  simp only [dw_update_clk_poll, bind_run, mmio_read_32, mmio_write_32, emit, State.afterRead,
    State.log]
  by_cases h0 : hw s.nread % 2 ^ 32 &&& CMD_START = 0
  · simp only [if_pos h0, pure_run]
  · simp only [if_neg h0, bind_run, mmio_read_32]
    by_cases h1 : hw (s.nread + 1) % 2 ^ 32 &&& INT_HLE ≠ 0
    · simp only [if_pos h1, bind_run, emit, List.append_assoc, List.singleton_append,
        List.cons_append, List.nil_append]
    · simp only [if_neg h1]

theorem update_clk_cmd_value : UPDATE_CLK_CMD = 0x80202000 := by decide

/-- A handshake polling in which CMD shows START set on the first `j` rounds and
clear on the next read, with fuel left: it returns after exactly `j` rounds. -/
theorem dw_update_clk_poll_done (hw : Nat → Nat) (base : Nat) :
    ∀ (j fuel : Nat) (s : State),
      (∀ i, i < j → hw (s.nread + 2 * i) % 2 ^ 32 &&& CMD_START ≠ 0) →
      hw (s.nread + 2 * j) % 2 ^ 32 &&& CMD_START = 0 → j < fuel →
      ∃ s1, dw_update_clk_poll hw base fuel s = .ok () s1 ∧ s1.nread = s.nread + 2 * j + 1 ∧
        s1.trace = s.trace ++ (handshake_rounds base (stream_rounds hw s.nread j) ++
          [.rd (base + DWMMC_CMD) (hw (s.nread + 2 * j) % 2 ^ 32)]) ∧ s1.desc = s.desc := by
  intro j
  induction j with
  | zero =>
    intro fuel s _ hclear hf
    obtain ⟨n, rfl⟩ : ∃ n, fuel = n + 1 := ⟨fuel - 1, by omega⟩
    rw [Nat.mul_zero, Nat.add_zero] at hclear
    rw [dw_update_clk_poll_succ, if_pos hclear]
    exact ⟨_, rfl, rfl, by simp [State.afterRead, stream_rounds, handshake_rounds], rfl⟩
  | succ j ih =>
    intro fuel s hset hclear hf
    obtain ⟨n, rfl⟩ : ∃ n, fuel = n + 1 := ⟨fuel - 1, by omega⟩
    have h0 := hset 0 (by omega)
    rw [Nat.mul_zero, Nat.add_zero] at h0
    rw [dw_update_clk_poll_succ, if_neg h0]
    have hset1 : ∀ (s2 : State), s2.nread = s.nread + 2 →
        ∀ i, i < j → hw (s2.nread + 2 * i) % 2 ^ 32 &&& CMD_START ≠ 0 := by
      intro s2 hn i hi
      have := hset (i + 1) (by omega)
      rw [show s.nread + 2 * (i + 1) = s.nread + 2 + 2 * i by omega] at this
      rw [hn]; exact this
    have hclear1 : ∀ (s2 : State), s2.nread = s.nread + 2 →
        hw (s2.nread + 2 * j) % 2 ^ 32 &&& CMD_START = 0 := by
      intro s2 hn
      rw [show s.nread + 2 * (j + 1) = s.nread + 2 + 2 * j by omega] at hclear
      rw [hn]; exact hclear
    by_cases h1 : hw (s.nread + 1) % 2 ^ 32 &&& INT_HLE ≠ 0
    · rw [if_pos h1]
      obtain ⟨s1, hrun, hn, htr, hd⟩ := ih n
        (((s.afterRead hw (base + DWMMC_CMD)).afterRead hw (base + DWMMC_RINTSTS)).log
          [.wr (base + DWMMC_RINTSTS) INT_HLE, .wr (base + DWMMC_CMD) UPDATE_CLK_CMD])
        (hset1 _ rfl) (hclear1 _ rfl) (by omega)
      refine ⟨s1, hrun, ?_, ?_, hd⟩
      · rw [hn]; simp only [State.afterRead, State.log]; omega
      · rw [htr]
        simp only [State.afterRead, State.log, stream_rounds, handshake_rounds, handshake_round,
          if_pos h1, List.append_assoc, List.singleton_append, List.cons_append,
          List.nil_append]
        rw [show s.nread + 1 + 1 = s.nread + 2 by omega,
          show s.nread + 2 + 2 * j = s.nread + 2 * (j + 1) by omega]
        rfl
    · rw [if_neg h1]
      obtain ⟨s1, hrun, hn, htr, hd⟩ := ih n
        ((s.afterRead hw (base + DWMMC_CMD)).afterRead hw (base + DWMMC_RINTSTS))
        (hset1 _ rfl) (hclear1 _ rfl) (by omega)
      refine ⟨s1, hrun, ?_, ?_, hd⟩
      · rw [hn]; simp only [State.afterRead]; omega
      · rw [htr]
        simp only [State.afterRead, stream_rounds, handshake_rounds, handshake_round,
          if_neg h1, List.append_assoc, List.singleton_append, List.cons_append,
          List.nil_append, List.append_nil]
        rw [show s.nread + 1 + 1 = s.nread + 2 by omega,
          show s.nread + 2 + 2 * j = s.nread + 2 * (j + 1) by omega]

/-- A handshake polling in which CMD shows START set on every round the fuel
allows does not return. -/
theorem dw_update_clk_poll_fuel (hw : Nat → Nat) (base : Nat) :
    ∀ (fuel : Nat) (s : State),
      (∀ i, i < fuel → hw (s.nread + 2 * i) % 2 ^ 32 &&& CMD_START ≠ 0) →
      ∃ s1, dw_update_clk_poll hw base fuel s = .fatal .fuel s1 := by
  intro fuel
  induction fuel with
  | zero => intro s _; exact ⟨s, rfl⟩
  | succ n ih =>
    intro s hset
    have h0 := hset 0 (by omega)
    rw [Nat.mul_zero, Nat.add_zero] at h0
    rw [dw_update_clk_poll_succ, if_neg h0]
    have hset1 : ∀ (s2 : State), s2.nread = s.nread + 2 →
        ∀ i, i < n → hw (s2.nread + 2 * i) % 2 ^ 32 &&& CMD_START ≠ 0 := by
      intro s2 hn i hi
      have := hset (i + 1) (by omega)
      rw [show s.nread + 2 * (i + 1) = s.nread + 2 + 2 * i by omega] at this
      rw [hn]; exact this
    split
    · exact ih _ (hset1 _ rfl)
    · exact ih _ (hset1 _ rfl)

theorem stream_rounds_start (hw : Nat → Nat) :
    ∀ (j n : Nat), (∀ i, i < j → hw (n + 2 * i) % 2 ^ 32 &&& CMD_START ≠ 0) →
      ∀ r ∈ stream_rounds hw n j, r.1 &&& CMD_START ≠ 0 := by
  intro j
  induction j with
  | zero => intro n _ r hr; simp [stream_rounds] at hr
  | succ j ih =>
    intro n hset r hr
    simp only [stream_rounds, List.mem_cons] at hr
    rcases hr with rfl | hr
    · have := hset 0 (by omega)
      simpa using this
    · refine ih (n + 2) ?_ r hr
      intro i hi
      have := hset (i + 1) (by omega)
      rw [show n + 2 * (i + 1) = n + 2 + 2 * i by omega] at this
      exact this

/-- A run of `dw_update_clk` that returns: its trace is a handshake whose rounds
are read from the stream. -/
theorem dw_update_clk_ok (p : dw_mmc_params_t) (hw : Nat → Nat) (fuel : Nat) (s s1 : State)
    (hrun : dw_update_clk p hw fuel s = .ok () s1) :
    ∃ j, j < fuel ∧ (∀ i, i < j → hw (s.nread + 2 * i) % 2 ^ 32 &&& CMD_START ≠ 0) ∧
      hw (s.nread + 2 * j) % 2 ^ 32 &&& CMD_START = 0 ∧
      s1.nread = s.nread + 2 * j + 1 ∧
      s1.trace = s.trace ++ handshake_events p.reg_base (stream_rounds hw s.nread j)
        (hw (s.nread + 2 * j) % 2 ^ 32) := by
  unfold dw_update_clk at hrun
  simp only [bind_run, mmio_write_32, emit_run] at hrun
  have hex : ∃ j, j < fuel ∧ hw (s.nread + 2 * j) % 2 ^ 32 &&& CMD_START = 0 := by
    by_contra hne
    push_neg at hne
    obtain ⟨s2, hf⟩ := dw_update_clk_poll_fuel hw p.reg_base fuel
      (s.log [.wr (p.reg_base + DWMMC_CMD) UPDATE_CLK_CMD]) hne
    rw [hf] at hrun
    cases hrun
  have hspec := Nat.find_spec hex
  have hmin : ∀ i, i < Nat.find hex → hw (s.nread + 2 * i) % 2 ^ 32 &&& CMD_START ≠ 0 := by
    intro i hi hz
    exact Nat.find_min hex hi ⟨by omega, hz⟩
  obtain ⟨s2, hrun2, hn, htr, _⟩ := dw_update_clk_poll_done hw p.reg_base (Nat.find hex) fuel
    (s.log [.wr (p.reg_base + DWMMC_CMD) UPDATE_CLK_CMD]) hmin hspec.2 hspec.1
  rw [hrun2] at hrun
  injection hrun with _ hs
  subst hs
  refine ⟨Nat.find hex, hspec.1, hmin, hspec.2, hn, ?_⟩
  rw [htr]
  simp only [State.log, handshake_events, update_clk_cmd_value, List.append_assoc,
    List.singleton_append]

theorem stream_rounds_length (hw : Nat → Nat) :
    ∀ (j n : Nat), (stream_rounds hw n j).length = j := by
  intro j
  induction j with
  | zero => intro n; rfl
  | succ j ih => intro n; simp [stream_rounds, ih]

/-- The register writes of a handshake: the command word to CMD and the bit-12
mask to RINTSTS, nothing else. -/
theorem handshake_rounds_writes (base : Nat) :
    ∀ (rounds : List (Nat × Nat)) (a v : Nat),
      Event.wr a v ∈ handshake_rounds base rounds →
      (a = base + DWMMC_CMD ∧ v = 0x80202000) ∨ (a = base + DWMMC_RINTSTS ∧ v = 1 <<< 12) := by
  intro rounds
  induction rounds with
  | nil => intro a v hm; simp [handshake_rounds] at hm
  | cons r rs ih =>
    intro a v hm
    simp only [handshake_rounds, List.mem_append] at hm
    rcases hm with hm | hm
    · unfold handshake_round at hm
      split at hm
      · simp only [List.cons_append, List.nil_append, List.mem_cons, Event.wr.injEq,
          List.mem_singleton, List.not_mem_nil, or_false] at hm
        rcases hm with hm | hm | hm | hm
        · cases hm
        · cases hm
        · exact Or.inr hm
        · exact Or.inl hm
      · simp only [List.append_nil, List.mem_cons, List.mem_singleton, List.not_mem_nil,
          or_false] at hm
        rcases hm with hm | hm <;> cases hm
    · exact ih a v hm

theorem handshake_events_writes (base : Nat) (rounds : List (Nat × Nat)) (last a v : Nat)
    (hm : Event.wr a v ∈ handshake_events base rounds last) :
    (a = base + DWMMC_CMD ∧ v = 0x80202000) ∨ (a = base + DWMMC_RINTSTS ∧ v = 1 <<< 12) := by
  unfold handshake_events at hm
  rcases List.mem_cons.1 hm with hm | hm
  · injection hm with ha hv
    exact Or.inl ⟨ha, hv⟩
  · rcases List.mem_append.1 hm with hm | hm
    · exact handshake_rounds_writes base rounds a v hm
    · rcases List.mem_cons.1 hm with hm | hm
      · cases hm
      · cases hm

theorem cmds_issued_append (base : Nat) (l1 l2 : List Event) :
    cmds_issued base (l1 ++ l2) = cmds_issued base l1 + cmds_issued base l2 := by
  unfold cmds_issued
  rw [writes_append, List.filter_append, List.length_append]

theorem cmds_issued_round (base : Nat) (r : Nat × Nat) :
    cmds_issued base (handshake_round base r) = if r.2 &&& INT_HLE ≠ 0 then 1 else 0 := by
  have hne : ¬ (base + DWMMC_RINTSTS = base + DWMMC_CMD) := by
    simp only [DWMMC_RINTSTS, DWMMC_CMD]; omega
  unfold cmds_issued handshake_round
  by_cases hh : r.2 &&& INT_HLE ≠ 0
  · rw [if_pos hh, if_pos hh]
    show (List.filter (fun w => decide (w.1 = base + DWMMC_CMD))
      [(base + DWMMC_RINTSTS, 1 <<< 12), (base + DWMMC_CMD, 0x80202000)]).length = 1
    rw [List.filter_cons_of_neg (by simpa using hne), List.filter_cons_of_pos (by simp)]
    rfl
  · rw [if_neg hh, if_neg hh]
    rfl

theorem hle_handled_cons (r : Nat × Nat) (rs : List (Nat × Nat)) :
    hle_handled (r :: rs) = (if r.2 &&& INT_HLE ≠ 0 then 1 else 0) + hle_handled rs := by
  unfold hle_handled
  by_cases hh : r.2 &&& INT_HLE ≠ 0
  · rw [List.filter_cons_of_pos (by simpa using hh), if_pos hh, List.length_cons]
    omega
  · rw [List.filter_cons_of_neg (by simpa using hh), if_neg hh]
    omega

/-- The commands issued in the rounds of a handshake: one for each
hardware-lock error. -/
theorem cmds_issued_rounds (base : Nat) :
    ∀ (rounds : List (Nat × Nat)),
      cmds_issued base (handshake_rounds base rounds) = hle_handled rounds := by
  intro rounds
  induction rounds with
  | nil => rfl
  | cons r rs ih =>
    rw [handshake_rounds, cmds_issued_append, cmds_issued_round, ih, hle_handled_cons]

/-- The number of commands a handshake issues is one more than the number of
hardware-lock errors it handles. -/
theorem cmds_issued_handshake (base : Nat) (rounds : List (Nat × Nat)) (last : Nat) :
    cmds_issued base (handshake_events base rounds last) = hle_handled rounds + 1 := by
  have h1 : handshake_events base rounds last =
      [.wr (base + DWMMC_CMD) 0x80202000] ++
        (handshake_rounds base rounds ++ [.rd (base + DWMMC_CMD) last]) := rfl
  rw [h1, cmds_issued_append, cmds_issued_append, cmds_issued_rounds]
  have h2 : cmds_issued base [.wr (base + DWMMC_CMD) 0x80202000] = 1 := by
    unfold cmds_issued
    show (List.filter (fun w => decide (w.1 = base + DWMMC_CMD))
      [(base + DWMMC_CMD, 0x80202000)]).length = 1
    rw [List.filter_cons_of_pos (by simp)]
    rfl
  have h3 : cmds_issued base [.rd (base + DWMMC_CMD) last] = 0 := rfl
  rw [h2, h3]
  omega

/-- C24: in `dw_update_clk`, every value written to CMD is 0x80202000
(WAIT_PRVDATA_COMPLETE, UPDATE_CLK_ONLY and START); the handshake returns
exactly when a read of CMD shows START clear (reads of CMD are every second word
of the read stream); and the trace of a returning handshake is: the command
issued, then for each read of CMD that shows START set a read of RINTSTS
followed, exactly when it shows bit 12, by the write of the bit-12 mask to
RINTSTS and the command issued again, then the read of CMD that shows START
clear; so the number of commands issued is one more than the number of
hardware-lock errors handled. -/
theorem dw_update_clk_handshake (p : dw_mmc_params_t) (hw : Nat → Nat) (fuel : Nat)
    (s : State) :
    (CMD_WAIT_PRVDATA_COMPLETE ||| CMD_UPDATE_CLK_ONLY ||| CMD_START = 0x80202000 ∧
      CMD_WAIT_PRVDATA_COMPLETE = 1 <<< 13 ∧ CMD_UPDATE_CLK_ONLY = 1 <<< 21 ∧
      CMD_START = 1 <<< 31) ∧
    (∀ v, Event.wr (p.reg_base + DWMMC_CMD) v ∈ (dw_update_clk p hw fuel s).state.trace →
      Event.wr (p.reg_base + DWMMC_CMD) v ∈ s.trace ∨ v = 0x80202000) ∧
    ((∃ s1, dw_update_clk p hw fuel s = .ok () s1) ↔
      ∃ j, j < fuel ∧ hw (s.nread + 2 * j) % 2 ^ 32 &&& CMD_START = 0) ∧
    (∀ s1, dw_update_clk p hw fuel s = .ok () s1 →
      ∃ rounds last, s1.trace = s.trace ++ handshake_events p.reg_base rounds last ∧
        rounds = stream_rounds hw s.nread rounds.length ∧
        last = hw (s.nread + 2 * rounds.length) % 2 ^ 32 ∧
        (∀ r ∈ rounds, r.1 &&& CMD_START ≠ 0) ∧ last &&& CMD_START = 0 ∧
        (∀ a v, Event.wr a v ∈ handshake_events p.reg_base rounds last →
          (a = p.reg_base + DWMMC_CMD ∧ v = 0x80202000) ∨
          (a = p.reg_base + DWMMC_RINTSTS ∧ v = 1 <<< 12)) ∧
        cmds_issued p.reg_base (handshake_events p.reg_base rounds last) =
          hle_handled rounds + 1) := by
  refine ⟨⟨by decide, rfl, rfl, rfl⟩, ?_, ⟨?_, ?_⟩, ?_⟩
  · intro v hm
    have hinv := traceInv_update_clk
      (fun a w => Event.wr a w ∈ s.trace ∨
        (a = p.reg_base + DWMMC_CMD ∧ w = 0x80202000) ∨ a = p.reg_base + DWMMC_RINTSTS)
      p hw fuel (Or.inr (Or.inr rfl)) (Or.inr (Or.inl ⟨rfl, update_clk_cmd_value⟩)) s
      (fun a w hin => Or.inl hin)
    rcases hinv _ _ hm with h1 | ⟨_, h2⟩ | h3
    · exact Or.inl h1
    · exact Or.inr h2
    · simp only [DWMMC_CMD, DWMMC_RINTSTS] at h3
      omega
  · rintro ⟨s1, hrun⟩
    obtain ⟨j, hj, _, hclear, _, _⟩ := dw_update_clk_ok p hw fuel s s1 hrun
    exact ⟨j, hj, hclear⟩
  · intro hex
    have hspec := Nat.find_spec hex
    have hmin : ∀ i, i < Nat.find hex → hw (s.nread + 2 * i) % 2 ^ 32 &&& CMD_START ≠ 0 := by
      intro i hi hz
      exact Nat.find_min hex hi ⟨by omega, hz⟩
    obtain ⟨s2, hrun2, _⟩ := dw_update_clk_poll_done hw p.reg_base (Nat.find hex) fuel
      (s.log [.wr (p.reg_base + DWMMC_CMD) UPDATE_CLK_CMD]) hmin hspec.2 hspec.1
    refine ⟨s2, ?_⟩
    unfold dw_update_clk
    simp only [bind_run, mmio_write_32, emit_run]
    exact hrun2
  · intro s1 hrun
    obtain ⟨j, _, hset, hclear, _, htr⟩ := dw_update_clk_ok p hw fuel s s1 hrun
    have hlen := stream_rounds_length hw j s.nread
    refine ⟨stream_rounds hw s.nread j, hw (s.nread + 2 * j) % 2 ^ 32, htr, ?_, ?_,
      stream_rounds_start hw j s.nread hset, hclear,
      fun a v hm => handshake_events_writes _ _ _ a v hm, cmds_issued_handshake _ _ _⟩
    · rw [hlen]
    · rw [hlen]

set_option maxRecDepth 100000 in
/-- C24, at a concrete run: one hardware-lock error, two commands issued. -/
theorem dw_update_clk_handshake_witness :
    (dw_update_clk sampleParams hwHle 5 (State.start zeroDesc)).state.trace =
      [.wr (sampleParams.reg_base + DWMMC_CMD) 0x80202000,
       .rd (sampleParams.reg_base + DWMMC_CMD) 0x80000000,
       .rd (sampleParams.reg_base + DWMMC_RINTSTS) 0x1000,
       .wr (sampleParams.reg_base + DWMMC_RINTSTS) 0x1000,
       .wr (sampleParams.reg_base + DWMMC_CMD) 0x80202000,
       .rd (sampleParams.reg_base + DWMMC_CMD) 0] ∧
    ((∃ s1, dw_update_clk sampleParams hwHle 5 (State.start zeroDesc) = .ok () s1) ↔
      ∃ j, j < 5 ∧ hwHle ((State.start zeroDesc).nread + 2 * j) % 2 ^ 32 &&& CMD_START = 0) :=
  ⟨by decide, (dw_update_clk_handshake sampleParams hwHle 5 (State.start zeroDesc)).2.2.1⟩
/-! ## `dw_set_clk`: the order of the clock change -/

theorem clock_writes_append (base : Nat) (l1 l2 : List Event) :
    clock_writes base (l1 ++ l2) = clock_writes base l1 ++ clock_writes base l2 := by
  unfold clock_writes
  rw [writes_append, List.filter_append]

theorem clock_writes_status (hw : Nat → Nat) (base n k : Nat) :
    clock_writes base (status_events hw base n k) = [] := by
  unfold clock_writes
  rw [writes_status_events]
  rfl

/-- A handshake writes none of the clock registers. -/
theorem clock_writes_handshake (base : Nat) (es : List Event) (h : IsHandshake base es) :
    clock_writes base es = [] := by
  obtain ⟨rounds, last, rfl, _, _⟩ := h
  unfold clock_writes
  rw [List.filter_eq_nil_iff]
  intro w hw
  have hm : Event.wr w.1 w.2 ∈ handshake_events base rounds last :=
    (mem_writes_iff _ w.1 w.2).1 hw
  have := handshake_events_writes base rounds last w.1 w.2 hm
  simp only [DWMMC_CMD, DWMMC_RINTSTS, DWMMC_CLKENA, DWMMC_CLKDIV, DWMMC_CLKSRC,
    decide_eq_true_eq] at this ⊢
  omega

/-- A run of `dw_update_clk` that returns appends a handshake to the trace. -/
theorem dw_update_clk_is_handshake (p : dw_mmc_params_t) (hw : Nat → Nat) (fuel : Nat)
    (s s1 : State) (hrun : dw_update_clk p hw fuel s = .ok () s1) :
    ∃ es, IsHandshake p.reg_base es ∧ s1.trace = s.trace ++ es ∧ s.nread ≤ s1.nread := by
  obtain ⟨j, _, hset, hclear, hn, htr⟩ := dw_update_clk_ok p hw fuel s s1 hrun
  exact ⟨_, ⟨_, _, rfl, stream_rounds_start hw j s.nread hset, hclear⟩, htr, by omega⟩

/-- An idle wait of `dw_set_clk` that ends: reads of STATUS, the last of which
shows the controller not busy. -/
theorem dw_set_clk_idle_ok (hw : Nat → Nat) (base : Nat) :
    ∀ (fuel : Nat) (s s1 : State), dw_set_clk_idle hw base fuel s = .ok () s1 →
      ∃ n, 1 ≤ n ∧ hw (s.nread + (n - 1)) % 2 ^ 32 &&& STATUS_DATA_BUSY = 0 ∧
        (∀ j, j < n - 1 → hw (s.nread + j) % 2 ^ 32 &&& STATUS_DATA_BUSY ≠ 0) ∧
        s1.nread = s.nread + n ∧ s1.trace = s.trace ++ status_events hw base s.nread n := by
  intro fuel
  induction fuel with
  | zero => intro s s1 h; cases h
  | succ m ih =>
    intro s s1 h
    simp only [dw_set_clk_idle, bind_run, mmio_read_32] at h
    by_cases hb : hw s.nread % 2 ^ 32 &&& STATUS_DATA_BUSY ≠ 0
    · rw [if_pos hb] at h
      obtain ⟨n, h1, hclear, hset, hn, htr⟩ := ih _ _ h
      simp only at hclear hset hn htr
      refine ⟨n + 1, by omega, ?_, ?_, ?_, ?_⟩
      · rw [show s.nread + (n + 1 - 1) = s.nread + 1 + (n - 1) by omega]
        exact hclear
      · intro j hj
        cases j with
        | zero => exact hb
        | succ j =>
          have := hset j (by omega)
          rw [show s.nread + (j + 1) = s.nread + 1 + j by omega]
          exact this
      · rw [hn]; omega
      · rw [htr, status_events.eq_2 hw base s.nread n]
        simp
    · rw [if_neg hb] at h
      simp only [pure_run] at h
      injection h with _ hs
      subst hs
      exact ⟨1, by omega, by simpa using hb, fun j hj => absurd hj (by omega), rfl, rfl⟩

/-- C23: every run of `dw_set_clk` that completes consists of the idle wait
(reads of STATUS, the last showing the controller not busy) followed by exactly:
write CLKENA <- 0, a handshake, write CLKDIV <- the chosen divisor, a handshake,
write CLKENA <- 1, write CLKSRC <- 0, a handshake; so there are exactly three
handshakes, the writes to the clock registers are these four in this order, and
CLKDIV is written after the write that disables the clock and before the write
that enables it again. -/
theorem dw_set_clk_sequence (p : dw_mmc_params_t) (hw : Nat → Nat) (fuel : Nat) (clk : Int)
    (s s1 : State) (hrun : dw_set_clk p hw fuel clk s = .ok () s1) :
    ∃ n h1 h2 h3, 1 ≤ n ∧ hw (s.nread + (n - 1)) % 2 ^ 32 &&& STATUS_DATA_BUSY = 0 ∧
      IsHandshake p.reg_base h1 ∧ IsHandshake p.reg_base h2 ∧ IsHandshake p.reg_base h3 ∧
      s1.trace = s.trace ++
        (status_events hw p.reg_base s.nread n ++
          ([.wr (p.reg_base + DWMMC_CLKENA) 0] ++ (h1 ++
          ([.wr (p.reg_base + DWMMC_CLKDIV) (dw_set_clk_div p.clk_rate clk 255 1).toNat] ++ (h2 ++
          ([.wr (p.reg_base + DWMMC_CLKENA) 1, .wr (p.reg_base + DWMMC_CLKSRC) 0] ++ h3)))))) ∧
      clock_writes p.reg_base
        (status_events hw p.reg_base s.nread n ++
          ([.wr (p.reg_base + DWMMC_CLKENA) 0] ++ (h1 ++
          ([.wr (p.reg_base + DWMMC_CLKDIV) (dw_set_clk_div p.clk_rate clk 255 1).toNat] ++ (h2 ++
          ([.wr (p.reg_base + DWMMC_CLKENA) 1, .wr (p.reg_base + DWMMC_CLKSRC) 0] ++ h3)))))) =
        [(p.reg_base + DWMMC_CLKENA, 0),
         (p.reg_base + DWMMC_CLKDIV, (dw_set_clk_div p.clk_rate clk 255 1).toNat),
         (p.reg_base + DWMMC_CLKENA, 1), (p.reg_base + DWMMC_CLKSRC, 0)] := by
  unfold dw_set_clk at hrun
  obtain ⟨_, t1, ha1, hrun⟩ := bind_ok hrun
  obtain ⟨_, t2, ha2, hrun⟩ := bind_ok hrun
  obtain ⟨_, t3, hidle, hrun⟩ := bind_ok hrun
  obtain ⟨_, t4, hw1, hrun⟩ := bind_ok hrun
  obtain ⟨_, t5, hu1, hrun⟩ := bind_ok hrun
  obtain ⟨_, t6, hw2, hrun⟩ := bind_ok hrun
  obtain ⟨_, t7, hu2, hrun⟩ := bind_ok hrun
  obtain ⟨_, t8, hw3, hrun⟩ := bind_ok hrun
  obtain ⟨_, t9, hw4, hu3⟩ := bind_ok hrun
  have e1 : t1 = s := by
    unfold c_assert at ha1
    split at ha1
    · injection ha1 with _ hs; exact hs.symm
    · cases ha1
  have e2 : t2 = t1 := by
    unfold c_assert at ha2
    split at ha2
    · injection ha2 with _ hs; exact hs.symm
    · cases ha2
  subst e2; subst e1
  obtain ⟨n, hn1, hclear, _, _, htr3⟩ := dw_set_clk_idle_ok hw p.reg_base fuel _ t3 hidle
  have e4 : t4 = t3.log [.wr (p.reg_base + DWMMC_CLKENA) 0] := by
    injection hw1 with _ hs; exact hs.symm
  obtain ⟨h1, hh1, htr5, _⟩ := dw_update_clk_is_handshake p hw fuel t4 t5 hu1
  have e6 : t6 = t5.log
      [.wr (p.reg_base + DWMMC_CLKDIV) (dw_set_clk_div p.clk_rate clk 255 1).toNat] := by
    injection hw2 with _ hs; exact hs.symm
  obtain ⟨h2, hh2, htr7, _⟩ := dw_update_clk_is_handshake p hw fuel t6 t7 hu2
  have e8 : t8 = t7.log [.wr (p.reg_base + DWMMC_CLKENA) 1] := by
    injection hw3 with _ hs; exact hs.symm
  have e9 : t9 = t8.log [.wr (p.reg_base + DWMMC_CLKSRC) 0] := by
    injection hw4 with _ hs; exact hs.symm
  obtain ⟨h3, hh3, htr1, _⟩ := dw_update_clk_is_handshake p hw fuel t9 s1 hu3
  refine ⟨n, h1, h2, h3, hn1, hclear, hh1, hh2, hh3, ?_, ?_⟩
  · rw [htr1, e9, e8]
    simp only [State.log]
    rw [htr7, e6]
    simp only [State.log]
    rw [htr5, e4]
    simp only [State.log]
    rw [htr3]
    simp only [List.append_assoc, List.singleton_append, List.cons_append, List.nil_append]
  · simp only [clock_writes_append, clock_writes_status, clock_writes_handshake _ _ hh1,
      clock_writes_handshake _ _ hh2, clock_writes_handshake _ _ hh3, List.nil_append,
      List.append_nil]
    simp [clock_writes, writes]

set_option maxRecDepth 100000 in
/-- C23, at a concrete run: a 200 MHz source and a 400 kHz target on hardware
that answers 0 to every read. -/
theorem dw_set_clk_sequence_witness :
    dw_set_clk sampleParams (fun _ => 0) 1 400000 (State.start zeroDesc) = .ok () stClkSet ∧
    clock_writes sampleParams.reg_base stClkSet.trace =
      [(sampleParams.reg_base + DWMMC_CLKENA, 0), (sampleParams.reg_base + DWMMC_CLKDIV, 250),
       (sampleParams.reg_base + DWMMC_CLKENA, 1), (sampleParams.reg_base + DWMMC_CLKSRC, 0)] :=
  ⟨dw_set_clk_quiet_run sampleParams 400000 zeroDesc (by decide) (by decide),
   match dw_set_clk_sequence sampleParams (fun _ => 0) 1 400000 (State.start zeroDesc) stClkSet
      (dw_set_clk_quiet_run sampleParams 400000 zeroDesc (by decide) (by decide)) with
   | ⟨_, _, _, _, _, _, _, _, _, htr, hcw⟩ => (congrArg (clock_writes sampleParams.reg_base) htr).trans hcw⟩

/-! ## `init_dma`: the order of the descriptor writes, DBADDR and the cache clean -/

theorem stored_trace (s : State) (idx : Int) (f : Field) (v : Nat) :
    (s.stored idx f v).trace = s.trace ++ [.st idx f v] := rfl

theorem log_trace (s : State) (es : List Event) : (s.log es).trace = s.trace ++ es := rfl

/-- The loop of `init_dma` appends stores only, to the descriptors `i`, ...,
`i + k - 1`. -/
theorem init_dma_loop_trace (p : dw_mmc_params_t) (buf : Nat) :
    ∀ (k : Nat) (i : Int) (s : State),
      ∃ s1 sts, init_dma_loop p buf k i s = .ok () s1 ∧ s1.trace = s.trace ++ sts ∧
        (∀ e ∈ sts, e.isStore = true) ∧
        (0 ≤ i → i + k < 2 ^ 31 →
          ∀ idx f v, Event.st idx f v ∈ sts → i ≤ idx ∧ idx < i + k) := by
  intro k
  induction k with
  | zero =>
    intro i s
    exact ⟨s, [], rfl, by simp, by simp, by simp⟩
  | succ k ih =>
    intro i s
    rw [init_dma_loop_succ]
    obtain ⟨s1, sts, hrun, htr, hst, hidx⟩ := ih (toInt32 (i + 1))
      ((((s.stored i .des0 (IDMAC_DES0_OWN ||| IDMAC_DES0_CH ||| IDMAC_DES0_DIC)).stored
          i .des1 (IDMAC_DES1_BS1 DWMMC_DMA_MAX_BUFFER_SIZE)).stored
          i .des2
            ((buf + toU64 (toInt32 (DWMMC_DMA_MAX_BUFFER_SIZE * i))) % 2 ^ 64 % 2 ^ 32)).stored
          i .des3
            ((p.desc_base + SIZEOF_DESC * toU64 (toInt32 (i + 1)) % 2 ^ 64) % 2 ^ 64
              % 2 ^ 32))
    refine ⟨s1, [.st i .des0 (IDMAC_DES0_OWN ||| IDMAC_DES0_CH ||| IDMAC_DES0_DIC),
        .st i .des1 (IDMAC_DES1_BS1 DWMMC_DMA_MAX_BUFFER_SIZE),
        .st i .des2
          ((buf + toU64 (toInt32 (DWMMC_DMA_MAX_BUFFER_SIZE * i))) % 2 ^ 64 % 2 ^ 32),
        .st i .des3
          ((p.desc_base + SIZEOF_DESC * toU64 (toInt32 (i + 1)) % 2 ^ 64) % 2 ^ 64
            % 2 ^ 32)] ++ sts, hrun, ?_, ?_, ?_⟩
    · rw [htr]
      simp only [stored_trace, List.append_assoc, List.singleton_append, List.cons_append,
        List.nil_append]
    · intro e he
      simp only [List.cons_append, List.nil_append, List.mem_cons] at he
      rcases he with rfl | rfl | rfl | rfl | he
      · rfl
      · rfl
      · rfl
      · rfl
      · exact hst e he
    · intro hi hk idx f v hm
      have hi1 : toInt32 (i + 1) = i + 1 :=
        toInt32_of_range (i + 1) (by omega) (by push_cast at hk; omega)
      simp only [List.cons_append, List.nil_append, List.mem_cons, Event.st.injEq] at hm
      rcases hm with hm | hm | hm | hm | hm
      · rw [hm.1]; push_cast; omega
      · rw [hm.1]; push_cast; omega
      · rw [hm.1]; push_cast; omega
      · rw [hm.1]; push_cast; omega
      · have := hidx (by rw [hi1]; omega) (by rw [hi1]; push_cast at hk ⊢; omega) idx f v hm
        rw [hi1] at this
        push_cast at this ⊢
        omega

/-- The part of `init_dma` after the loop appends stores to `desc[0]` and
`desc[last]`, then the write of DBADDR, then the cache clean. -/
theorem init_dma_finish_trace (p : dw_mmc_params_t) (size : Nat) (n : Int) (s1 : State) :
    ∃ s6 sts, init_dma_finish p size n s1 = .ok () s6 ∧
      s6.trace = s1.trace ++ sts ++
        [.wr (p.reg_base + DWMMC_DBADDR) (p.desc_base % 2 ^ 32),
         .clean p.desc_base (toU64 (toInt32 (n * DWMMC_DMA_MAX_BUFFER_SIZE)))] ∧
      (∀ e ∈ sts, e.isStore = true) ∧
      (∀ idx f v, Event.st idx f v ∈ sts → idx = 0 ∨ idx = toInt32 (n - 1)) ∧
      Event.st 0 .des0 ((s1.desc 0).des0 ||| IDMAC_DES0_FS) ∈ sts ∧
      Event.st (toInt32 (n - 1)) .des3 0 ∈ sts := by
  simp only [init_dma_finish, bind_run, load_run, store_run, mmio_write_32, emit_run]
  refine ⟨_, [.st 0 .des0 (((s1.desc 0).get .des0) ||| IDMAC_DES0_FS),
    .st (toInt32 (n - 1)) .des0
      (((s1.stored 0 .des0 ((s1.desc 0).get .des0 ||| IDMAC_DES0_FS)).desc
        (toInt32 (n - 1))).get .des0 ||| IDMAC_DES0_LD),
    .st (toInt32 (n - 1)) .des0
      ((((s1.stored 0 .des0 ((s1.desc 0).get .des0 ||| IDMAC_DES0_FS)).stored
        (toInt32 (n - 1)) .des0
        (((s1.stored 0 .des0 ((s1.desc 0).get .des0 ||| IDMAC_DES0_FS)).desc
          (toInt32 (n - 1))).get .des0 ||| IDMAC_DES0_LD)).desc (toInt32 (n - 1))).get .des0 &&&
        not32 (IDMAC_DES0_DIC ||| IDMAC_DES0_CH)),
    .st (toInt32 (n - 1)) .des1
      (IDMAC_DES1_BS1
        ((size + 2 ^ 64 - toU64 (toInt32 (toInt32 (n - 1) * DWMMC_DMA_MAX_BUFFER_SIZE))) %
          2 ^ 64)),
    .st (toInt32 (n - 1)) .des3 0], rfl, ?_, ?_, ?_, ?_, ?_⟩
  · simp only [log_trace, stored_trace, List.append_assoc, List.singleton_append,
      List.cons_append, List.nil_append]
  · intro e he
    simp only [List.mem_cons, List.mem_singleton, List.not_mem_nil, or_false] at he
    rcases he with rfl | rfl | rfl | rfl | rfl <;> rfl
  · intro idx f v hm
    simp only [List.mem_cons, Event.st.injEq, List.mem_singleton, List.not_mem_nil,
      or_false] at hm
    rcases hm with hm | hm | hm | hm | hm
    · exact Or.inl hm.1
    · exact Or.inr hm.1
    · exact Or.inr hm.1
    · exact Or.inr hm.1
    · exact Or.inr hm.1
  · exact List.mem_cons_self _ _
  · simp

/-- The loop of `init_dma` followed by the rest of the function, for any value
`n` of `desc_cnt`: stores, then the write of DBADDR, then the cache clean. -/
theorem init_dma_body_trace (p : dw_mmc_params_t) (buf size : Nat) (s : State) (n : Int) :
    ∃ s1 sts,
      (init_dma_loop p buf n.toNat 0 >>= fun _ => init_dma_finish p size n) s = .ok () s1 ∧
      s1.trace = s.trace ++ sts ++
        [.wr (p.reg_base + DWMMC_DBADDR) (p.desc_base % 2 ^ 32),
         .clean p.desc_base (toU64 (toInt32 (n * DWMMC_DMA_MAX_BUFFER_SIZE)))] ∧
      (∀ e ∈ sts, e.isStore = true) ∧
      (1 ≤ n → n < 2 ^ 31 → ∀ idx f v, Event.st idx f v ∈ sts → 0 ≤ idx ∧ idx < n) ∧
      Event.st (toInt32 (n - 1)) .des3 0 ∈ sts := by
  generalize hkn : n.toNat = k
  obtain ⟨s1, sts1, hrun, htr1, hst1, hidx1⟩ := init_dma_loop_trace p buf k 0 s
  obtain ⟨s6, sts2, hfin, htr2, hst2, hidx2, _, hlast⟩ := init_dma_finish_trace p size n s1
  refine ⟨s6, sts1 ++ sts2, ?_, ?_, ?_, ?_, List.mem_append_right _ hlast⟩
  · rw [bind_run, hrun]
    exact hfin
  · rw [htr2, htr1]
    simp only [List.append_assoc]
  · intro e he
    rcases List.mem_append.1 he with he | he
    · exact hst1 e he
    · exact hst2 e he
  · intro h1 h2 idx f v hm
    rcases List.mem_append.1 hm with hm | hm
    · have := hidx1 (le_refl _) (by omega) idx f v hm
      omega
    · have hl : toInt32 (n - 1) = n - 1 := toInt32_of_range (n - 1) (by omega) (by omega)
      rcases hidx2 idx f v hm with h0 | h0
      · omega
      · rw [hl] at h0; omega

/-- A run of `init_dma` that passes the capacity check: stores, then the write
of DBADDR, then the cache clean. -/
theorem init_dma_trace (p : dw_mmc_params_t) (buf size : Nat) (s : State)
    (ha : toU64 (init_dma_desc_cnt size) * SIZEOF_DESC % 2 ^ 64 < p.desc_size) :
    ∃ s1 sts, init_dma false p buf size s = .ok () s1 ∧
      s1.trace = s.trace ++ sts ++
        [.wr (p.reg_base + DWMMC_DBADDR) (p.desc_base % 2 ^ 32),
         .clean p.desc_base
           (toU64 (toInt32 (init_dma_desc_cnt size * DWMMC_DMA_MAX_BUFFER_SIZE)))] ∧
      (∀ e ∈ sts, e.isStore = true) ∧
      (1 ≤ init_dma_desc_cnt size → init_dma_desc_cnt size < 2 ^ 31 →
        ∀ idx f v, Event.st idx f v ∈ sts → 0 ≤ idx ∧ idx < init_dma_desc_cnt size) ∧
      Event.st (toInt32 (init_dma_desc_cnt size - 1)) .des3 0 ∈ sts := by
  rw [init_dma_eq, if_pos ha]
  exact init_dma_body_trace p buf size s (init_dma_desc_cnt size)

/-- C25 as stated fails in the value written to DBADDR: with the descriptor ring
at address 2^32 the register is written with 0, the low 32 bits of
`desc_base`, not with `desc_base`. -/
theorem init_dma_order_counterexample :
    sampleParamsHigh.desc_base = 2 ^ 32 ∧
    (init_dma false sampleParamsHigh 0x80000 512 (State.start zeroDesc)).stopped = none ∧
    writes (init_dma false sampleParamsHigh 0x80000 512 (State.start zeroDesc)).state.trace =
      [(sampleParamsHigh.reg_base + DWMMC_DBADDR, 0)] := by
  refine ⟨by decide, by decide, by decide⟩

/-- C25, amended: in the DMA build, for every run of `init_dma` that passes the
capacity check, the trace of the call is stores to descriptor fields, then the
write of DBADDR with the low 32 bits of `desc_base`, then the cache-clean call
starting at `desc_base`: every descriptor field write happens before both; and
for every size from 1 to 2^31 - 4096 bytes the length of the cleaned range is
4096 bytes times the number of descriptors and the range covers every byte of
every descriptor written (descriptor `idx` occupies the 16 bytes from
`desc_base + 16 * idx`). -/
theorem init_dma_order (p : dw_mmc_params_t) (buf size : Nat) (s s1 : State)
    (hok : init_dma false p buf size s = .ok () s1) :
    ∃ sts, s1.trace = s.trace ++ sts ++
        [.wr (p.reg_base + DWMMC_DBADDR) (p.desc_base % 2 ^ 32),
         .clean p.desc_base
           (toU64 (toInt32 (init_dma_desc_cnt size * DWMMC_DMA_MAX_BUFFER_SIZE)))] ∧
      (∀ e ∈ sts, e.isStore = true) ∧
      (1 ≤ size → size ≤ 2 ^ 31 - 4096 →
        toU64 (toInt32 (init_dma_desc_cnt size * DWMMC_DMA_MAX_BUFFER_SIZE)) =
          4096 * ((size + 4095) / 4096) ∧
        ∀ idx f v, Event.st idx f v ∈ sts →
          0 ≤ idx ∧ idx < (((size + 4095) / 4096 : Nat) : Int) ∧
          16 * (idx + 1) ≤ ((4096 * ((size + 4095) / 4096) : Nat) : Int)) := by
  by_cases ha : toU64 (init_dma_desc_cnt size) * SIZEOF_DESC % 2 ^ 64 < p.desc_size
  swap
  · rw [init_dma_fail p buf size s ha] at hok; cases hok
  obtain ⟨s2, sts, hrun, htr, hst, hidx, _⟩ := init_dma_trace p buf size s ha
  rw [hok] at hrun
  cases hrun
  refine ⟨sts, htr, hst, ?_⟩
  intro h1 hsz
  have hcnt := init_dma_desc_cnt_small size (by omega)
  have hm1 : 1 ≤ (size + 4095) / 4096 := by omega
  have hm2 : (size + 4095) / 4096 ≤ 2 ^ 19 := by omega
  constructor
  · rw [hcnt]
    rw [conv_small ((((size + 4095) / 4096 : Nat) : Int) * DWMMC_DMA_MAX_BUFFER_SIZE)
      (4096 * ((size + 4095) / 4096))
      (by simp only [DWMMC_DMA_MAX_BUFFER_SIZE]; push_cast; omega) (by omega)]
  · intro idx f v hm
    have := hidx (by rw [hcnt]; omega) (by rw [hcnt]; omega) idx f v hm
    rw [hcnt] at this
    refine ⟨this.1, this.2, ?_⟩
    push_cast
    omega

set_option maxRecDepth 100000 in
/-- C25, amended, at a concrete run: 10000 bytes, three descriptors. -/
theorem init_dma_order_witness :
    (init_dma false sampleParams 0x80000 10000 (State.start zeroDesc)).value = some () ∧
    reads (init_dma false sampleParams 0x80000 10000 (State.start zeroDesc)).state.trace = [] ∧
    ∃ sts,
      (init_dma false sampleParams 0x80000 10000 (State.start zeroDesc)).state.trace =
        (State.start zeroDesc).trace ++ sts ++
          [.wr (sampleParams.reg_base + DWMMC_DBADDR) (sampleParams.desc_base % 2 ^ 32),
           .clean sampleParams.desc_base
             (toU64 (toInt32 (init_dma_desc_cnt 10000 * DWMMC_DMA_MAX_BUFFER_SIZE)))] ∧
      (∀ e ∈ sts, e.isStore = true) ∧
      (1 ≤ 10000 → 10000 ≤ 2 ^ 31 - 4096 →
        toU64 (toInt32 (init_dma_desc_cnt 10000 * DWMMC_DMA_MAX_BUFFER_SIZE)) =
          4096 * ((10000 + 4095) / 4096) ∧
        ∀ idx f v, Event.st idx f v ∈ sts →
          0 ≤ idx ∧ idx < (((10000 + 4095) / 4096 : Nat) : Int) ∧
          16 * (idx + 1) ≤ ((4096 * ((10000 + 4095) / 4096) : Nat) : Int)) :=
  ⟨by decide, by decide,
   init_dma_order sampleParams 0x80000 10000 (State.start zeroDesc) _
     (Result.eq_ok_of_value _ () (by decide))⟩

/-- For every size from 1 to 2^31 - 4096 bytes, every descriptor store of a run
of `init_dma` that passes the capacity check lands at an index in
`0..desc_cnt-1` and inside the region of `desc_size` bytes from `desc_base`. -/
theorem init_dma_stores_in_region (p : dw_mmc_params_t) (buf size : Nat) (s s1 : State)
    (hok : init_dma false p buf size s = .ok () s1) (h1 : 1 ≤ size)
    (hsz : size ≤ 2 ^ 31 - 4096) :
    ∃ sts, s1.trace = s.trace ++ sts ++
        [.wr (p.reg_base + DWMMC_DBADDR) (p.desc_base % 2 ^ 32),
         .clean p.desc_base
           (toU64 (toInt32 (init_dma_desc_cnt size * DWMMC_DMA_MAX_BUFFER_SIZE)))] ∧
      ∀ idx f v, Event.st idx f v ∈ sts →
        0 ≤ idx ∧ idx < init_dma_desc_cnt size ∧ 16 * (idx + 1) < (p.desc_size : Int) := by
  by_cases ha : toU64 (init_dma_desc_cnt size) * SIZEOF_DESC % 2 ^ 64 < p.desc_size
  swap
  · rw [init_dma_fail p buf size s ha] at hok; cases hok
  obtain ⟨s2, sts, hrun, htr, _, hidx, _⟩ := init_dma_trace p buf size s ha
  rw [hok] at hrun
  cases hrun
  refine ⟨sts, htr, ?_⟩
  intro idx f v hm
  have hcnt := init_dma_desc_cnt_small size (by omega)
  have hm1 : 1 ≤ (size + 4095) / 4096 := by omega
  have hm2 : (size + 4095) / 4096 ≤ 2 ^ 19 := by omega
  have := hidx (by rw [hcnt]; omega) (by rw [hcnt]; omega) idx f v hm
  rw [hcnt, toU64_natCast _ (by omega)] at ha
  simp only [SIZEOF_DESC] at ha
  rw [hcnt] at this ⊢
  refine ⟨this.1, this.2, ?_⟩
  have ha2 : (size + 4095) / 4096 * 16 < p.desc_size := by omega
  omega

set_option maxRecDepth 100000 in
/-- C26 at size 0: with a configuration that `dw_mmc_init` accepts, a request of
size 0 passes the alignment check of `dw_prepare` and the capacity check of
`init_dma` (`desc_cnt` is 0), and `init_dma` then stores to `desc[0]` and to
`desc[-1]`: a negative index, below `desc_base`. -/
theorem init_dma_size_zero :
    dw_mmc_init_assert sampleDefs sampleParams = true ∧
    (dw_mmc_init sampleDefs (some sampleParams) (State.start zeroDesc)).stopped = none ∧
    init_dma_desc_cnt 0 = 0 ∧
    (dw_prepare false sampleParams 0 0 0x80000 0 (State.start zeroDesc)).value = some 0 ∧
    (dw_prepare false sampleParams 0 0 0x80000 0 (State.start zeroDesc)).state.trace =
      [.wr (sampleParams.reg_base + DWMMC_BYTCNT) 0,
       .wr (sampleParams.reg_base + DWMMC_RINTSTS) ALL_ONES,
       .st 0 .des0 8,
       .st (-1) .des0 4,
       .st (-1) .des0 4,
       .st (-1) .des1 4096,
       .st (-1) .des3 0,
       .wr (sampleParams.reg_base + DWMMC_DBADDR) 0x2000,
       .clean 0x2000 0] := by
  refine ⟨by decide, by decide, by decide, by decide, by decide⟩

end DwMmc

namespace BluefieldSystem

/-! ## Lookup by name -/

/-- The scan of `get_sys_idx_via_name` decides the matching rule. -/
theorem get_sys_idx_via_name_scan_iff (pat : List Char) :
    ∀ name, get_sys_idx_via_name_scan pat name = true ↔ MatchesPrefix pat name := by
  induction pat with
  | nil =>
    intro name
    simp only [get_sys_idx_via_name_scan, true_iff]
    exact ⟨[], name, rfl, List.Forall₂.nil⟩
  | cons m ms ih =>
    intro name
    cases name with
    | nil =>
      simp only [get_sys_idx_via_name_scan, Bool.false_eq_true, false_iff]
      rintro ⟨pre, rest, hname, hall⟩
      cases hall with
      | cons _ _ => simp at hname
    | cons c cs =>
      simp only [get_sys_idx_via_name_scan]
      constructor
      · intro hscan
        by_cases hbr : m ≠ 'x' ∧ m ≠ c
        · rw [if_pos hbr] at hscan; cases hscan
        · rw [if_neg hbr] at hscan
          obtain ⟨pre, rest, hname, hall⟩ := (ih cs).1 hscan
          refine ⟨c :: pre, rest, by rw [hname]; rfl, List.Forall₂.cons ?_ hall⟩
          by_cases hx : m = 'x'
          · exact Or.inl hx
          · by_cases hc : m = c
            · exact Or.inr hc
            · exact absurd ⟨hx, hc⟩ hbr
      · rintro ⟨pre, rest, hname, hall⟩
        cases hall with
        | cons hhead htail =>
          rename_i c1 pre1
          simp only [List.cons_append, List.cons.injEq] at hname
          have hbr : ¬ (m ≠ 'x' ∧ m ≠ c) := by
            rintro ⟨hx, hc⟩
            rcases hhead with h | h
            · exact hx h
            · exact hc (h.trans hname.1.symm)
          rw [if_neg hbr]
          exact (ih cs).2 ⟨pre1, rest, hname.2, htail⟩

/-- A loop over a table that returns the index of the first entry passing a
test: the value when entry `k` is the first to pass. -/
theorem get_sys_idx_via_name_loop_found (name : List Char) :
    ∀ (entries : List sys_info) (i0 : Int) (k : Nat) (e : sys_info),
      entries.get? k = some e → get_sys_idx_via_name_scan e.sys_name name = true →
      (∀ (j : Nat) (e1 : sys_info), j < k → entries.get? j = some e1 →
        get_sys_idx_via_name_scan e1.sys_name name = false) →
      get_sys_idx_via_name_loop name entries i0 = i0 + k := by
  intro entries
  induction entries with
  | nil => intro i0 k e hk; cases hk
  | cons e0 rest ih =>
    intro i0 k e hk hscan hfirst
    cases k with
    | zero =>
      simp only [List.get?_cons_zero, Option.some.injEq] at hk
      simp only [get_sys_idx_via_name_loop, hk, hscan, if_true]
      simp
    | succ k =>
      have h0 := hfirst 0 e0 (by omega) rfl
      simp only [get_sys_idx_via_name_loop, h0, Bool.false_eq_true, if_false]
      rw [ih (i0 + 1) k e (by simpa using hk) hscan
        (fun j e1 hj hget => hfirst (j + 1) e1 (by omega) (by simpa using hget))]
      push_cast
      ring

theorem get_sys_idx_via_name_loop_none (name : List Char) :
    ∀ (entries : List sys_info) (i0 : Int),
      (∀ e ∈ entries, get_sys_idx_via_name_scan e.sys_name name = false) →
      get_sys_idx_via_name_loop name entries i0 = -1 := by
  intro entries
  induction entries with
  | nil => intro i0 _; rfl
  | cons e0 rest ih =>
    intro i0 hall
    simp only [get_sys_idx_via_name_loop, hall e0 (List.mem_cons_self _ _),
      Bool.false_eq_true, if_false]
    exact ih (i0 + 1) (fun e he => hall e (List.mem_cons_of_mem _ he))

theorem scan_false_of_not_matches (pat name : List Char) (h : ¬ MatchesPrefix pat name) :
    get_sys_idx_via_name_scan pat name = false := by
  cases hs : get_sys_idx_via_name_scan pat name with
  | false => rfl
  | true => exact absurd ((get_sys_idx_via_name_scan_iff pat name).1 hs) h

/-- C19: `get_sys_idx_via_name` returns -1 for a NULL name; otherwise it returns
the smallest index of `known_systems` whose `sys_name` matches a prefix of the
name (a character `x` of `sys_name` matching any one character, every other
character having to be equal), and -1 when no entry matches.  The name
"MBF1M616A-CECAT" gives index 8, the entry named "MBF1M6x6A-CE". -/
theorem get_sys_idx_via_name_spec :
    get_sys_idx_via_name none = -1 ∧
    (∀ (name : List Char) (i : Nat) (e : sys_info), known_systems.get? i = some e →
      MatchesPrefix e.sys_name name →
      (∀ (k : Nat) (e1 : sys_info), k < i → known_systems.get? k = some e1 →
        ¬ MatchesPrefix e1.sys_name name) →
      get_sys_idx_via_name (some name) = i) ∧
    (∀ name : List Char, (∀ e ∈ known_systems, ¬ MatchesPrefix e.sys_name name) →
      get_sys_idx_via_name (some name) = -1) ∧
    get_sys_idx_via_name (some "MBF1M616A-CECAT".toList) = 8 ∧
    (known_systems.get? 8).map sys_info.sys_name = some "MBF1M6x6A-CE".toList := by
  refine ⟨rfl, ?_, ?_, by decide, by decide⟩
  · intro name i e hget hmatch hfirst
    have := get_sys_idx_via_name_loop_found name known_systems 0 i e hget
      ((get_sys_idx_via_name_scan_iff _ _).2 hmatch)
      (fun j e1 hj hg => scan_false_of_not_matches _ _ (hfirst j e1 hj hg))
    rw [Int.zero_add] at this
    exact this
  · intro name hall
    exact get_sys_idx_via_name_loop_none name known_systems 0
      (fun e he => scan_false_of_not_matches _ _ (hall e he))

/-! ## Lookup by PSID -/

theorem is_digit_iff (c : Char) : is_digit c = true ↔ (c ≥ '0' ∧ c ≤ '9') := by
  unfold is_digit
  simp

/-- A string without a digit leaves `psid` at -1. -/
theorem get_sys_idx_via_psid_parse_none :
    ∀ str : List Char, (∀ c ∈ str, is_digit c = false) → get_sys_idx_via_psid_parse str = -1 := by
  intro str
  induction str with
  | nil => intro _; rfl
  | cons c cs ih =>
    intro hall
    have hc : ¬ (c ≥ '0' ∧ c ≤ '9') := by
      intro h
      have := hall c (List.mem_cons_self _ _)
      rw [(is_digit_iff c).2 h] at this
      cases this
    simp only [get_sys_idx_via_psid_parse, if_neg hc]
    exact ih (fun c1 h1 => hall c1 (List.mem_cons_of_mem _ h1))

theorem takeWhile_digits (ds rest : List Char) (hds : ∀ c ∈ ds, is_digit c = true)
    (hrest : ∀ c, rest.head? = some c → is_digit c = false) :
    (ds ++ rest).takeWhile is_digit = ds := by
  induction ds with
  | nil =>
    cases rest with
    | nil => rfl
    | cons r rs =>
      simp only [List.nil_append, List.takeWhile_cons, hrest r rfl]
      rfl
  | cons d ds ih =>
    simp only [List.cons_append, List.takeWhile_cons, hds d (List.mem_cons_self _ _), if_true]
    rw [ih (fun c hc => hds c (List.mem_cons_of_mem _ hc))]

/-- The value of `psid` after the first loop: the run of digits that follows the
leading non-digit text, as a `long` cut to an `int`. -/
theorem get_sys_idx_via_psid_parse_digits (ds rest : List Char) (hne : ds ≠ [])
    (hds : ∀ c ∈ ds, is_digit c = true)
    (hrest : ∀ c, rest.head? = some c → is_digit c = false) :
    ∀ pre : List Char, (∀ c ∈ pre, is_digit c = false) →
      get_sys_idx_via_psid_parse (pre ++ ds ++ rest) =
        DwMmc.toInt32 ((min (decimal_value ds) (2 ^ 63 - 1) : Nat) : Int) := by
  intro pre
  induction pre with
  | nil =>
    intro _
    cases ds with
    | nil => exact absurd rfl hne
    | cons d ds1 =>
      have hd := (is_digit_iff d).1 (hds d (List.mem_cons_self _ _))
      simp only [List.nil_append, List.cons_append, get_sys_idx_via_psid_parse, if_pos hd, strtol,
        List.append_eq]
      have := takeWhile_digits (d :: ds1) rest hds hrest
      simp only [List.cons_append] at this
      rw [this]
  | cons c cs ih =>
    intro hall
    have hc : ¬ (c ≥ '0' ∧ c ≤ '9') := by
      intro h
      have := hall c (List.mem_cons_self _ _)
      rw [(is_digit_iff c).2 h] at this
      cases this
    simp only [List.cons_append, get_sys_idx_via_psid_parse, if_neg hc]
    have := ih (fun c1 h1 => hall c1 (List.mem_cons_of_mem _ h1))
    simpa using this

/-- The scan of a PSID array finds `psid` exactly when it is listed before the
terminating 0. -/
theorem get_sys_idx_via_psid_scan_iff (psid : Int) :
    ∀ vals : List Nat, get_sys_idx_via_psid_scan psid vals = true ↔
      ∃ v ∈ vals.takeWhile (fun v => v ≠ 0), psid = (v : Int) := by
  intro vals
  induction vals with
  | nil => simp [get_sys_idx_via_psid_scan]
  | cons v vs ih =>
    simp only [get_sys_idx_via_psid_scan]
    by_cases h0 : v = 0
    · simp [h0]
    · rw [if_neg h0]
      by_cases hp : psid = (v : Int)
      · rw [if_pos hp]
        simp only [true_iff]
        exact ⟨v, by simp [List.takeWhile_cons, h0], hp⟩
      · rw [if_neg hp, ih]
        simp only [List.takeWhile_cons, h0, ne_eq, not_false_eq_true, decide_True, if_true,
          List.mem_cons, exists_eq_or_imp, hp, false_or]

theorem get_sys_idx_via_psid_loop_found (psid : Int) :
    ∀ (entries : List sys_info) (i0 : Int) (k : Nat) (e : sys_info),
      entries.get? k = some e → get_sys_idx_via_psid_scan psid e.psid_vals = true →
      (∀ (j : Nat) (e1 : sys_info), j < k → entries.get? j = some e1 →
        get_sys_idx_via_psid_scan psid e1.psid_vals = false) →
      get_sys_idx_via_psid_loop psid entries i0 = i0 + k := by
  intro entries
  induction entries with
  | nil => intro i0 k e hk; cases hk
  | cons e0 rest ih =>
    intro i0 k e hk hscan hfirst
    cases k with
    | zero =>
      simp only [List.get?_cons_zero, Option.some.injEq] at hk
      simp only [get_sys_idx_via_psid_loop, hk, hscan, if_true]
      simp
    | succ k =>
      have h0 := hfirst 0 e0 (by omega) rfl
      simp only [get_sys_idx_via_psid_loop, h0, Bool.false_eq_true, if_false]
      rw [ih (i0 + 1) k e (by simpa using hk) hscan
        (fun j e1 hj hget => hfirst (j + 1) e1 (by omega) (by simpa using hget))]
      push_cast
      ring

theorem get_sys_idx_via_psid_loop_none (psid : Int) :
    ∀ (entries : List sys_info) (i0 : Int),
      (∀ e ∈ entries, get_sys_idx_via_psid_scan psid e.psid_vals = false) →
      get_sys_idx_via_psid_loop psid entries i0 = -1 := by
  intro entries
  induction entries with
  | nil => intro i0 _; rfl
  | cons e0 rest ih =>
    intro i0 hall
    simp only [get_sys_idx_via_psid_loop, hall e0 (List.mem_cons_self _ _),
      Bool.false_eq_true, if_false]
    exact ih (i0 + 1) (fun e he => hall e (List.mem_cons_of_mem _ he))

theorem psid_scan_false (psid : Int) (e : sys_info)
    (h : ¬ ∃ v ∈ listed_psids e, psid = (v : Int)) :
    get_sys_idx_via_psid_scan psid e.psid_vals = false := by
  cases hs : get_sys_idx_via_psid_scan psid e.psid_vals with
  | false => rfl
  | true => exact absurd ((get_sys_idx_via_psid_scan_iff psid _).1 hs) h

/-- C20 as stated fails: the string "MT_4294967414" carries the decimal number
4294967414 (2^32 + 118), which is in no PSID list, yet the function returns
index 1: the number is cut to an `int` before the search. -/
theorem get_sys_idx_via_psid_counterexample :
    get_sys_idx_via_psid (some "MT_4294967414".toList) = 1 ∧
    decimal_value "4294967414".toList = 4294967414 ∧
    ∀ e ∈ known_systems, 4294967414 ∉ listed_psids e := by
  refine ⟨by decide, by decide, by decide⟩

/-- C20, amended: `get_sys_idx_via_psid` returns -1 for a NULL string and for a
string with no digit; otherwise, with `psid` the decimal number that follows the
leading non-digit text, limited to `LONG_MAX` and cut to a 32-bit `int` (a
number below 2^31 is kept as it is), it returns -1 when `psid <= 0`, the
smallest index of `known_systems` whose PSID list contains `psid` when there is
one, and -1 when `psid` is in no list.  "MT_0000000118" gives index 1, the entry
"MBE1x0x", whose list contains 118. -/
theorem get_sys_idx_via_psid_spec :
    get_sys_idx_via_psid none = -1 ∧
    (∀ str : List Char, (∀ c ∈ str, is_digit c = false) →
      get_sys_idx_via_psid (some str) = -1) ∧
    (∀ (pre ds rest : List Char) (psid : Int), (∀ c ∈ pre, is_digit c = false) → ds ≠ [] →
      (∀ c ∈ ds, is_digit c = true) → (∀ c, rest.head? = some c → is_digit c = false) →
      psid = DwMmc.toInt32 ((min (decimal_value ds) (2 ^ 63 - 1) : Nat) : Int) →
      (decimal_value ds < 2 ^ 31 → psid = (decimal_value ds : Int)) ∧
      (psid ≤ 0 → get_sys_idx_via_psid (some (pre ++ ds ++ rest)) = -1) ∧
      (∀ (i : Nat) (e : sys_info), 0 < psid → known_systems.get? i = some e →
        (∃ v ∈ listed_psids e, psid = (v : Int)) →
        (∀ (k : Nat) (e1 : sys_info), k < i → known_systems.get? k = some e1 →
          ¬ ∃ v ∈ listed_psids e1, psid = (v : Int)) →
        get_sys_idx_via_psid (some (pre ++ ds ++ rest)) = i) ∧
      ((∀ e ∈ known_systems, ¬ ∃ v ∈ listed_psids e, psid = (v : Int)) →
        get_sys_idx_via_psid (some (pre ++ ds ++ rest)) = -1)) ∧
    get_sys_idx_via_psid (some "MT_0000000118".toList) = 1 ∧
    (known_systems.get? 1).map (fun e => (e.sys_name, decide (118 ∈ listed_psids e))) =
      some ("MBE1x0x".toList, true) := by
  refine ⟨rfl, ?_, ?_, by decide, by decide⟩
  · intro str hall
    unfold get_sys_idx_via_psid
    simp only [get_sys_idx_via_psid_parse_none str hall]
    rfl
  · intro pre ds rest psid hpre hne hds hrest hpsid
    have hparse := get_sys_idx_via_psid_parse_digits ds rest hne hds hrest pre hpre
    rw [← hpsid] at hparse
    refine ⟨?_, ?_, ?_, ?_⟩
    · intro hlt
      rw [hpsid, Nat.min_eq_left (by omega)]
      exact DwMmc.toInt32_of_range _ (by omega) (by omega)
    · intro hle
      unfold get_sys_idx_via_psid
      simp only [hparse, if_pos hle]
    · intro i e hpos hget hin hfirst
      unfold get_sys_idx_via_psid
      simp only [hparse, if_neg (not_le.2 hpos)]
      have := get_sys_idx_via_psid_loop_found psid known_systems 0 i e hget
        ((get_sys_idx_via_psid_scan_iff psid _).2 hin)
        (fun j e1 hj hg => psid_scan_false psid e1 (hfirst j e1 hj hg))
      rw [Int.zero_add] at this
      exact this
    · intro hall
      unfold get_sys_idx_via_psid
      simp only [hparse]
      split
      · rfl
      · exact get_sys_idx_via_psid_loop_none psid known_systems 0
          (fun e he => psid_scan_false psid e (hall e he))

/-! ## The table is unambiguous -/

set_option maxRecDepth 100000 in
theorem known_systems_checked :
    (List.range known_systems.length).all (fun i =>
      match known_systems.get? i with
      | some e => entry_unambiguous i e
      | none => true) = true := by
  decide

/-- C27: the table `known_systems` is unambiguous under both lookups: for every
index `i`, `get_sys_idx_via_name` applied to the name of entry `i` returns `i`
("MBF1L516A-CSNAT_C11" at index 6 and "MBF1L516A" at index 7 each resolve to
themselves), and for every PSID listed by entry `i`, `get_sys_idx_via_psid`
applied to the decimal string of the PSID returns `i`; no PSID is listed by two
entries. -/
theorem known_systems_unambiguous :
    (∀ (i : Nat) (e : sys_info), known_systems.get? i = some e →
      get_sys_idx_via_name (some e.sys_name) = (i : Int)) ∧
    (∀ (i : Nat) (e : sys_info) (v : Nat), known_systems.get? i = some e →
      v ∈ listed_psids e →
      get_sys_idx_via_psid (some (decimal_string v)) = (i : Int) ∧
        decimal_value (decimal_string v) = v) ∧
    (∀ (i j : Nat) (e1 e2 : sys_info) (v : Nat), known_systems.get? i = some e1 →
      known_systems.get? j = some e2 → v ∈ listed_psids e1 → v ∈ listed_psids e2 → i = j) ∧
    get_sys_idx_via_name (some "MBF1L516A-CSNAT_C11".toList) = 6 ∧
    get_sys_idx_via_name (some "MBF1L516A".toList) = 7 ∧
    (known_systems.get? 6).map sys_info.sys_name = some "MBF1L516A-CSNAT_C11".toList ∧
    (known_systems.get? 7).map sys_info.sys_name = some "MBF1L516A".toList := by
  have hall : ∀ (i : Nat) (e : sys_info), known_systems.get? i = some e →
      entry_unambiguous i e = true := by
    intro i e hget
    have hlt : i < known_systems.length := by
      rcases Nat.lt_or_ge i known_systems.length with h | h
      · exact h
      · rw [List.get?_eq_none.2 h] at hget; cases hget
    have := List.all_eq_true.1 known_systems_checked i (List.mem_range.2 hlt)
    rw [hget] at this
    exact this
  have hpsid : ∀ (i : Nat) (e : sys_info) (v : Nat), known_systems.get? i = some e →
      v ∈ listed_psids e →
      get_sys_idx_via_psid (some (decimal_string v)) = (i : Int) ∧
        decimal_value (decimal_string v) = v := by
    intro i e v hget hv
    have h := hall i e hget
    unfold entry_unambiguous at h
    rw [Bool.and_eq_true] at h
    have h2 := List.all_eq_true.1 h.2 v hv
    rw [Bool.and_eq_true] at h2
    exact ⟨of_decide_eq_true h2.1, of_decide_eq_true h2.2⟩
  refine ⟨?_, hpsid, ?_, by decide, by decide, by decide, by decide⟩
  · intro i e hget
    have h := hall i e hget
    unfold entry_unambiguous at h
    rw [Bool.and_eq_true] at h
    exact of_decide_eq_true h.1
  · intro i j e1 e2 v h1 h2 hv1 hv2
    have a := (hpsid i e1 v h1 hv1).1
    have b := (hpsid j e2 v h2 hv2).1
    rw [a] at b
    exact_mod_cast b

end BluefieldSystem
